import Mathlib

/-!
# Orbital compositor: window-management core

A shallow embedding of the parts of `src/compositor/shellsurface.cpp`,
`src/compositor/shell.cpp` and `src/compositor/layer.cpp` that decide the
specification's claims, followed by the theorems that settle them.

Conventions of the embedding

* C++ objects are identified by natural-number ids (outputs, seats, views,
  workspaces, layers); a null pointer is `none`.
* `int` values are `Int`; no arithmetic in the embedded functions can leave the
  32-bit range unless stated at the definition.
* Qt signals and calls into classes whose code is outside the embedded files are
  recorded, in program order, in the `trace` of the `ShellSurface`.
-/

namespace Orbital

/-! ## Data model (shellsurface.cpp) -/

/-- The role of a shell surface: `enum class Type` of `ShellSurface`. -/
inductive SurfaceType where
  | None
  | Toplevel
  | Transient
  | Popup
  | XWayland
  deriving DecidableEq, Repr

/-- A `QRect` built with `QRect(x, y, w, h)`; `QRect()` is `(0, 0, 0, 0)`. -/
structure QRect where
  x : Int
  y : Int
  width : Int
  height : Int
  deriving DecidableEq, Repr

/-- `QRect::isValid`: `x1 <= x2 && y1 <= y2` with `x2 = x + w - 1`, `y2 = y + h - 1`. -/
def QRect.isValid (r : QRect) : Bool :=
  decide (r.x ≤ r.x + r.width - 1) && decide (r.y ≤ r.y + r.height - 1)

/-- `QRect::size`. -/
def QRect.size (r : QRect) : Int × Int := (r.width, r.height)

/-- The null rectangle `QRect()`. -/
def QRect.null : QRect := ⟨0, 0, 0, 0⟩

/-- A finite C++ `double` (Qt's `qreal`), as the exact value `num / 2 ^ exp`: every
finite `double` is an integer divided by a power of two. Not every such quotient is a
`double`: `Double.isBinary64` tells which are, and `Double.round` gives the `double`
an arithmetic operation returns for an exact result. -/
structure Double where
  num : Int
  exp : Nat
  deriving DecidableEq, Repr

/-- The conversion of an `int` to `double` (exact). -/
def Double.ofInt (n : Int) : Double := ⟨n, 0⟩

/-- The exact sum of two values. -/
def Double.exactAdd (a b : Double) : Double :=
  ⟨a.num * 2 ^ (max a.exp b.exp - a.exp) + b.num * 2 ^ (max a.exp b.exp - b.exp), max a.exp b.exp⟩

/-- The exact difference of two values. -/
def Double.exactSub (a b : Double) : Double :=
  ⟨a.num * 2 ^ (max a.exp b.exp - a.exp) - b.num * 2 ^ (max a.exp b.exp - b.exp), max a.exp b.exp⟩

/-- Two `double` values are the same number. -/
def Double.same (a b : Double) : Prop := a.num * 2 ^ b.exp = b.num * 2 ^ a.exp

instance (a b : Double) : Decidable (Double.same a b) :=
  inferInstanceAs (Decidable (a.num * 2 ^ b.exp = b.num * 2 ^ a.exp))

/-- The conversion of a `double` to `int`: the fractional part is discarded (truncation
toward zero); a value that does not fit an `int` has no defined result (`none`). -/
def Double.toInt (a : Double) : Option Int :=
  let t := Int.tdiv a.num (2 ^ a.exp)
  if -2147483648 ≤ t ∧ t < 2147483648 then some t else none

/-- The number of binary digits of `a`, by halving at most `fuel` times. -/
def bitLengthFuel : Nat → Nat → Nat
  | 0, _ => 0
  | fuel + 1, a => if a = 0 then 0 else bitLengthFuel fuel (a / 2) + 1

/-- The number of binary digits of `a` (0 for 0). -/
def bitLength (a : Nat) : Nat := bitLengthFuel a a

/-- The quotient `a / 2 ^ s` rounded to the nearest integer, a tie to the even one. -/
def roundDrop (a s : Nat) : Nat :=
  if s = 0 then a
  else
    let lo := a % 2 ^ s
    let hi := a / 2 ^ s
    let half := 2 ^ (s - 1)
    if lo > half ∨ (lo = half ∧ hi % 2 = 1) then hi + 1 else hi

/-- IEEE 754 binary64 rounding (round to nearest, ties to even) of an exact value: the
significand keeps 53 binary digits, the last place is never below `2 ^ -1074`
(subnormal numbers), and a result of `2 ^ 1024` or more is not finite (`none`). -/
def Double.round (v : Double) : Option Double :=
  let a := v.num.natAbs
  let k := v.exp
  let b := bitLength a
  if b ≤ k + 53 then
    let p := min (k + 53 - b) 1074
    let m := if k ≤ p then a * 2 ^ (p - k) else roundDrop a (k - p)
    some ⟨v.num.sign * m, p⟩
  else
    let q := b - 53 - k
    let m := roundDrop a (k + q)
    if q > 971 ∨ (q = 971 ∧ m ≥ 2 ^ 53) then none else some ⟨v.num.sign * m * 2 ^ q, 0⟩

/-- The value of `d` is the whole number `z`. -/
def Double.isWhole (d : Double) (z : Int) : Prop := d.num = z * 2 ^ d.exp

/-- The value is a finite binary64 number: rounding leaves it as it is. -/
def Double.isBinary64 (v : Double) : Bool :=
  match v.round with
  | some r => decide (Double.same r v)
  | none => false

/-- `a + b` on `double`: the exact sum, rounded; `none` when the result is not finite. -/
def Double.add (a b : Double) : Option Double := (a.exactAdd b).round

/-- `a - b` on `double`: the exact difference, rounded; `none` when the result is not
finite. -/
def Double.sub (a b : Double) : Option Double := (a.exactSub b).round

/-- A `QPointF`. -/
structure QPointF where
  x : Double
  y : Double
  deriving DecidableEq, Repr

/-- Modelled from the spec: the declaration of `enum class Edges` (shellsurface.h) is not
among the sources. The spec names the edge bits `Top`, `Bottom`, `Left`, `Right`, with
the opposing pairs at bits 1|2 and 4|8 (the values of `wl_shell_surface.resize`); an
`Edges` value is carried as its underlying `int`. -/
abbrev Edges := Int

/-- Edge mask with no edge. -/
def Edges.None : Edges := 0
/-- Top edge bit. -/
def Edges.Top : Edges := 1
/-- Bottom edge bit. -/
def Edges.Bottom : Edges := 2
/-- Left edge bit. -/
def Edges.Left : Edges := 4
/-- Right edge bit. -/
def Edges.Right : Edges := 8

/-- The pointer grab objects a `ShellSurface` stores in `m_currentGrab`: the local classes
`MoveGrab` (of `ShellSurface::move`) and `ResizeGrab` (of `ShellSurface::resize`) with
their data members. -/
inductive Grab where
  | MoveGrab (grabbedView : Nat) (dx dy : Int)
  | ResizeGrab (view : Nat) (width height : Int)
  deriving DecidableEq, Repr

/-- Signals emitted and calls made into code outside the embedded files, in program
order. -/
inductive Event where
  /-- `seat->ungrabPopup(this)` -/
  | ungrabPopup (seat : Nat)
  /-- `seat->grabPopup(this)` -/
  | grabPopup (seat : Nat)
  /-- `emit contentLost()` -/
  | contentLost
  /-- `emit m_surface->unmapped()` -/
  | unmapped
  /-- `emit mapped()` -/
  | mapped
  /-- `m_surface->setActivable(b)` -/
  | setActivable (b : Bool)
  /-- `m_surface->setWorkspaceMask(ws->mask())` -/
  | setWorkspaceMask (ws : Nat)
  /-- `qDeleteAll(m_extraViews)` -/
  | deleteExtraViews
  /-- `view->configureToplevel(map, maximized, fullscreen, dx, dy)` on the view of an output -/
  | configureToplevel (output : Nat) (map maximized fullscreen : Bool) (dx dy : Int)
  /-- `v->configurePopup(parentView, x, y)` -/
  | configurePopup (parentView : Nat) (x y : Int)
  /-- `view->configureTransient(parentView, x, y)` -/
  | configureTransient (parentView : Nat) (x y : Int)
  /-- `view->configureXWayland(x, y)` on the view of an output -/
  | configureXWayland (output : Nat) (x y : Int)
  /-- `m_surface->damage()` -/
  | damage
  /-- `m_configureSender(w, h)`: the configure event sent to the client -/
  | sendConfigure (w h : Int)
  /-- `grab->start(seat, cursor)` -/
  | grabStart (seat : Nat) (cursor : Int)
  /-- `PointerGrab::end()` on the grab of the surface -/
  | grabEnd
  /-- `view->setInitialPos(v->pos())`: the new view of an output is seeded from `fromView` -/
  | setInitialPos (output fromView : Nat)
  /-- `delete v` on the view of an output -/
  | deleteView (output : Nat)
  /-- `pointer()->move(x, y)` -/
  | pointerMove (x y : Double)
  /-- `view->move(QPointF(x, y))` on the view of an output -/
  | viewMove (output : Nat) (x y : Double)
  /-- `emit titleChanged()` -/
  | titleChanged
  /-- `m_surface->setLabel(t)` -/
  | setLabel (t : String)
  /-- `emit appIdChanged()` -/
  | appIdChanged
  deriving DecidableEq, Repr

/-- The `m_popup` member. -/
structure PopupData where
  x : Int
  y : Int
  seat : Option Nat
  deriving DecidableEq, Repr

/-- The `m_toplevel` member. -/
structure ToplevelData where
  maximized : Bool
  fullscreen : Bool
  output : Option Nat
  deriving DecidableEq, Repr

/-- The `m_transient` member. -/
structure TransientData where
  x : Int
  y : Int
  inactive : Bool
  deriving DecidableEq, Repr

/-- The `m_state` member: the toplevel state applied by the last configure. -/
structure AppliedState where
  size : Int × Int
  maximized : Bool
  fullscreen : Bool
  deriving DecidableEq, Repr

/-- What the embedded code reads from `m_surface` (class `Surface`, outside the embedded
files) and from the surface tree: `width()`, `height()`, `isMapped()` and the result of
`surfaceTreeBoundingBox()`, a pixman computation over the sub-surfaces. -/
structure Surface where
  width : Int
  height : Int
  isMapped : Bool
  boundingBox : QRect
  deriving DecidableEq, Repr

/-- A per-output `ShellView` of `m_views`; `hasLayer` is `view->layer() != nullptr`, a
state that `ShellView` maintains and the embedded functions only read. What the
`configure*` methods of `ShellView` (outside the embedded files) do to it is not
followed: the embedded functions read the value stored in the map. -/
structure ShellView where
  id : Nat
  hasLayer : Bool
  deriving DecidableEq, Repr

/-- The data members of `ShellSurface` that the embedded functions read or write, and
the trace of emitted events. `m_views` is the `QHash` from output id to view; `m_title`
and `m_appId` are the strings the position cache is keyed by;
`m_parentConnections` lists the parent surfaces whose `destroyed` signal is connected to
`parentSurfaceDestroyed`. -/
structure ShellSurface where
  m_surface : Surface
  m_configureSender : Bool
  m_workspace : Option Nat
  m_resizeEdges : Edges
  m_width : Int
  m_height : Int
  m_forceMap : Bool
  m_currentGrab : Option Grab
  m_type : SurfaceType
  m_nextType : SurfaceType
  m_popup : PopupData
  m_toplevel : ToplevelData
  m_transient : TransientData
  m_state : AppliedState
  m_parent : Option Nat
  m_parentConnections : List Nat
  m_geometry : QRect
  m_nextGeometry : QRect
  m_views : List (Nat × ShellView)
  m_title : String
  m_appId : String
  trace : List Event
  deriving DecidableEq, Repr

/-- Appends an event to the trace. -/
def ShellSurface.emit (s : ShellSurface) (e : Event) : ShellSurface :=
  { s with trace := s.trace ++ [e] }

/-- `ShellSurface::sendConfigure`: calls the configure sender if one is set. -/
def ShellSurface.sendConfigure (s : ShellSurface) (w h : Int) : ShellSurface :=
  if s.m_configureSender then s.emit (Event.sendConfigure w h) else s

/-- `ShellSurface::geometry`: the explicit geometry when valid, else the bounding box
of the surface tree. -/
def ShellSurface.geometry (s : ShellSurface) : QRect :=
  if s.m_geometry.isValid then s.m_geometry else s.m_surface.boundingBox

/-- The C `&` of two `int` values: bitwise AND of the 32-bit two's-complement
representations, read back as a signed value. -/
def int32And (a b : Int) : Int :=
  let r : Nat := Nat.land (a % 4294967296).toNat (b % 4294967296).toNat
  if r < 2147483648 then (r : Int) else (r : Int) - 4294967296

/-- What the embedded functions read from the compositor, the pager, the seats, the
outputs and the `Shell`; all of these are classes outside the embedded files.

* `outputs`: `m_shell->compositor()->outputs()`, in list order;
* `seats`: `m_shell->compositor()->seats()`;
* `isWorkspaceActive ws o`: `m_shell->pager()->isWorkspaceActive(ws, o)`;
* `currentWorkspace o`: `o->currentWorkspace()`;
* `pointerInside o seat`: `o->geometry().contains(seat->pointer()->x(), seat->pointer()->y())`;
* `geometry o`, `availableGeometry o`: the rectangles of output `o`;
* `pickedMainView seat`: `seat->pointer()->pickView()->mainView()`;
* `workspaces`: `Shell::m_workspaces`;
* `isMapped s`: `ShellSurface::isMapped()`, declared in `shellsurface.h`, which is not
  among the sources, and therefore a parameter;
* `mappedAfterViews s`: the value `m_surface->isMapped()` returns at the end of
  `configure`, once `ShellView` (outside the embedded files) has configured the views in
  state `s`;
* `parentShell p`: whether `ShellSurface::fromSurface(p)` is non-null;
* `parentViews p`: the views of `p->views()`; `parentViewForOutput p o`:
  `parent->viewForOutput(o)`; `firstParentView p`: the first view of the parent surface. -/
structure Env where
  outputs : List Nat
  seats : List Nat
  isWorkspaceActive : Option Nat → Nat → Bool
  currentWorkspace : Nat → Option Nat
  pointerInside : Nat → Nat → Bool
  geometry : Nat → QRect
  availableGeometry : Nat → QRect
  pickedMainView : Nat → Nat
  workspaces : List Nat
  isMapped : ShellSurface → Bool
  mappedAfterViews : ShellSurface → Bool
  parentShell : Nat → Bool
  parentViews : Nat → List Nat
  parentViewForOutput : Nat → Nat → Nat
  firstParentView : Nat → Nat

/-- The result of a call that may dereference a null pointer (`crash`) or recurse
without bound (`outOfFuel` when the recursion budget of the model is used up). -/
inductive Outcome where
  | done (s : ShellSurface)
  | crash
  | outOfFuel
  deriving DecidableEq, Repr

/-- `QHash::insert(key, value)` on `m_views`: a key that is present gets the new value,
a new key gets a new entry (the iteration order of a hash is arbitrary; new entries go
to the end here). -/
def hashInsert (m : List (Nat × ShellView)) (key : Nat) (value : ShellView) :
    List (Nat × ShellView) :=
  if m.any (fun kv => kv.1 == key) then
    m.map fun kv => if kv.1 == key then (key, value) else kv
  else
    m ++ [(key, value)]

/-- `QHash::remove(key)` on `m_views`. -/
def hashRemove (m : List (Nat × ShellView)) (key : Nat) : List (Nat × ShellView) :=
  m.filter fun kv => kv.1 != key

/-- `QHash::value(key)` on `m_views`: `none` is the default-constructed null pointer. -/
def hashValue (m : List (Nat × ShellView)) (key : Nat) : Option ShellView :=
  (m.find? fun kv => kv.1 == key).map fun kv => kv.2

/-- `ShellSurface::ShellSurface`: the member initialisers and one view per output of the
compositor. `m_width` and `m_height` have no initialiser in the source; their
indeterminate initial values are the arguments `w0`, `h0`. `QSize()` is `(-1, -1)`. -/
def ShellSurface.new (env : Env) (surface : Surface) (w0 h0 : Int) : ShellSurface :=
  { m_surface := surface
    m_configureSender := false
    m_workspace := none
    m_resizeEdges := Edges.None
    m_width := w0
    m_height := h0
    m_forceMap := false
    m_currentGrab := none
    m_type := SurfaceType.None
    m_nextType := SurfaceType.None
    m_popup := { x := 0, y := 0, seat := none }
    m_toplevel := { maximized := false, fullscreen := false, output := none }
    m_transient := { x := 0, y := 0, inactive := false }
    m_state := { size := (-1, -1), maximized := false, fullscreen := false }
    m_parent := none
    m_parentConnections := []
    m_geometry := QRect.null
    m_nextGeometry := QRect.null
    m_views := env.outputs.foldl (fun m o => hashInsert m o { id := o, hasLayer := false }) []
    m_title := ""
    m_appId := ""
    trace := [] }

/-- `ShellSurface::setConfigureSender`. -/
def ShellSurface.setConfigureSender (s : ShellSurface) (sender : Bool) : ShellSurface :=
  { s with m_configureSender := sender }

/-- `ShellSurface::resize(seat, edges)` (shellsurface.cpp:257-322). The mask test is the
source's `e == 0 || e > 15 || (e & 3) == 3 || (e & 12) == 12` on `e = (int)edges`; on a
rejected mask the function returns before touching any member (the `ResizeGrab` object
allocated at the top is then neither started nor stored). -/
def ShellSurface.resize (env : Env) (s : ShellSurface) (seat : Nat) (edges : Edges) :
    ShellSurface :=
  let e : Int := edges
  if e = 0 ∨ e > 15 ∨ int32And e 3 = 3 ∨ int32And e 12 = 12 then
    s
  else
    let s1 := { s with m_resizeEdges := edges }
    let rect := s1.geometry
    let s2 := { s1 with m_width := rect.width, m_height := rect.height }
    let grab := Grab.ResizeGrab (env.pickedMainView seat) rect.width rect.height
    let s3 := s2.emit (Event.grabStart seat e)
    { s3 with m_currentGrab := some grab }

/-- The mask `e` contains the bit of value `bit` (a power of two): bit `bit` of the
two's-complement representation of `e` is set. -/
def containsBit (e : Int) (bit : Int) : Prop := (e / bit) % 2 = 1

/-- The edge masks `ShellSurface::resize` has to reject according to the specification:
0, greater than 15, or both bits of an opposing pair (1 and 2, or 4 and 8). -/
def rejectedMask (e : Int) : Prop :=
  e = 0 ∨ e > 15 ∨ (containsBit e 1 ∧ containsBit e 2) ∨ (containsBit e 4 ∧ containsBit e 8)

/-! ### Output selection -/

/-- The local `struct Out` of `selectOutput`: a candidate output and its vote. -/
structure Out where
  output : Nat
  vote : Int
  deriving DecidableEq, Repr

/-- The inner loop of `selectOutput`: `o.vote++` for every seat whose pointer is inside
the geometry of the candidate's output. -/
def countVotes (env : Env) (o : Out) : Out :=
  env.seats.foldl
    (fun acc seat => if env.pointerInside acc.output seat then { acc with vote := acc.vote + 1 } else acc)
    o

/-- The second loop of `selectOutput`: `if (!out || out->vote < o.vote) out = &o;`. -/
def pickBest (candidates : List Out) : Option Out :=
  candidates.foldl
    (fun out o =>
      match out with
      | none => some o
      | some best => if best.vote < o.vote then some o else some best)
    none

/-- `ShellSurface::selectOutput` (shellsurface.cpp:609-645). `none` is the `nullptr` the
source returns when there is no output. -/
def ShellSurface.selectOutput (env : Env) (s : ShellSurface) : Option Nat :=
  let candidates : List Out :=
    env.outputs.map fun o => { output := o, vote := if env.isWorkspaceActive s.m_workspace o then 10 else 0 }
  match candidates with
  | [] => none
  | [only] => some only.output
  | _ =>
    let voted := candidates.map (countVotes env)
    (pickBest voted).map fun out => out.output

/-- The score of an output in the words of the specification: 10 if the surface's
workspace is active on the output, plus one for every seat whose pointer lies inside the
output's geometry. -/
def specScore (env : Env) (s : ShellSurface) (o : Nat) : Int :=
  (if env.isWorkspaceActive s.m_workspace o then 10 else 0)
    + ((env.seats.filter fun seat => env.pointerInside o seat).length : Int)

/-! ### Role requests -/

/-- `ShellSurface::setToplevel`. -/
def ShellSurface.setToplevel (s : ShellSurface) : ShellSurface :=
  { s with
    m_nextType := SurfaceType.Toplevel
    m_toplevel := { s.m_toplevel with maximized := false, fullscreen := false }
    m_parentConnections := [] }

/-- `ShellSurface::setTransient(parent, x, y, inactive)`. -/
def ShellSurface.setTransient (s : ShellSurface) (parent : Nat) (x y : Int) (inactive : Bool) :
    ShellSurface :=
  { s with
    m_parent := some parent
    m_transient := { x := x, y := y, inactive := inactive }
    m_parentConnections := [parent]
    m_nextType := SurfaceType.Transient }

/-- `ShellSurface::setPopup(parent, seat, x, y)`. -/
def ShellSurface.setPopup (s : ShellSurface) (parent : Nat) (seat : Nat) (x y : Int) :
    ShellSurface :=
  { s with
    m_parent := some parent
    m_popup := { x := x, y := y, seat := some seat }
    m_parentConnections := [parent]
    m_nextType := SurfaceType.Popup }

/-- `ShellSurface::setXWayland(x, y, inactive)`: reuses the transient fields. -/
def ShellSurface.setXWayland (s : ShellSurface) (x y : Int) (inactive : Bool) : ShellSurface :=
  { s with
    m_parent := none
    m_transient := { x := x, y := y, inactive := inactive }
    m_parentConnections := []
    m_nextType := SurfaceType.XWayland }

/-- `ShellSurface::setMaximized`: `m_toplevel.output->availableGeometry()` dereferences
the result of `selectOutput`. -/
def ShellSurface.setMaximized (env : Env) (s : ShellSurface) : Outcome :=
  let s1 := { s with
    m_nextType := SurfaceType.Toplevel
    m_toplevel := { s.m_toplevel with maximized := true, fullscreen := false } }
  let s2 := { s1 with m_toplevel := { s1.m_toplevel with output := s1.selectOutput env } }
  match s2.m_toplevel.output with
  | none => Outcome.crash
  | some o =>
    let rect := env.availableGeometry o
    Outcome.done (s2.sendConfigure rect.width rect.height)

/-- `ShellSurface::setFullscreen`: `output->geometry()` dereferences the result of
`selectOutput`. -/
def ShellSurface.setFullscreen (env : Env) (s : ShellSurface) : Outcome :=
  let s1 := { s with
    m_nextType := SurfaceType.Toplevel
    m_toplevel := { s.m_toplevel with fullscreen := true, maximized := false } }
  match s1.selectOutput env with
  | none => Outcome.crash
  | some o =>
    let rect := env.geometry o
    Outcome.done (s1.sendConfigure rect.width rect.height)

/-- `ShellSurface::sendPopupDone`; the `popupDone` signal has no listener in the
embedded files. -/
def ShellSurface.sendPopupDone (s : ShellSurface) : ShellSurface :=
  { s with m_nextType := SurfaceType.None, m_popup := { s.m_popup with seat := none } }

/-- `ShellSurface::parentSurfaceDestroyed`. -/
def ShellSurface.parentSurfaceDestroyed (s : ShellSurface) : ShellSurface :=
  { s with m_parent := none, m_nextType := SurfaceType.None }

/-- `ShellSurface::updateState`. -/
def ShellSurface.updateState (s : ShellSurface) : ShellSurface :=
  { s with m_type := s.m_nextType, m_geometry := s.m_nextGeometry }

/-! ### configure -/

/-- The `Toplevel` branch of `ShellSurface::configure` (shellsurface.cpp:527-551): the
offsets of an edge-anchored resize, the decision to remap, and one `configureToplevel`
call per view of `m_views`. -/
def ShellSurface.configureToplevelViews (s : ShellSurface) : ShellSurface :=
  let rect := s.geometry
  let resizing : Bool := decide (s.m_resizeEdges ≠ 0)
  let dy : Int :=
    if resizing && decide (int32And s.m_resizeEdges Edges.Top ≠ 0) then s.m_height - rect.height else 0
  let dx : Int :=
    if resizing && decide (int32And s.m_resizeEdges Edges.Left ≠ 0) then s.m_width - rect.width else 0
  let s1 := if resizing then { s with m_height := rect.height, m_width := rect.width } else s
  let map : Bool :=
    (s1.m_state.maximized != s1.m_toplevel.maximized) || (s1.m_state.fullscreen != s1.m_toplevel.fullscreen)
      || (s1.m_state.size != rect.size) || s1.m_forceMap
  let s2 := { s1 with
    m_forceMap := false
    m_state := { size := rect.size, maximized := s1.m_toplevel.maximized, fullscreen := s1.m_toplevel.fullscreen } }
  { s2 with trace := s2.trace ++ s2.m_views.map fun ov =>
      Event.configureToplevel ov.1 (map || !ov.2.hasLayer) s2.m_toplevel.maximized s2.m_toplevel.fullscreen dx dy }

/-- The `Popup` branch (shellsurface.cpp:552-569), taken only when the type changed:
one `configurePopup` per parent view, then `m_popup.seat->grabPopup(this)`. A null
`m_parent` or a null `m_popup.seat` is dereferenced by the source. -/
def ShellSurface.configurePopupViews (env : Env) (s : ShellSurface) : Outcome :=
  match s.m_parent, s.m_popup.seat with
  | some parent, some seat =>
    let calls : List Event :=
      if env.parentShell parent then
        env.outputs.map fun o => Event.configurePopup (env.parentViewForOutput parent o) s.m_popup.x s.m_popup.y
      else
        (env.parentViews parent).map fun v => Event.configurePopup v s.m_popup.x s.m_popup.y
    Outcome.done { s with trace := s.trace ++ calls ++ [Event.grabPopup seat] }
  | _, _ => Outcome.crash

/-- The `Transient` branch (shellsurface.cpp:570-583). A null `m_parent` is
dereferenced by the source. -/
def ShellSurface.configureTransientViews (env : Env) (s : ShellSurface) : Outcome :=
  match s.m_parent with
  | some parent =>
    let calls : List Event :=
      if env.parentShell parent then
        env.outputs.map fun o => Event.configureTransient (env.parentViewForOutput parent o) s.m_transient.x s.m_transient.y
      else
        [Event.configureTransient (env.firstParentView parent) s.m_transient.x s.m_transient.y]
    Outcome.done { s with trace := s.trace ++ calls }
  | none => Outcome.crash

/-- The `XWayland` branch (shellsurface.cpp:584-588). -/
def ShellSurface.configureXWaylandViews (s : ShellSurface) : ShellSurface :=
  { s with trace := s.trace ++ s.m_views.map fun ov =>
      Event.configureXWayland ov.1 s.m_transient.x s.m_transient.y }

/-- The end of `ShellSurface::configure` (shellsurface.cpp:589-593): `damage()`, then
`mapped` is emitted when the surface was not mapped before and is mapped now. -/
def ShellSurface.finishConfigure (env : Env) (wasMapped : Bool) (s : ShellSurface) : ShellSurface :=
  let s1 := s.emit Event.damage
  let s2 := { s1 with m_surface := { s1.m_surface with isMapped := env.mappedAfterViews s1 } }
  if !wasMapped && s2.m_surface.isMapped then s2.emit Event.mapped else s2

/-- The part of `ShellSurface::configure` after the workspace test
(shellsurface.cpp:522-593). -/
def ShellSurface.configureViews (env : Env) (typeChanged wasMapped : Bool) (s : ShellSurface) :
    Outcome :=
  let s1 := if typeChanged then s.emit Event.deleteExtraViews else s
  if s1.m_type = SurfaceType.Toplevel then
    Outcome.done (s1.configureToplevelViews.finishConfigure env wasMapped)
  else if s1.m_type = SurfaceType.Popup ∧ typeChanged = true then
    match s1.configurePopupViews env with
    | Outcome.done s2 => Outcome.done (s2.finishConfigure env wasMapped)
    | other => other
  else if s1.m_type = SurfaceType.Transient then
    match s1.configureTransientViews env with
    | Outcome.done s2 => Outcome.done (s2.finishConfigure env wasMapped)
    | other => other
  else if s1.m_type = SurfaceType.XWayland then
    Outcome.done (s1.configureXWaylandViews.finishConfigure env wasMapped)
  else
    Outcome.done (s1.finishConfigure env wasMapped)

/-- `ShellSurface::setWorkspace(ws)` (shellsurface.cpp:88-94); `cfg` is the call
`configure(0, 0)` it ends with. -/
def ShellSurface.setWorkspace (cfg : ShellSurface → Outcome) (s : ShellSurface) (ws : Nat) :
    Outcome :=
  let s1 := { s with m_workspace := some ws }
  let s2 := s1.emit (Event.setWorkspaceMask ws)
  cfg { s2 with m_forceMap := true }

/-- `Shell::configure(shsurf)` (shell.cpp:39-44); `m_workspaces.first()` on an empty
list is undefined. -/
def Shell.configure (env : Env) (cfg : ShellSurface → Outcome) (s : ShellSurface) : Outcome :=
  if !env.isMapped s then
    match env.workspaces with
    | [] => Outcome.crash
    | ws :: _ => s.setWorkspace cfg ws
  else
    Outcome.done s

/-- `ShellSurface::configure(x, y)` (shellsurface.cpp:492-594). The arguments `x`, `y`
are not read by the source. The first argument bounds the depth of the recursion
`configure -> Shell::configure -> setWorkspace -> configure`. -/
def ShellSurface.configure (env : Env) : Nat → ShellSurface → Outcome
  | 0, _ => Outcome.outOfFuel
  | fuel + 1, s =>
    if s.m_surface.width = 0 then
      let s1 := match s.m_popup.seat with
        | some seat => s.emit (Event.ungrabPopup seat)
        | none => s
      let s2 := { s1 with m_type := SurfaceType.None, m_workspace := none }
      let s3 := s2.emit Event.contentLost
      Outcome.done (s3.emit Event.unmapped)
    else
      let oldType := s.m_type
      let s1 := s.updateState
      let typeChanged : Bool := decide (s1.m_type ≠ oldType)
      if s1.m_type = SurfaceType.None then
        Outcome.done s1
      else
        let s2 := s1.emit (Event.setActivable (decide (s1.m_type ≠ SurfaceType.Transient) || !s1.m_transient.inactive))
        let wasMapped := s2.m_surface.isMapped
        match Shell.configure env (ShellSurface.configure env fuel) s2 with
        | Outcome.done s3 =>
          if s3.m_workspace.isNone then
            Outcome.done s3
          else
            s3.configureViews env typeChanged wasMapped
        | other => other

/-! ## Layer (layer.cpp)

`Layer` keeps its views in the intrusive, circular, doubly linked `wl_list` of its
`weston_layer`. The list primitives (`wl_list_*` of libwayland and
`weston_layer_entry_*` of libweston) are library code; they are embedded here statement
by statement over an explicit store of links, so that `Layer::addView`,
`Layer::raiseOnTop`, `Layer::lower` and `Layer::topView` can be embedded as written. -/

/-- A `weston_layer_entry`: either the `view_list` head of a layer or the `layer_link`
of a view. `container_of(link, weston_layer_entry, link)` is the identity on entries. -/
inductive Entry where
  | list (layer : Nat)
  | link (view : Nat)
  deriving DecidableEq, Repr

/-- The store of all layer entries: the `next` and `prev` pointers of the `wl_list link`
of every entry (`none` is `NULL`) and the `layer` field of every entry. -/
structure Links where
  next : Entry → Option Entry
  prev : Entry → Option Entry
  layer : Entry → Option Nat

/-- `wl_list_init(list)`: `list->prev = list; list->next = list;`. -/
def wl_list_init (h : Links) (list : Entry) : Links :=
  let h1 := { h with prev := Function.update h.prev list (some list) }
  { h1 with next := Function.update h1.next list (some list) }

/-- `wl_list_insert(list, elm)`:
`elm->prev = list; elm->next = list->next; list->next = elm; elm->next->prev = elm;`. -/
def wl_list_insert (h : Links) (list elm : Entry) : Option Links :=
  let h1 := { h with prev := Function.update h.prev elm (some list) }
  let h2 := { h1 with next := Function.update h1.next elm (h1.next list) }
  let h3 := { h2 with next := Function.update h2.next list (some elm) }
  match h3.next elm with
  | none => none
  | some n => some { h3 with prev := Function.update h3.prev n (some elm) }

/-- `wl_list_remove(elm)`:
`elm->prev->next = elm->next; elm->next->prev = elm->prev; elm->next = NULL; elm->prev = NULL;`. -/
def wl_list_remove (h : Links) (elm : Entry) : Option Links :=
  match h.prev elm with
  | none => none
  | some p =>
    let h1 := { h with next := Function.update h.next p (h.next elm) }
    match h1.next elm with
    | none => none
    | some n =>
      let h2 := { h1 with prev := Function.update h1.prev n (h1.prev elm) }
      let h3 := { h2 with next := Function.update h2.next elm none }
      some { h3 with prev := Function.update h3.prev elm none }

/-- `wl_list_empty(list)`: `list->next == list`. -/
def wl_list_empty (h : Links) (list : Entry) : Bool :=
  decide (h.next list = some list)

/-- `weston_layer_entry_remove(entry)`:
`wl_list_remove(&entry->link); wl_list_init(&entry->link); entry->layer = NULL;`. -/
def weston_layer_entry_remove (h : Links) (entry : Entry) : Option Links :=
  match wl_list_remove h entry with
  | none => none
  | some h1 =>
    let h2 := wl_list_init h1 entry
    some { h2 with layer := Function.update h2.layer entry none }

/-- `weston_layer_entry_insert(list, entry)`:
`wl_list_insert(&list->link, &entry->link); entry->layer = list->layer;`. -/
def weston_layer_entry_insert (h : Links) (list entry : Entry) : Option Links :=
  match wl_list_insert h list entry with
  | none => none
  | some h1 => some { h1 with layer := Function.update h1.layer entry (h1.layer list) }

/-- The store after `weston_layer_init` on every layer and `weston_view_create` for
every view: every link is initialised to itself, a list head names its layer and a view
is in no layer. -/
def Links.init : Links :=
  { next := fun e => some e
    prev := fun e => some e
    layer := fun e => match e with
      | Entry.list l => some l
      | Entry.link _ => none }

/-- `Layer::addView(view)` on layer `self` (layer.cpp:81-87). -/
def Layer.addView (h : Links) (self view : Nat) : Option Links :=
  let unlinked : Option Links :=
    if (h.prev (Entry.link view)).isSome then weston_layer_entry_remove h (Entry.link view)
    else some h
  match unlinked with
  | none => none
  | some h1 => weston_layer_entry_insert h1 (Entry.list self) (Entry.link view)

/-- `Layer::raiseOnTop(view)` on layer `self` (layer.cpp:89-94);
`weston_view_damage_below` does not touch the links. -/
def Layer.raiseOnTop (h : Links) (self view : Nat) : Option Links :=
  match weston_layer_entry_remove h (Entry.link view) with
  | none => none
  | some h1 => weston_layer_entry_insert h1 (Entry.list self) (Entry.link view)

/-- `Layer::lower(view)` on layer `self` (layer.cpp:96-108): the entry `next` is read
before the view is unlinked. -/
def Layer.lower (h : Links) (self view : Nat) : Option Links :=
  let next : Option Entry :=
    if wl_list_empty h (Entry.link view) then some (Entry.list self)
    else h.next (Entry.link view)
  match next, weston_layer_entry_remove h (Entry.link view) with
  | some n, some h1 => weston_layer_entry_insert h1 n (Entry.link view)
  | _, _ => none

/-- `Layer::topView()` on layer `self` (layer.cpp:110-118): `none` is `nullptr`. In a
well-formed store the entry after a non-empty list head is a view link. -/
def Layer.topView (h : Links) (self : Nat) : Option Nat :=
  if wl_list_empty h (Entry.list self) then none
  else
    match h.next (Entry.list self) with
    | some (Entry.link v) => some v
    | _ => none

/-- Walks the `next` pointers from entry `e` until a list head is reached, collecting
the views passed; at most `fuel` steps. -/
def Layer.walk (h : Links) : Nat → Entry → List Nat
  | 0, _ => []
  | fuel + 1, e =>
    match h.next e with
    | some (Entry.link v) => v :: Layer.walk h fuel (Entry.link v)
    | _ => []

/-- The views of layer `l` from front to back, as `wl_list_for_each` over
`layer.view_list` visits them (at most `fuel` of them). -/
def Layer.views (h : Links) (l : Nat) (fuel : Nat) : List Nat :=
  Layer.walk h fuel (Entry.list l)

/-- Two entries are adjacent in a list: `a->next == b` and `b->prev == a`. -/
def Linked (h : Links) (a b : Entry) : Prop :=
  h.next a = some b ∧ h.prev b = some a

/-- The circular list of layer `l` holds exactly the views `vs`, front to back: starting
from the head, every entry is adjacent to the following one and the last is adjacent to
the head. -/
def Ring (h : Links) (l : Nat) (vs : List Nat) : Prop :=
  List.Chain' (Linked h) (Entry.list l :: vs.map Entry.link ++ [Entry.list l])

/-- A view that is in no list: its link is initialised to itself, or was never
initialised (`prev == NULL`, the case `Layer::addView` tests for). -/
def Unlinked (h : Links) (v : Nat) : Prop :=
  (h.next (Entry.link v) = some (Entry.link v) ∧ h.prev (Entry.link v) = some (Entry.link v))
    ∨ (h.next (Entry.link v) = none ∧ h.prev (Entry.link v) = none)

/-- The store `h` represents the stacking `order` (for every layer, its views front to
back): every layer's list is the ring of its views, no view occurs twice in a layer or
in two layers, the `layer` field of an entry names the layer whose list it is in, and a
view in no layer is unlinked. -/
structure Stacking (h : Links) (order : Nat → List Nat) : Prop where
  ring : ∀ l, Ring h l (order l)
  nodup : ∀ l, (order l).Nodup
  disjoint : ∀ l k, l ≠ k → ∀ v, v ∈ order l → v ∉ order k
  headLayer : ∀ l, h.layer (Entry.list l) = some l
  linkLayer : ∀ l v, v ∈ order l → h.layer (Entry.link v) = some l
  free : ∀ v, (∀ l, v ∉ order l) → Unlinked h v ∧ h.layer (Entry.link v) = none

/-- One call on a layer: the three mutators of `Layer`. -/
inductive LayerCall where
  | addView (layer view : Nat)
  | raiseOnTop (layer view : Nat)
  | lower (layer view : Nat)
  deriving DecidableEq, Repr

/-- Runs one call. -/
def LayerCall.run (h : Links) : LayerCall → Option Links
  | LayerCall.addView l v => Layer.addView h l v
  | LayerCall.raiseOnTop l v => Layer.raiseOnTop h l v
  | LayerCall.lower l v => Layer.lower h l v

/-- Runs a sequence of calls, in order; `none` when a call dereferences a null link. -/
def runCalls (h : Links) : List LayerCall → Option Links
  | [] => some h
  | c :: cs =>
    match c.run h with
    | none => none
    | some h1 => runCalls h1 cs

/-- The members that decide the role of the surface and that the view configuration
and the event emission never write. -/
def SameRole (s t : ShellSurface) : Prop :=
  t.m_type = s.m_type ∧ t.m_nextType = s.m_nextType ∧ t.m_parent = s.m_parent
    ∧ t.m_popup = s.m_popup ∧ t.m_workspace = s.m_workspace
    ∧ t.m_surface.width = s.m_surface.width ∧ t.m_nextGeometry = s.m_nextGeometry
    ∧ t.m_toplevel = s.m_toplevel

/-- The pointers `configure` dereferences in the `Popup` and `Transient` branches are
set: a pending `Popup` has a parent and a seat, a pending `Transient` has a parent
(as after `setPopup` and `setTransient`). -/
def ShellSurface.parentSet (s : ShellSurface) : Prop :=
  (s.m_nextType = SurfaceType.Popup → s.m_parent.isSome = true ∧ s.m_popup.seat.isSome = true)
    ∧ (s.m_nextType = SurfaceType.Transient → s.m_parent.isSome = true)

/-- Modelled from the spec: `ShellSurface::isMapped()` is declared in `shellsurface.h`,
which is not among the sources. The specification says of its only caller,
`Shell::configure`: "The owning Shell is asked to place the surface into a Workspace if
it has none"; the surface therefore counts as mapped for the `Shell` exactly when it
has a workspace. -/
def specIsMapped (s : ShellSurface) : Bool := s.m_workspace.isSome

/-- A compositor with two outputs, two seats and one workspace, for concrete runs:
workspace 0 is active on output 1, both pointers are inside output 1, and configured
views map the surface. -/
def sampleEnv : Env :=
  { outputs := [1, 2]
    seats := [1, 2]
    isWorkspaceActive := fun ws o => decide (ws = some 0) && decide (o = 1)
    currentWorkspace := fun o => if o = 1 then some 0 else none
    pointerInside := fun o _ => decide (o = 1)
    geometry := fun _ => { x := 0, y := 0, width := 1920, height := 1080 }
    availableGeometry := fun _ => { x := 0, y := 30, width := 1920, height := 1050 }
    pickedMainView := fun _ => 1
    workspaces := [0]
    isMapped := specIsMapped
    mappedAfterViews := fun _ => true
    parentShell := fun _ => true
    parentViews := fun _ => [1, 2]
    parentViewForOutput := fun _ o => o
    firstParentView := fun _ => 1 }

/-- A surface with a buffer of 640 x 480, not yet mapped. -/
def sampleContent : Surface :=
  { width := 640, height := 480, isMapped := false
    boundingBox := { x := 0, y := 0, width := 640, height := 480 } }

/-- A surface whose content was withdrawn (zero size). -/
def sampleNoContent : Surface :=
  { width := 0, height := 0, isMapped := false, boundingBox := QRect.null }

/-- A freshly constructed shell surface on `sampleEnv` with content. -/
def sampleSurface : ShellSurface := ShellSurface.new sampleEnv sampleContent 0 0

/-- The stacking `order` with view `v` taken out of every layer. -/
def withoutView (order : Nat → List Nat) (v : Nat) : Nat → List Nat :=
  fun k => (order k).filter fun w => decide (w ≠ v)

/-- The stacking in which `v` is the head of layer `l`, followed by all other views of
`l` in their previous relative order, and `v` is in no other layer. -/
def raisedOrder (order : Nat → List Nat) (l v : Nat) : Nat → List Nat :=
  Function.update (withoutView order v) l (v :: withoutView order v l)

/-- Every view's link has been initialised (`weston_view_create` does so). -/
def Initialised (h : Links) : Prop := ∀ v, h.prev (Entry.link v) ≠ none

/-- A store for concrete runs: views 1, 2, 3 added in this order to layer 0 and view 4
added to layer 1, starting from the initialised store. Layer 0 is then `[3, 2, 1]`. -/
def sampleLinks : Links :=
  ((runCalls Links.init
    [LayerCall.addView 0 1, LayerCall.addView 0 2, LayerCall.addView 0 3, LayerCall.addView 1 4]).getD
    Links.init)

/-- The stacking `sampleLinks` represents. -/
def sampleOrder : Nat → List Nat :=
  fun k => if k = 0 then [3, 2, 1] else if k = 1 then [4] else []

/-! ## Output add and remove, workspace activation (shellsurface.cpp) -/

/-- `ShellSurface::viewForOutput(o)`: `m_views.value(o->id())`. -/
def ShellSurface.viewForOutput (s : ShellSurface) (o : Nat) : Option ShellView :=
  hashValue s.m_views o

/-- `ShellSurface::outputCreated(o)` (shellsurface.cpp:647-660). The source reads
`*m_views.begin()` without testing for an empty hash; on an empty hash that is a
dereference of the end iterator, which is undefined, hence `crash`. The first entry of
the hash is the head of the list. The call ends with `configure(0, 0)`, bounded by
`fuel`. -/
def ShellSurface.outputCreated (env : Env) (fuel : Nat) (s : ShellSurface) (o : Nat) : Outcome :=
  match s.m_views with
  | [] => Outcome.crash
  | first :: _ =>
    let s1 := s.emit (Event.setInitialPos o first.2.id)
    let s2 := { s1 with m_views := hashInsert s1.m_views o { id := o, hasLayer := false } }
    ShellSurface.configure env fuel { s2 with m_forceMap := true }

/-- The first three statements of `ShellSurface::outputRemoved(o)`:
`View *v = viewForOutput(o); m_views.remove(o->id()); delete v;`. Without a view for
`o` the pointer is null and `delete` does nothing. -/
def ShellSurface.removeView (s : ShellSurface) (o : Nat) : ShellSurface :=
  let s1 := { s with m_views := hashRemove s.m_views o }
  match s.viewForOutput o with
  | some _ => s1.emit (Event.deleteView o)
  | none => s1

/-- `ShellSurface::outputRemoved(o)` (shellsurface.cpp:662-671); `env.outputs` are the
outputs the compositor still lists when the signal is delivered. -/
def ShellSurface.outputRemoved (env : Env) (s : ShellSurface) (o : Nat) : Outcome :=
  let s2 := s.removeView o
  if s2.m_nextType = SurfaceType.Toplevel ∧ s2.m_toplevel.maximized = true
      ∧ s2.m_toplevel.output = some o then
    s2.setMaximized env
  else
    Outcome.done s2

/-- `ShellSurface::workspaceActivated(w, o)` (shellsurface.cpp:682-695);
`m_toplevel.output->currentWorkspace()` dereferences the target output. -/
def ShellSurface.workspaceActivated (env : Env) (s : ShellSurface) (w _o : Nat) : Outcome :=
  if some w ≠ s.m_workspace then
    Outcome.done s
  else if s.m_nextType ≠ SurfaceType.Toplevel ∨ s.m_toplevel.maximized = false then
    Outcome.done s
  else
    match s.m_toplevel.output with
    | none => Outcome.crash
    | some target =>
      if env.currentWorkspace target ≠ some w then s.setMaximized env else Outcome.done s

/-! ## Pointer grabs -/

/-- `Pointer::ButtonState`. -/
inductive ButtonState where
  | Released
  | Pressed
  deriving DecidableEq, Repr

/-- `MoveGrab::ended` and `ResizeGrab::ended` (shellsurface.cpp:234-238, 292-297): the
resize grab resets the edges; both clear the current-grab slot. -/
def Grab.ended (g : Grab) (s : ShellSurface) : ShellSurface :=
  match g with
  | Grab.MoveGrab _ _ _ => { s with m_currentGrab := none }
  | Grab.ResizeGrab _ _ _ => { s with m_resizeEdges := Edges.None, m_currentGrab := none }

/-- Modelled from the spec: `PointerGrab::end()` is declared outside the sources. The
specification says that when `end()` is called "`ended()` runs cleanup and the grab
self-destroys" and that "`end()` runs `ended()` before returning": the grab is released
(recorded as `grabEnd`) and `ended()` runs. -/
def Grab.endGrab (g : Grab) (s : ShellSurface) : ShellSurface :=
  g.ended (s.emit Event.grabEnd)

/-- `MoveGrab::button` and `ResizeGrab::button` (shellsurface.cpp:228-233, 286-291), with
`buttonCount` the value of `pointer()->buttonCount()` when the event arrives. -/
def Grab.button (g : Grab) (s : ShellSurface) (buttonCount : Nat) (state : ButtonState) :
    ShellSurface :=
  if buttonCount = 0 ∧ state = ButtonState.Released then g.endGrab s else s

/-- The subtraction of two `uint32_t` values. -/
def uint32Sub (a b : Nat) : Nat := (a % 4294967296 + 4294967296 - b % 4294967296) % 4294967296

/-- What a grab of `desktop-shell.cpp` does to the outside, in program order. -/
inductive GrabEvent where
  /-- `pointer()->sendButton(time, button, state)` -/
  | sendButton (time button : Nat) (state : ButtonState)
  /-- `desktop_shell_surface_send_popup_close(popup->resource)` -/
  | popupClose
  /-- `PointerGrab::end()` -/
  | grabEnd
  /-- `desktop_shell_grab_send_ended(resource)` -/
  | grabSendEnded (resource : Nat)
  /-- `desktop_shell_grab_send_button(resource, time, button, state)` -/
  | grabSendButton (resource : Option Nat) (time button : Nat) (state : ButtonState)
  deriving DecidableEq, Repr

/-- The `PopupGrab` of `DesktopShell::setPopup` with the views of its popup's surface
(`popup->surface->views()`). The member `inside` has no initialiser in the source and is
written by `focus()` only; its value before that is whatever the structure holds. -/
structure PopupGrab where
  popupViews : List Nat
  inside : Bool
  creationTime : Nat
  deriving DecidableEq, Repr

/-- What the grabs read and write of the seat's pointer: `buttonCount()`, the view
under the pointer (`pickView`) and the focused view (`focus()`, `setFocus`). -/
structure PointerState where
  buttonCount : Nat
  picked : Option Nat
  focus : Option Nat
  deriving DecidableEq, Repr

/-- `PopupGrab::button(time, button, state)` (desktop-shell.cpp:386-396): the events it
causes. `time` and `creationTime` are `uint32_t`. -/
def PopupGrab.button (g : PopupGrab) (time button : Nat) (state : ButtonState) : List GrabEvent :=
  let sent := [GrabEvent.sendButton time button state]
  if g.inside = false ∧ state = ButtonState.Pressed ∧ uint32Sub time g.creationTime > 500 then
    sent ++ [GrabEvent.popupClose, GrabEvent.grabEnd]
  else
    sent

/-- `PopupGrab::focus()` (desktop-shell.cpp:363-380): the grab and the pointer
afterwards. -/
def PopupGrab.focus (g : PopupGrab) (p : PointerState) : PopupGrab × PointerState :=
  if p.buttonCount > 0 then
    (g, p)
  else
    let v := p.picked
    let inside : Bool := match v with
      | some view => decide (view ∈ g.popupViews)
      | none => false
    let g1 := { g with inside := inside }
    if inside then
      if p.focus ≠ v then (g1, { p with focus := v }) else (g1, p)
    else
      (g1, { p with focus := none })

/-- The `ClientGrab` of `DesktopShell::createGrab`; `resource` is the requester's
`desktop_shell_grab` resource (`none` once detached). -/
structure ClientGrab where
  resource : Option Nat
  currentFocus : Option Nat
  client : Nat
  pressed : Bool
  deriving DecidableEq, Repr

/-- `ClientGrab::ended` (desktop-shell.cpp:548-553): the events it causes. -/
def ClientGrab.ended (g : ClientGrab) : List GrabEvent :=
  match g.resource with
  | some r => [GrabEvent.grabSendEnded r]
  | none => []

/-- Modelled from the spec: `PointerGrab::end()` on a client grab, as for `Grab.endGrab`:
the grab is released and `ended()` runs. -/
def ClientGrab.endGrab (g : ClientGrab) : List GrabEvent :=
  GrabEvent.grabEnd :: g.ended

/-- `ClientGrab::terminate` (desktop-shell.cpp:555-559), the handler of the
requester's `terminate` request: the grab afterwards and the events caused. -/
def ClientGrab.terminate (g : ClientGrab) : ClientGrab × List GrabEvent :=
  let g1 := { g with resource := none }
  (g1, g1.endGrab)

/-- A toplevel surface of workspace 0 that is maximized on output 1 and has a configure
sender. -/
def sampleMaximized : ShellSurface :=
  { sampleSurface with
    m_workspace := some 0
    m_configureSender := true
    m_type := SurfaceType.Toplevel
    m_nextType := SurfaceType.Toplevel
    m_toplevel := { maximized := true, fullscreen := false, output := some 1 } }

/-- The compositor of `sampleEnv` after the pager activated workspace 5 on output 1:
output 1 shows workspace 5, output 2 shows workspace 0. -/
def sampleEnvSwitched : Env :=
  { sampleEnv with
    isWorkspaceActive := fun ws o =>
      (decide (ws = some 5) && decide (o = 1)) || (decide (ws = some 0) && decide (o = 2))
    currentWorkspace := fun o => if o = 1 then some 5 else if o = 2 then some 0 else none }

/-- The keys of `m_views`: the ids of the outputs that have a view. -/
def hashKeys (m : List (Nat × ShellView)) : List Nat := m.map fun kv => kv.1

/-! ## Popup placement (desktop-shell.cpp) -/

/-- The result of an `int` addition or subtraction: the mathematical result reduced to
the 32-bit two's-complement range (what compilers produce where C++ leaves signed
overflow undefined). -/
def wrapInt32 (a : Int) : Int := (a + 2147483648) % 4294967296 - 2147483648

/-- What `Popup::configureView` reads of the `Popup` and its surface: the size of the
popup surface and the requested position `x`, `y`. -/
structure Popup where
  surfaceWidth : Int
  surfaceHeight : Int
  x : Int
  y : Int
  deriving DecidableEq, Repr

/-- One axis of `Popup::configureView` (desktop-shell.cpp:343-350):
`int x_ = x > 0 ? x : 0; if (x_ + w > o->width()) x_ = o->width() - w;`. -/
def Popup.placeAxis (pos size outputSize : Int) : Int :=
  let p : Int := if pos > 0 then pos else 0
  if wrapInt32 (p + size) > outputSize then wrapInt32 (outputSize - size) else p

/-- `Popup::configureView(v)` (desktop-shell.cpp:337-351) on a view whose output has
size `outputWidth` x `outputHeight`: the arguments of the final `v->setPos(x_, y_)`. -/
def Popup.configureView (p : Popup) (outputWidth outputHeight : Int) : Int × Int :=
  (Popup.placeAxis p.x p.surfaceWidth outputWidth, Popup.placeAxis p.y p.surfaceHeight outputHeight)

/-- The values of `x`, `w` and `W` on one axis are `int` values with a non-negative size
and output size, and `max(x, 0) + w` does not overflow. -/
def AxisInRange (pos size outputSize : Int) : Prop :=
  pos < 2147483648 ∧ 0 ≤ size ∧ 0 ≤ outputSize ∧ outputSize < 2147483648
    ∧ max pos 0 + size < 2147483648

/-! ## Title, application id and the position cache (shellsurface.cpp) -/

/-- `ShellSurface::setTitle`. -/
def ShellSurface.setTitle (s : ShellSurface) (t : String) : ShellSurface :=
  if s.m_title ≠ t then
    (({ s with m_title := t } : ShellSurface).emit Event.titleChanged).emit (Event.setLabel t)
  else
    s

/-- `ShellSurface::setAppId`. -/
def ShellSurface.setAppId (s : ShellSurface) (id : String) : ShellSurface :=
  if s.m_appId ≠ id then ({ s with m_appId := id } : ShellSurface).emit Event.appIdChanged else s

/-- The static `QHash<QString, QPoint> ShellSurface::s_posCache`, shared by all shell
surfaces: the point stored under a key, if any. -/
abbrev PosCache := String → Option (Int × Int)

/-- The cache when the process starts: no key is stored. -/
def PosCache.empty : PosCache := fun _ => none

/-- `ShellSurface::cacheId`: `QStringLiteral("%1+%2").arg(m_appId, m_title)`; the two
place markers are replaced in one pass. -/
def ShellSurface.cacheId (s : ShellSurface) : String := s.m_appId ++ "+" ++ s.m_title

/-- `ShellSurface::moveViews(double x, double y)` (shellsurface.cpp:386-392):
`s_posCache[cacheId()] = QPoint(x, y)` converts `x` and `y` to `int`, then every view is
moved. The result is the cache and the surface afterwards; `none` when a conversion is
undefined. -/
def ShellSurface.moveViews (cache : PosCache) (s : ShellSurface) (x y : Double) :
    Option (PosCache × ShellSurface) :=
  match x.toInt, y.toInt with
  | some px, some py =>
    let id := s.cacheId
    let cache1 : PosCache := fun k => if k = id then some (px, py) else cache k
    some (cache1, { s with trace := s.trace ++ s.m_views.map fun ov => Event.viewMove ov.1 x y })
  | _, _ => none

/-- `ShellSurface::cachedPos`: the stored point, or an unset `Maybe<QPoint>`. -/
def ShellSurface.cachedPos (cache : PosCache) (s : ShellSurface) : Option (Int × Int) :=
  cache s.cacheId

/-! ## Resize grab motion (shellsurface.cpp) -/

/-- `ResizeGrab::motion(time, x, y)` (shellsurface.cpp:262-285) of a grab with members
`width`, `height` on surface `s`. `fromLocal` and `toLocal` are the values of
`view->mapFromGlobal(pointer()->grabPos())` and `view->mapFromGlobal(QPointF(x, y))`
(class `View` is outside the embedded files). `d = to - from` is a subtraction of
`double` values; `w -= d.x()` converts `w` to `double`, subtracts in `double` and
converts the result to `int32_t`. The grab object is not written. The result is `none`
when a value that is used is not finite or does not fit an `int` (the conversion is
then undefined). -/
def ResizeGrab.motion (width height : Int) (s : ShellSurface) (x y : Double)
    (fromLocal toLocal : QPointF) : Option ShellSurface :=
  let s1 := s.emit (Event.pointerMove x y)
  let dx := toLocal.x.sub fromLocal.x
  let dy := toLocal.y.sub fromLocal.y
  let w : Option Int :=
    if int32And s1.m_resizeEdges Edges.Left ≠ 0 then
      (dx.bind fun d => (Double.ofInt width).sub d).bind Double.toInt
    else if int32And s1.m_resizeEdges Edges.Right ≠ 0 then
      (dx.bind fun d => (Double.ofInt width).add d).bind Double.toInt
    else some width
  let h : Option Int :=
    if int32And s1.m_resizeEdges Edges.Top ≠ 0 then
      (dy.bind fun d => (Double.ofInt height).sub d).bind Double.toInt
    else if int32And s1.m_resizeEdges Edges.Bottom ≠ 0 then
      (dy.bind fun d => (Double.ofInt height).add d).bind Double.toInt
    else some height
  match w, h with
  | some w1, some h1 => some (s1.sendConfigure w1 h1)
  | _, _ => none

/-! ## Sequences of role requests and configures -/

/-- One call on a shell surface: a role request or a `configure`. -/
inductive SurfaceCall where
  | setToplevel
  | setTransient (parent : Nat) (x y : Int) (inactive : Bool)
  | setPopup (parent seat : Nat) (x y : Int)
  | setXWayland (x y : Int) (inactive : Bool)
  | setMaximized
  | setFullscreen
  | configure
  deriving DecidableEq, Repr

/-- Runs one call; `fuel` bounds the recursion of `configure`. -/
def SurfaceCall.run (env : Env) (fuel : Nat) (s : ShellSurface) : SurfaceCall → Outcome
  | SurfaceCall.setToplevel => Outcome.done s.setToplevel
  | SurfaceCall.setTransient parent x y inactive => Outcome.done (s.setTransient parent x y inactive)
  | SurfaceCall.setPopup parent seat x y => Outcome.done (s.setPopup parent seat x y)
  | SurfaceCall.setXWayland x y inactive => Outcome.done (s.setXWayland x y inactive)
  | SurfaceCall.setMaximized => s.setMaximized env
  | SurfaceCall.setFullscreen => s.setFullscreen env
  | SurfaceCall.configure => s.configure env fuel

/-- Runs a sequence of calls, in order; it stops at the first call that does not
return. -/
def runSurfaceCalls (env : Env) (fuel : Nat) (s : ShellSurface) : List SurfaceCall → Outcome
  | [] => Outcome.done s
  | c :: cs =>
    match c.run env fuel s with
    | Outcome.done t => runSurfaceCalls env fuel t cs
    | other => other

/-! ## Loading of the shell client (desktop-shell.cpp) -/

/-- Calls that `DesktopShell` makes into the shell client and the compositor while the
client loads, in program order. -/
inductive ShellEvent where
  /-- `desktop_shell_output_feedback_send_load(r, name, serial)` for an output -/
  | feedbackSendLoad (output serial : Nat)
  /-- `dws->sendActivatedState()` of a workspace -/
  | sendActivatedState (workspace : Nat)
  /-- `dws->sendPosition()` of a workspace -/
  | sendPosition (workspace : Nat)
  /-- `m_splash->hide()` -/
  | splashHide
  /-- `p->setFocus(m_grabView, 0, 0)` -/
  | setFocus (pointer : Nat) (view : Option Nat)
  /-- `desktop_shell_send_grab_cursor(m_resource, c)` -/
  | sendGrabCursor (cursor : Nat)
  deriving DecidableEq, Repr

/-- The data members of `DesktopShell` that the load handling reads or writes, and the
trace of its calls. `m_grabCursor` is the `QHash` from pointer to cursor. -/
structure DesktopShell where
  m_resource : Option Nat
  m_grabView : Option Nat
  m_loadSerial : Nat
  m_loaded : Bool
  m_loadedOnce : Bool
  m_grabCursor : List (Nat × Nat)
  trace : List ShellEvent
  deriving DecidableEq, Repr

/-- `DesktopShell::DesktopShell`: the member initialisers. -/
def DesktopShell.new : DesktopShell :=
  { m_resource := none
    m_grabView := none
    m_loadSerial := 0
    m_loaded := false
    m_loadedOnce := false
    m_grabCursor := []
    trace := [] }

/-- `DesktopShell::clientExited` (desktop-shell.cpp:152-157). -/
def DesktopShell.clientExited (d : DesktopShell) : DesktopShell :=
  { d with m_resource := none, m_grabView := none, m_loaded := false }

/-- Appends calls to the trace. -/
def DesktopShell.emit (d : DesktopShell) (es : List ShellEvent) : DesktopShell :=
  { d with trace := d.trace ++ es }

/-- `m_grabCursor[p] = c` on the `QHash`. -/
def cursorInsert (m : List (Nat × Nat)) (p c : Nat) : List (Nat × Nat) :=
  if m.any (fun kv => kv.1 == p) then m.map fun kv => if kv.1 == p then (p, c) else kv
  else m ++ [(p, c)]

/-- `DesktopShell::setGrabCursor(p, c)` (desktop-shell.cpp:173-180). -/
def DesktopShell.setGrabCursor (d : DesktopShell) (p c : Nat) : DesktopShell :=
  let d1 := { d with m_grabCursor := cursorInsert d.m_grabCursor p c }
  match d1.m_resource with
  | some _ => d1.emit [ShellEvent.setFocus p d1.m_grabView, ShellEvent.sendGrabCursor c]
  | none => d1

/-- `DesktopShell::outputBound(id, res)` (desktop-shell.cpp:187-200) for output `output`;
`serial` is the value `m_shell->compositor()->nextSerial()` returns and `workspaces`
the list `m_shell->workspaces()`. -/
def DesktopShell.outputBound (workspaces : List Nat) (d : DesktopShell) (output serial : Nat) :
    DesktopShell :=
  let d1 := { d with m_loadSerial := serial }
  let d2 := d1.emit [ShellEvent.feedbackSendLoad output d1.m_loadSerial]
  workspaces.foldl
    (fun acc ws => acc.emit [ShellEvent.sendActivatedState ws, ShellEvent.sendPosition ws]) d2

/-- `DesktopShell::outputLoaded(serial)` (desktop-shell.cpp:622-634). -/
def DesktopShell.outputLoaded (d : DesktopShell) (serial : Nat) : DesktopShell :=
  if serial > 0 ∧ serial = d.m_loadSerial ∧ d.m_loaded = false then
    let d1 := d.emit [ShellEvent.splashHide]
    let d2 := { d1 with m_loaded := true, m_loadedOnce := true, m_loadSerial := 0 }
    d2.m_grabCursor.foldl (fun acc pc => acc.setGrabCursor pc.1 pc.2) d2
  else
    d

end Orbital

/-! # Theorems -/

namespace Orbital

/-! ## Bit masks -/

theorem nat_land_low (n m : Nat) (hm : Nat.land 15 m = m) :
    Nat.land n m = Nat.land (n % 16) m := by
  have h1 : n % 16 = n &&& 15 := (Nat.and_pow_two_sub_one_eq_mod n 4).symm
  have hm' : 15 &&& m = m := hm
  show n &&& m = (n % 16) &&& m
  rw [h1, Nat.land_assoc, hm']

theorem nat_land_three_small : ∀ k : Fin 16, Nat.land k.val 3 = k.val % 4 := by decide

theorem nat_land_twelve_small : ∀ k : Fin 16, Nat.land k.val 12 = k.val - k.val % 4 := by decide

/-- `e & 3` is the value of the two lowest bits of `e`. -/
theorem int32And_three (e : Int) : int32And e 3 = e % 4 := by
  unfold int32And
  have h3 : ((3 : Int) % 4294967296).toNat = 3 := by decide
  rw [h3, nat_land_low (e % 4294967296).toNat 3 (by decide)]
  have hlt : (e % 4294967296).toNat % 16 < 16 := Nat.mod_lt _ (by decide)
  have hk := nat_land_three_small ⟨_, hlt⟩
  simp only at hk
  rw [hk]
  simp only []
  omega

/-- `e & 12` is the value of bits 2 and 3 of `e`. -/
theorem int32And_twelve (e : Int) : int32And e 12 = e % 16 - e % 4 := by
  unfold int32And
  have h12 : ((12 : Int) % 4294967296).toNat = 12 := by decide
  rw [h12, nat_land_low (e % 4294967296).toNat 12 (by decide)]
  have hlt : (e % 4294967296).toNat % 16 < 16 := Nat.mod_lt _ (by decide)
  have hk := nat_land_twelve_small ⟨_, hlt⟩
  simp only at hk
  rw [hk]
  simp only []
  omega

/-- The mask test of `ShellSurface::resize`, in arithmetic form. -/
theorem resize_test_iff (e : Int) :
    (e = 0 ∨ e > 15 ∨ int32And e 3 = 3 ∨ int32And e 12 = 12)
      ↔ (e = 0 ∨ e > 15 ∨ e % 4 = 3 ∨ e % 16 - e % 4 = 12) := by
  rw [int32And_three, int32And_twelve]

/-- Every mask the specification rejects fails the test of `resize`. -/
theorem rejectedMask_test (e : Int) (h : rejectedMask e) :
    e = 0 ∨ e > 15 ∨ int32And e 3 = 3 ∨ int32And e 12 = 12 := by
  rw [resize_test_iff]
  unfold rejectedMask containsBit at h
  omega

/-! ## resize -/

theorem resize_of_rejected (env : Env) (s : ShellSurface) (seat : Nat) (e : Int)
    (h : e = 0 ∨ e > 15 ∨ int32And e 3 = 3 ∨ int32And e 12 = 12) :
    s.resize env seat e = s := by
  unfold ShellSurface.resize
  simp only [if_pos h]

theorem resize_of_accepted (env : Env) (s : ShellSurface) (seat : Nat) (e : Int)
    (h : ¬ (e = 0 ∨ e > 15 ∨ int32And e 3 = 3 ∨ int32And e 12 = 12)) :
    s.resize env seat e =
      { s with
        m_resizeEdges := e
        m_width := s.geometry.width
        m_height := s.geometry.height
        m_currentGrab := some (Grab.ResizeGrab (env.pickedMainView seat) s.geometry.width s.geometry.height)
        trace := s.trace ++ [Event.grabStart seat e] } := by
  unfold ShellSurface.resize
  simp only [if_neg h]
  rfl

/-- C1: `resize(seat, edges)` starts a resize grab (it records the edges, fills the
current-grab slot with a `ResizeGrab` on the picked view and starts it on the seat) for
each single-edge mask 1, 2, 4, 8 and each adjacent-pair mask 5, 6, 9, 10; it starts no
grab (the current-grab slot keeps its value and no grab is started on the seat) for
mask 0, for every mask greater than 15 and for every mask that contains both bits of an
opposing pair. -/
theorem resize_grab_iff_valid_mask (env : Env) (s : ShellSurface) (seat : Nat) :
    (∀ e : Int, e ∈ [1, 2, 4, 8, 5, 6, 9, 10] →
      (s.resize env seat e).m_resizeEdges = e
        ∧ (s.resize env seat e).m_currentGrab
            = some (Grab.ResizeGrab (env.pickedMainView seat) s.geometry.width s.geometry.height)
        ∧ (s.resize env seat e).trace = s.trace ++ [Event.grabStart seat e])
    ∧ (∀ e : Int, rejectedMask e →
      (s.resize env seat e).m_currentGrab = s.m_currentGrab
        ∧ (s.resize env seat e).trace = s.trace) := by
  constructor
  · intro e he
    have hacc : ¬ (e = 0 ∨ e > 15 ∨ int32And e 3 = 3 ∨ int32And e 12 = 12) := by
      rw [resize_test_iff]
      simp only [List.mem_cons, List.mem_singleton, List.not_mem_nil, or_false] at he
      omega
    rw [resize_of_accepted env s seat e hacc]
    exact ⟨rfl, rfl, rfl⟩
  · intro e he
    rw [resize_of_rejected env s seat e (rejectedMask_test e he)]
    exact ⟨rfl, rfl⟩

/-- C2: for every state and every rejected edge mask (0, greater than 15, or both bits
of an opposing pair) `resize` returns the state it was given: the resize edges, the
recorded width and height, the current-grab slot and the trace (hence no configure sent
to the client) are unchanged. -/
theorem resize_rejected_unchanged (env : Env) (s : ShellSurface) (seat : Nat) (e : Int)
    (h : rejectedMask e) :
    s.resize env seat e = s
      ∧ (s.resize env seat e).m_resizeEdges = s.m_resizeEdges
      ∧ (s.resize env seat e).m_width = s.m_width
      ∧ (s.resize env seat e).m_height = s.m_height
      ∧ (s.resize env seat e).m_currentGrab = s.m_currentGrab
      ∧ (s.resize env seat e).trace = s.trace := by
  rw [resize_of_rejected env s seat e (rejectedMask_test e h)]
  exact ⟨rfl, rfl, rfl, rfl, rfl, rfl⟩


/-! ## selectOutput -/

theorem countVotes_fold (env : Env) (seats : List Nat) (o : Out) :
    (seats.foldl
      (fun acc seat => if env.pointerInside acc.output seat then { acc with vote := acc.vote + 1 } else acc)
      o).output = o.output
    ∧ (seats.foldl
      (fun acc seat => if env.pointerInside acc.output seat then { acc with vote := acc.vote + 1 } else acc)
      o).vote = o.vote + ((seats.filter fun seat => env.pointerInside o.output seat).length : Int) := by
  induction seats generalizing o with
  | nil => simp
  | cons seat rest ih =>
    simp only [List.foldl_cons]
    cases hin : env.pointerInside o.output seat with
    | true =>
      simp only [hin, if_true]
      obtain ⟨h1, h2⟩ := ih { o with vote := o.vote + 1 }
      refine ⟨h1, ?_⟩
      rw [h2]
      simp only [List.filter_cons, hin, if_true, List.length_cons]
      push_cast
      ring
    | false =>
      simp only [hin, Bool.false_eq_true, if_false]
      obtain ⟨h1, h2⟩ := ih o
      refine ⟨h1, ?_⟩
      rw [h2]
      simp [List.filter_cons, hin]

/-- After the vote loop a candidate that started at 10 or 0 carries the score of its
output in the words of the specification. -/
theorem countVotes_score (env : Env) (s : ShellSurface) (o : Nat) :
    (countVotes env { output := o, vote := if env.isWorkspaceActive s.m_workspace o then 10 else 0 })
      = { output := o, vote := specScore env s o } := by
  obtain ⟨h1, h2⟩ := countVotes_fold env env.seats
    { output := o, vote := if env.isWorkspaceActive s.m_workspace o then 10 else 0 }
  have hout : (countVotes env
      { output := o, vote := if env.isWorkspaceActive s.m_workspace o then 10 else 0 }).output = o := h1
  have hvote : (countVotes env
      { output := o, vote := if env.isWorkspaceActive s.m_workspace o then 10 else 0 }).vote
        = specScore env s o := h2
  cases hc : countVotes env
      { output := o, vote := if env.isWorkspaceActive s.m_workspace o then 10 else 0 } with
  | mk out vote =>
    rw [hc] at hout hvote
    simp only at hout hvote
    rw [hout, hvote]

/-- The selection loop started with a current best `b` ends on the first candidate of
`b :: cs` with the highest vote. -/
theorem pickBest_fold (cs : List Out) (b : Out) :
    ∃ pre r post, b :: cs = pre ++ r :: post
      ∧ cs.foldl
          (fun out o =>
            match out with
            | none => some o
            | some best => if best.vote < o.vote then some o else some best)
          (some b) = some r
      ∧ (∀ x ∈ pre, x.vote < r.vote) ∧ (∀ x ∈ post, x.vote ≤ r.vote) := by
  induction cs generalizing b with
  | nil => exact ⟨[], b, [], rfl, rfl, by simp, by simp⟩
  | cons c rest ih =>
    simp only [List.foldl_cons]
    by_cases hlt : b.vote < c.vote
    · simp only [hlt, if_true]
      obtain ⟨pre, r, post, hsplit, hfold, hpre, hpost⟩ := ih c
      have hc : c.vote ≤ r.vote := by
        have hmem : c ∈ pre ++ r :: post := by rw [← hsplit]; exact List.mem_cons_self _ _
        rcases List.mem_append.mp hmem with h | h
        · exact le_of_lt (hpre c h)
        · rcases List.mem_cons.mp h with h | h
          · rw [h]
          · exact hpost c h
      refine ⟨b :: pre, r, post, by rw [hsplit]; rfl, hfold, ?_, hpost⟩
      intro x hx
      rcases List.mem_cons.mp hx with h | h
      · rw [h]; omega
      · exact hpre x h
    · simp only [hlt, if_false]
      obtain ⟨pre, r, post, hsplit, hfold, hpre, hpost⟩ := ih b
      cases pre with
      | nil =>
        simp only [List.nil_append, List.cons.injEq] at hsplit
        obtain ⟨hb, hrest⟩ := hsplit
        refine ⟨[], r, c :: post, by rw [← hb, hrest]; rfl, hfold, by simp, ?_⟩
        intro x hx
        rcases List.mem_cons.mp hx with h | h
        · rw [h, ← hb]; omega
        · exact hpost x h
      | cons p pre' =>
        simp only [List.cons_append, List.cons.injEq] at hsplit
        obtain ⟨hb, hrest⟩ := hsplit
        have hbr : b.vote < r.vote := hpre b (by rw [hb]; exact List.mem_cons_self _ _)
        refine ⟨b :: c :: pre', r, post, by rw [hrest]; rfl, hfold, ?_, hpost⟩
        intro x hx
        rcases List.mem_cons.mp hx with h | h
        · rw [h]; exact hbr
        · rcases List.mem_cons.mp h with h | h
          · rw [h]; omega
          · exact hpre x (List.mem_cons_of_mem _ h)

/-- On a non-empty candidate list the selection loop returns the first candidate with
the highest vote. -/
theorem pickBest_first_max (c : Out) (cs : List Out) :
    ∃ pre r post, c :: cs = pre ++ r :: post ∧ pickBest (c :: cs) = some r
      ∧ (∀ x ∈ pre, x.vote < r.vote) ∧ (∀ x ∈ post, x.vote ≤ r.vote) := by
  obtain ⟨pre, r, post, h1, h2, h3, h4⟩ := pickBest_fold cs c
  exact ⟨pre, r, post, h1, h2, h3, h4⟩

/-- `selectOutput` on a non-empty output list: the result splits the list into the
outputs before it, all of strictly lower score, and the outputs after it, none of higher
score. -/
theorem selectOutput_split (env : Env) (s : ShellSurface) (hne : env.outputs ≠ []) :
    ∃ pre o post, env.outputs = pre ++ o :: post ∧ s.selectOutput env = some o
      ∧ (∀ x ∈ pre, specScore env s x < specScore env s o)
      ∧ (∀ x ∈ post, specScore env s x ≤ specScore env s o) := by
  unfold ShellSurface.selectOutput
  cases houts : env.outputs with
  | nil => exact absurd houts hne
  | cons o1 rest =>
    cases rest with
    | nil =>
      exact ⟨[], o1, [], rfl, rfl, by simp, by simp⟩
    | cons o2 rest' =>
      simp only [List.map_cons, List.map_map]
      rw [countVotes_score, countVotes_score]
      have hmap : List.map
          (countVotes env ∘ fun o =>
            ({ output := o, vote := if env.isWorkspaceActive s.m_workspace o then 10 else 0 } : Out)) rest'
          = rest'.map fun o => ({ output := o, vote := specScore env s o } : Out) := by
        apply List.map_congr_left
        intro o _
        exact countVotes_score env s o
      rw [hmap]
      obtain ⟨pre, r, post, hsplit, hbest, hpre, hpost⟩ :=
        pickBest_first_max ({ output := o1, vote := specScore env s o1 } : Out)
          (({ output := o2, vote := specScore env s o2 } : Out)
            :: rest'.map fun o => ({ output := o, vote := specScore env s o } : Out))
      rw [hbest]
      have hall : (o1 :: o2 :: rest').map (fun o => ({ output := o, vote := specScore env s o } : Out))
          = pre ++ r :: post := by
        simpa using hsplit
      obtain ⟨pre0, tail0, hout, hpre0, htail0⟩ := List.map_eq_append_iff.mp hall
      obtain ⟨o, post0, htail, ho, hpost0⟩ := List.map_eq_cons_iff.mp htail0
      refine ⟨pre0, o, post0, by rw [hout, htail], by simp [← ho], ?_, ?_⟩
      · intro x hx
        have := hpre ({ output := x, vote := specScore env s x } : Out)
          (by rw [← hpre0]; exact List.mem_map.mpr ⟨x, hx, rfl⟩)
        rw [← ho] at this
        exact this
      · intro x hx
        have := hpost ({ output := x, vote := specScore env s x } : Out)
          (by rw [← hpost0]; exact List.mem_map.mpr ⟨x, hx, rfl⟩)
        rw [← ho] at this
        exact this

/-- C3: on a non-empty output list `selectOutput` returns an output of the highest
score (10 if the surface's workspace is active on the output, plus the number of seats
whose pointer is inside its geometry), and among the outputs of that score the first of
the compositor's list: every output before the result scores strictly lower, every
output after it scores at most the same. In particular, of two outputs scoring 12 and 0
the one scoring 12 is returned in either list order. -/
theorem selectOutput_highest_first (env : Env) (s : ShellSurface) :
    (env.outputs ≠ [] →
      ∃ pre o post, env.outputs = pre ++ o :: post ∧ s.selectOutput env = some o
        ∧ (∀ x ∈ pre, specScore env s x < specScore env s o)
        ∧ (∀ x ∈ post, specScore env s x ≤ specScore env s o))
    ∧ (∀ a b : Nat, specScore env s a = 12 → specScore env s b = 0 →
        (env.outputs = [a, b] ∨ env.outputs = [b, a]) → s.selectOutput env = some a) := by
  refine ⟨selectOutput_split env s, ?_⟩
  intro a b ha hb hlist
  have hne : env.outputs ≠ [] := by
    rcases hlist with h | h <;> rw [h] <;> simp
  obtain ⟨pre, o, post, hsplit, hsel, hpre, hpost⟩ := selectOutput_split env s hne
  rw [hsel]
  rcases hlist with h | h
  · rw [h] at hsplit
    cases pre with
    | nil =>
      simp only [List.nil_append, List.cons.injEq] at hsplit
      rw [hsplit.1]
    | cons p pre' =>
      simp only [List.cons_append, List.cons.injEq] at hsplit
      obtain ⟨hp, hrest⟩ := hsplit
      cases pre' with
      | nil =>
        simp only [List.nil_append, List.cons.injEq] at hrest
        have := hpre p (List.mem_cons_self _ _)
        rw [← hp, ← hrest.1, ha, hb] at this
        omega
      | cons q pre'' =>
        simp only [List.cons_append, List.cons.injEq] at hrest
        have := hrest.2
        simp at this
  · rw [h] at hsplit
    cases pre with
    | nil =>
      simp only [List.nil_append, List.cons.injEq] at hsplit
      obtain ⟨ho, hrest⟩ := hsplit
      have := hpost a (by rw [← hrest]; exact List.mem_cons_self _ _)
      rw [← ho, ha, hb] at this
      omega
    | cons p pre' =>
      simp only [List.cons_append, List.cons.injEq] at hsplit
      obtain ⟨hp, hrest⟩ := hsplit
      cases pre' with
      | nil =>
        simp only [List.nil_append, List.cons.injEq] at hrest
        rw [hrest.1]
      | cons q pre'' =>
        simp only [List.cons_append, List.cons.injEq] at hrest
        have := hrest.2
        simp at this


/-! ## configure -/

/-- The zero-size branch of `configure`, in closed form. -/
theorem configure_zero_width (env : Env) (fuel : Nat) (s : ShellSurface)
    (hzero : s.m_surface.width = 0) :
    s.configure env (fuel + 1) =
      Outcome.done { s with
        m_type := SurfaceType.None
        m_workspace := none
        trace := s.trace
          ++ (match s.m_popup.seat with
              | some seat => [Event.ungrabPopup seat]
              | none => [])
          ++ [Event.contentLost, Event.unmapped] } := by
  simp only [ShellSurface.configure, hzero, if_true]
  cases hseat : s.m_popup.seat with
  | none => simp [ShellSurface.emit]
  | some seat => simp [ShellSurface.emit]

/-- C4: for every state, `configure` on a surface of zero size returns the state with
the type set to `None` and the workspace cleared, having emitted `ungrabPopup` on the
popup seat exactly when one is set, then `contentLost` once and `unmapped` once, and
nothing else: every other member is unchanged and the trace gains no view call and no
`mapped`. -/
theorem configure_content_lost (env : Env) (fuel : Nat) (s : ShellSurface)
    (hzero : s.m_surface.width = 0) :
    ∃ s1, s.configure env (fuel + 1) = Outcome.done s1
      ∧ s1 = { s with m_type := SurfaceType.None, m_workspace := none, trace := s1.trace }
      ∧ s1.m_type = SurfaceType.None
      ∧ s1.m_workspace = none
      ∧ (∀ seat, s.m_popup.seat = some seat →
          s1.trace = s.trace ++ [Event.ungrabPopup seat, Event.contentLost, Event.unmapped])
      ∧ (s.m_popup.seat = none → s1.trace = s.trace ++ [Event.contentLost, Event.unmapped]) := by
  refine ⟨_, configure_zero_width env fuel s hzero, rfl, rfl, rfl, ?_, ?_⟩
  · intro seat hseat
    simp [hseat]
  · intro hseat
    simp [hseat]


theorem SameRole.refl (s : ShellSurface) : SameRole s s :=
  ⟨rfl, rfl, rfl, rfl, rfl, rfl, rfl, rfl⟩

theorem SameRole.trans {s t u : ShellSurface} (h1 : SameRole s t) (h2 : SameRole t u) :
    SameRole s u := by
  obtain ⟨a1, a2, a3, a4, a5, a6, a7, a8⟩ := h1
  obtain ⟨b1, b2, b3, b4, b5, b6, b7, b8⟩ := h2
  exact ⟨b1.trans a1, b2.trans a2, b3.trans a3, b4.trans a4, b5.trans a5, b6.trans a6,
    b7.trans a7, b8.trans a8⟩

theorem sameRole_emit (s : ShellSurface) (e : Event) : SameRole s (s.emit e) :=
  ⟨rfl, rfl, rfl, rfl, rfl, rfl, rfl, rfl⟩

theorem sameRole_finishConfigure (env : Env) (wasMapped : Bool) (s : ShellSurface) :
    SameRole s (s.finishConfigure env wasMapped) := by
  unfold ShellSurface.finishConfigure
  simp only
  split
  · exact ⟨rfl, rfl, rfl, rfl, rfl, rfl, rfl, rfl⟩
  · exact ⟨rfl, rfl, rfl, rfl, rfl, rfl, rfl, rfl⟩

theorem sameRole_configureToplevelViews (s : ShellSurface) :
    SameRole s s.configureToplevelViews := by
  unfold ShellSurface.configureToplevelViews
  simp only
  split
  · exact ⟨rfl, rfl, rfl, rfl, rfl, rfl, rfl, rfl⟩
  · exact ⟨rfl, rfl, rfl, rfl, rfl, rfl, rfl, rfl⟩

theorem sameRole_configureXWaylandViews (s : ShellSurface) :
    SameRole s s.configureXWaylandViews :=
  ⟨rfl, rfl, rfl, rfl, rfl, rfl, rfl, rfl⟩

theorem sameRole_configurePopupViews (env : Env) (s t : ShellSurface)
    (h : s.configurePopupViews env = Outcome.done t) : SameRole s t := by
  unfold ShellSurface.configurePopupViews at h
  split at h
  · simp only [Outcome.done.injEq] at h
    rw [← h]
    exact ⟨rfl, rfl, rfl, rfl, rfl, rfl, rfl, rfl⟩
  · exact absurd h (by simp)

theorem sameRole_configureTransientViews (env : Env) (s t : ShellSurface)
    (h : s.configureTransientViews env = Outcome.done t) : SameRole s t := by
  unfold ShellSurface.configureTransientViews at h
  split at h
  · simp only [Outcome.done.injEq] at h
    rw [← h]
    exact ⟨rfl, rfl, rfl, rfl, rfl, rfl, rfl, rfl⟩
  · exact absurd h (by simp)

/-- The view configuration leaves the role members as they are. -/
theorem sameRole_configureViews (env : Env) (tc wm : Bool) (s t : ShellSurface)
    (h : s.configureViews env tc wm = Outcome.done t) : SameRole s t := by
  unfold ShellSurface.configureViews at h
  simp only at h
  have h1 : SameRole s (if tc = true then s.emit Event.deleteExtraViews else s) := by
    split
    · exact sameRole_emit s _
    · exact SameRole.refl s
  generalize (if tc = true then s.emit Event.deleteExtraViews else s) = s1 at h h1
  split at h
  · simp only [Outcome.done.injEq] at h
    rw [← h]
    exact h1.trans ((sameRole_configureToplevelViews s1).trans (sameRole_finishConfigure env wm _))
  · split at h
    · split at h
      · rename_i s2 hs2
        simp only [Outcome.done.injEq] at h
        rw [← h]
        exact h1.trans ((sameRole_configurePopupViews env s1 s2 hs2).trans
          (sameRole_finishConfigure env wm _))
      · rename_i other hother
        rw [h] at hother
        exact absurd rfl (hother t)
    · split at h
      · split at h
        · rename_i s2 hs2
          simp only [Outcome.done.injEq] at h
          rw [← h]
          exact h1.trans ((sameRole_configureTransientViews env s1 s2 hs2).trans
            (sameRole_finishConfigure env wm _))
        · rename_i other hother
          rw [h] at hother
          exact absurd rfl (hother t)
      · split at h
        · simp only [Outcome.done.injEq] at h
          rw [← h]
          exact h1.trans ((sameRole_configureXWaylandViews s1).trans
            (sameRole_finishConfigure env wm _))
        · simp only [Outcome.done.injEq] at h
          rw [← h]
          exact h1.trans (sameRole_finishConfigure env wm _)


/-- `Shell::configure` with a `configure` continuation that keeps the pending type and
the surface width: the result has them unchanged, and its applied type is the one the
continuation leaves or the one it had. -/
theorem shell_configure_done (env : Env) (cfg : ShellSurface → Outcome) (s t : ShellSurface)
    (h : Shell.configure env cfg s = Outcome.done t) :
    t = s ∨ ∃ ws, cfg { (({ s with m_workspace := some ws } : ShellSurface).emit
      (Event.setWorkspaceMask ws)) with m_forceMap := true } = Outcome.done t := by
  unfold Shell.configure at h
  split at h
  · split at h
    · exact absurd h (by simp)
    · rename_i ws rest hws
      exact Or.inr ⟨ws, h⟩
  · simp only [Outcome.done.injEq] at h
    exact Or.inl h.symm

/-- What a returning `configure` does to the applied type: `None` on zero-size
content, the pending type otherwise; the pending type, the pending geometry, the
surface size, the parent and the popup data are not written. -/
theorem configure_done_type (env : Env) (fuel : Nat) :
    ∀ s t : ShellSurface, s.configure env fuel = Outcome.done t →
      t.m_type = (if s.m_surface.width = 0 then SurfaceType.None else s.m_nextType)
        ∧ t.m_nextType = s.m_nextType ∧ t.m_surface.width = s.m_surface.width
        ∧ t.m_nextGeometry = s.m_nextGeometry ∧ t.m_parent = s.m_parent
        ∧ t.m_popup = s.m_popup ∧ t.m_toplevel = s.m_toplevel := by
  induction fuel with
  | zero =>
    intro s t h
    simp [ShellSurface.configure] at h
  | succ n ih =>
    intro s t h
    by_cases hzero : s.m_surface.width = 0
    · rw [configure_zero_width env n s hzero] at h
      simp only [Outcome.done.injEq] at h
      rw [← h]
      simp [hzero]
    · simp only [ShellSurface.configure, hzero, if_false] at h
      simp only [hzero, if_false]
      split at h
      · simp only [Outcome.done.injEq] at h
        rw [← h]
        exact ⟨rfl, rfl, rfl, rfl, rfl, rfl, rfl⟩
      · split at h
        · rename_i hnone s3 hs3
          have hs3' : s3.m_type = s.m_nextType ∧ s3.m_nextType = s.m_nextType
              ∧ s3.m_surface.width = s.m_surface.width
              ∧ s3.m_nextGeometry = s.m_nextGeometry ∧ s3.m_parent = s.m_parent
              ∧ s3.m_popup = s.m_popup ∧ s3.m_toplevel = s.m_toplevel := by
            rcases shell_configure_done env _ _ _ hs3 with heq | ⟨ws, hcfg⟩
            · rw [heq]
              exact ⟨rfl, rfl, rfl, rfl, rfl, rfl, rfl⟩
            · have := ih _ _ hcfg
              have hw : ¬ (s.m_surface.width = 0) := hzero
              simpa [ShellSurface.emit, ShellSurface.updateState, hw] using this
          split at h
          · simp only [Outcome.done.injEq] at h
            rw [← h]
            exact hs3'
          · obtain ⟨r1, r2, r3, r4, _, r6, r7, r8⟩ := sameRole_configureViews env _ _ s3 t h
            obtain ⟨q1, q2, q3, q4, q5, q6, q7⟩ := hs3'
            exact ⟨r1.trans q1, r2.trans q2, r6.trans q3, r7.trans q4, r3.trans q5,
              r4.trans q6, r8.trans q7⟩
        · rename_i other hother
          rw [h] at hother
          exact absurd rfl (hother t)


/-- The view configuration returns when the pointers its branch dereferences are set. -/
theorem configureViews_returns (env : Env) (tc wm : Bool) (s : ShellSurface)
    (hpop : s.m_type = SurfaceType.Popup → s.m_parent.isSome = true ∧ s.m_popup.seat.isSome = true)
    (htr : s.m_type = SurfaceType.Transient → s.m_parent.isSome = true) :
    ∃ t, s.configureViews env tc wm = Outcome.done t := by
  unfold ShellSurface.configureViews
  simp only
  have htype : (if tc = true then s.emit Event.deleteExtraViews else s).m_type = s.m_type := by
    split <;> rfl
  have hparent : (if tc = true then s.emit Event.deleteExtraViews else s).m_parent = s.m_parent := by
    split <;> rfl
  have hpopup : (if tc = true then s.emit Event.deleteExtraViews else s).m_popup = s.m_popup := by
    split <;> rfl
  generalize (if tc = true then s.emit Event.deleteExtraViews else s) = s1 at htype hparent hpopup
  by_cases h1 : s1.m_type = SurfaceType.Toplevel
  · exact ⟨_, by rw [if_pos h1]⟩
  · rw [if_neg h1]
    by_cases h2 : s1.m_type = SurfaceType.Popup ∧ tc = true
    · rw [if_pos h2]
      obtain ⟨hp, hs⟩ := hpop (htype ▸ h2.1)
      rw [← hparent] at hp
      rw [← hpopup] at hs
      obtain ⟨parent, hparent'⟩ := Option.isSome_iff_exists.mp hp
      obtain ⟨seat, hseat'⟩ := Option.isSome_iff_exists.mp hs
      simp only [ShellSurface.configurePopupViews, hparent', hseat']
      exact ⟨_, rfl⟩
    · rw [if_neg h2]
      by_cases h3 : s1.m_type = SurfaceType.Transient
      · rw [if_pos h3]
        have hp := htr (htype ▸ h3)
        rw [← hparent] at hp
        obtain ⟨parent, hparent'⟩ := Option.isSome_iff_exists.mp hp
        simp only [ShellSurface.configureTransientViews, hparent']
        exact ⟨_, rfl⟩
      · rw [if_neg h3]
        by_cases h4 : s1.m_type = SurfaceType.XWayland
        · exact ⟨_, by rw [if_pos h4]⟩
        · exact ⟨_, by rw [if_neg h4]⟩

/-- One level of `configure` returns when `Shell::configure` finds the surface mapped. -/
theorem configure_returns_mapped (env : Env) (fuel : Nat) (s : ShellSurface)
    (hmapped : env.isMapped
      (s.updateState.emit (Event.setActivable
        (decide (s.updateState.m_type ≠ SurfaceType.Transient) || !s.updateState.m_transient.inactive)))
      = true)
    (hsafe : s.parentSet) :
    ∃ t, s.configure env (fuel + 1) = Outcome.done t := by
  by_cases hzero : s.m_surface.width = 0
  · exact ⟨_, configure_zero_width env fuel s hzero⟩
  · simp only [ShellSurface.configure, hzero, if_false]
    split
    · exact ⟨_, rfl⟩
    · simp only [Shell.configure, hmapped, Bool.not_true, Bool.false_eq_true, if_false]
      split
      · exact ⟨_, rfl⟩
      · exact configureViews_returns env _ _ _ hsafe.1 hsafe.2

/-- `configure` returns, with a recursion depth of at most two, whenever the `Shell`
has a workspace to place the surface in, a surface that has a workspace counts as mapped
for the `Shell`, and the parent pointers of the pending role are set. -/
theorem configure_returns (env : Env) (fuel : Nat) (s : ShellSurface)
    (hmapped : ∀ t : ShellSurface, t.m_workspace.isSome = true → env.isMapped t = true)
    (hws : env.workspaces ≠ [])
    (hsafe : s.parentSet) :
    ∃ t, s.configure env (fuel + 2) = Outcome.done t := by
  by_cases hzero : s.m_surface.width = 0
  · exact ⟨_, configure_zero_width env (fuel + 1) s hzero⟩
  · by_cases hm : env.isMapped
        (s.updateState.emit (Event.setActivable
          (decide (s.updateState.m_type ≠ SurfaceType.Transient) || !s.updateState.m_transient.inactive)))
        = true
    · exact configure_returns_mapped env (fuel + 1) s hm hsafe
    · rw [ShellSurface.configure]
      simp only [hzero, if_false]
      split
      · exact ⟨_, rfl⟩
      · rename_i htype
        obtain ⟨ws, rest, hwsl⟩ := List.exists_cons_of_ne_nil hws
        simp only [Shell.configure, hm, Bool.not_false, if_true, hwsl, ShellSurface.setWorkspace]
        have hinner : ∃ t, ShellSurface.configure env (fuel + 1)
            { (({ s.updateState.emit (Event.setActivable
                (decide (s.updateState.m_type ≠ SurfaceType.Transient) || !s.updateState.m_transient.inactive))
                with m_workspace := some ws } : ShellSurface).emit (Event.setWorkspaceMask ws))
              with m_forceMap := true } = Outcome.done t := by
          apply configure_returns_mapped
          · exact hmapped _ rfl
          · exact hsafe
        obtain ⟨t, ht⟩ := hinner
        rw [ht]
        simp only
        split
        · exact ⟨_, rfl⟩
        · obtain ⟨h1, _, _, _, h5, h6, _⟩ := configure_done_type env _ _ _ ht
          simp only [ShellSurface.emit, ShellSurface.updateState, hzero, if_false] at h1 h5 h6
          apply configureViews_returns
          · intro hp
            rw [h5, h6]
            exact hsafe.1 (h1 ▸ hp)
          · intro hp
            rw [h5]
            exact hsafe.2 (h1 ▸ hp)


/-- C5 (as stated, refuted): a toplevel surface is configured, loses its content (the
type becomes `None`) and then commits content again with no set request in between; the
second configure applies the still pending `Toplevel`, so the type does not stay
`None`. The run is on `sampleEnv`; by `configure_done_type` the final type is the same
in every environment in which the last configure returns. -/
theorem content_lost_then_commit_restores_type :
    ∃ s1 s2 s3 : ShellSurface,
      sampleSurface.setToplevel.configure sampleEnv 2 = Outcome.done s1
        ∧ s1.m_type = SurfaceType.Toplevel
        ∧ ({ s1 with m_surface := sampleNoContent } : ShellSurface).configure sampleEnv 2 = Outcome.done s2
        ∧ s2.m_type = SurfaceType.None
        ∧ ({ s2 with m_surface := sampleContent } : ShellSurface).configure sampleEnv 2 = Outcome.done s3
        ∧ s3.m_type = SurfaceType.Toplevel :=
  ⟨_, _, _, rfl, rfl, rfl, rfl, rfl, rfl⟩


/-- C5 (amended): a configure with zero-size content sets the type to `None` and leaves
the pending type as it was; a following configure with non-zero content applies that
pending type. The type therefore becomes the last requested type again without any new
set request, and stays `None` only when the pending type is `None`. The second configure
returns, with that type, whenever the `Shell` has a workspace, a surface with a
workspace counts as mapped for the `Shell`, and the parent pointers of the pending role
are set. -/
theorem configure_after_content_lost (env : Env) (fuel fuel2 : Nat) (s : ShellSurface)
    (content : Surface) (hzero : s.m_surface.width = 0) (hcontent : content.width ≠ 0) :
    ∃ s1, s.configure env (fuel + 1) = Outcome.done s1
      ∧ s1.m_type = SurfaceType.None
      ∧ s1.m_nextType = s.m_nextType
      ∧ (∀ s2, ({ s1 with m_surface := content } : ShellSurface).configure env fuel2 = Outcome.done s2 →
          s2.m_type = s.m_nextType)
      ∧ ((∀ t : ShellSurface, t.m_workspace.isSome = true → env.isMapped t = true) →
          env.workspaces ≠ [] → s.parentSet →
          ∃ s2, ({ s1 with m_surface := content } : ShellSurface).configure env (fuel2 + 2) = Outcome.done s2
            ∧ s2.m_type = s.m_nextType) := by
  refine ⟨_, configure_zero_width env fuel s hzero, rfl, rfl, ?_, ?_⟩
  · intro s2 h2
    have := (configure_done_type env fuel2 _ _ h2).1
    simpa [hcontent] using this
  · intro hmapped hws hsafe
    obtain ⟨s2, h2⟩ := configure_returns env fuel2
      ({ ({ s with
            m_type := SurfaceType.None
            m_workspace := none
            trace := s.trace
              ++ (match s.m_popup.seat with
                  | some seat => [Event.ungrabPopup seat]
                  | none => [])
              ++ [Event.contentLost, Event.unmapped] } : ShellSurface)
          with m_surface := content } : ShellSurface)
      hmapped hws hsafe
    refine ⟨s2, h2, ?_⟩
    have := (configure_done_type env _ _ _ h2).1
    simpa [hcontent] using this

theorem configure_after_content_lost_witness :
    ∃ s1 s2, ({ sampleSurface.setToplevel with m_surface := sampleNoContent } : ShellSurface).configure
        sampleEnv 1 = Outcome.done s1
      ∧ s1.m_type = SurfaceType.None
      ∧ ({ s1 with m_surface := sampleContent } : ShellSurface).configure sampleEnv 2 = Outcome.done s2
      ∧ s2.m_type = SurfaceType.Toplevel := by
  obtain ⟨s1, h1, h2, _, _, h5⟩ := configure_after_content_lost sampleEnv 0 0
    ({ sampleSurface.setToplevel with m_surface := sampleNoContent } : ShellSurface)
    sampleContent (by decide) (by decide)
  obtain ⟨s2, h6, h7⟩ := h5 (fun _ ht => ht) (by decide) (by unfold ShellSurface.parentSet; decide)
  exact ⟨s1, s2, h1, h2, h6, h7⟩

theorem resize_keeps_type (env : Env) (s : ShellSurface) (seat : Nat) (e : Int) :
    (s.resize env seat e).m_type = s.m_type := by
  by_cases h : e = 0 ∨ e > 15 ∨ int32And e 3 = 3 ∨ int32And e 12 = 12
  · rw [resize_of_rejected env s seat e h]
  · rw [resize_of_accepted env s seat e h]

theorem sendConfigure_keeps_type (s : ShellSurface) (w h : Int) :
    (s.sendConfigure w h).m_type = s.m_type := by
  unfold ShellSurface.sendConfigure
  split <;> rfl

theorem setMaximized_keeps_type (env : Env) (s t : ShellSurface)
    (h : s.setMaximized env = Outcome.done t) : t.m_type = s.m_type := by
  unfold ShellSurface.setMaximized at h
  simp only at h
  split at h
  · exact absurd h (by simp)
  · simp only [Outcome.done.injEq] at h
    rw [← h, sendConfigure_keeps_type]

theorem setFullscreen_keeps_type (env : Env) (s t : ShellSurface)
    (h : s.setFullscreen env = Outcome.done t) : t.m_type = s.m_type := by
  unfold ShellSurface.setFullscreen at h
  simp only at h
  split at h
  · exact absurd h (by simp)
  · simp only [Outcome.done.injEq] at h
    rw [← h, sendConfigure_keeps_type]

/-- C6: `setToplevel`, `setTransient`, `setPopup` and `setXWayland` each set `nextType`
to the requested type and leave the applied type unchanged, for every prior state; so do
the other requests (`resize`, `setMaximized`, `setFullscreen`, `sendPopupDone`,
`parentSurfaceDestroyed` leave the applied type unchanged). A `configure` that returns
leaves the applied type equal to `nextType`, or to `None` on zero-size content, and
`configure` does return under the conditions of `configure_returns`. -/
theorem type_applied_only_by_configure (env : Env) (s : ShellSurface) :
    (s.setToplevel.m_nextType = SurfaceType.Toplevel ∧ s.setToplevel.m_type = s.m_type)
    ∧ (∀ parent x y inactive,
        (s.setTransient parent x y inactive).m_nextType = SurfaceType.Transient
          ∧ (s.setTransient parent x y inactive).m_type = s.m_type)
    ∧ (∀ parent seat x y,
        (s.setPopup parent seat x y).m_nextType = SurfaceType.Popup
          ∧ (s.setPopup parent seat x y).m_type = s.m_type)
    ∧ (∀ x y inactive,
        (s.setXWayland x y inactive).m_nextType = SurfaceType.XWayland
          ∧ (s.setXWayland x y inactive).m_type = s.m_type)
    ∧ (∀ seat e, (s.resize env seat e).m_type = s.m_type)
    ∧ (∀ t, s.setMaximized env = Outcome.done t → t.m_type = s.m_type)
    ∧ (∀ t, s.setFullscreen env = Outcome.done t → t.m_type = s.m_type)
    ∧ s.sendPopupDone.m_type = s.m_type
    ∧ s.parentSurfaceDestroyed.m_type = s.m_type
    ∧ (∀ fuel t, s.configure env fuel = Outcome.done t →
        t.m_type = (if s.m_surface.width = 0 then SurfaceType.None else s.m_nextType))
    ∧ ((∀ t : ShellSurface, t.m_workspace.isSome = true → env.isMapped t = true) →
        env.workspaces ≠ [] → s.parentSet →
        ∀ fuel, ∃ t, s.configure env (fuel + 2) = Outcome.done t
          ∧ t.m_type = (if s.m_surface.width = 0 then SurfaceType.None else s.m_nextType)) := by
  refine ⟨⟨rfl, rfl⟩, fun _ _ _ _ => ⟨rfl, rfl⟩, fun _ _ _ _ => ⟨rfl, rfl⟩, fun _ _ _ => ⟨rfl, rfl⟩,
    resize_keeps_type env s, setMaximized_keeps_type env s, setFullscreen_keeps_type env s,
    rfl, rfl, ?_, ?_⟩
  · intro fuel t h
    exact (configure_done_type env fuel s t h).1
  · intro hmapped hws hsafe fuel
    obtain ⟨t, ht⟩ := configure_returns env fuel s hmapped hws hsafe
    exact ⟨t, ht, (configure_done_type env _ s t ht).1⟩

theorem type_applied_only_by_configure_witness :
    ∃ t, (sampleSurface.setPopup 7 1 10 20).configure sampleEnv 2 = Outcome.done t
      ∧ t.m_type = SurfaceType.Popup :=
  (type_applied_only_by_configure sampleEnv (sampleSurface.setPopup 7 1 10 20)).2.2.2.2.2.2.2.2.2.2
    (fun _ ht => ht) (by decide) (by unfold ShellSurface.parentSet; decide) 0

theorem resize_grab_iff_valid_mask_witness :
    (sampleSurface.resize sampleEnv 1 5).m_currentGrab = some (Grab.ResizeGrab 1 640 480)
      ∧ (sampleSurface.resize sampleEnv 1 3).m_currentGrab = none :=
  ⟨((resize_grab_iff_valid_mask sampleEnv sampleSurface 1).1 5 (by decide)).2.1,
    ((resize_grab_iff_valid_mask sampleEnv sampleSurface 1).2 3
      (by unfold rejectedMask containsBit; decide)).1⟩

theorem resize_rejected_unchanged_witness :
    sampleSurface.resize sampleEnv 1 12 = sampleSurface :=
  (resize_rejected_unchanged sampleEnv sampleSurface 1 12
    (by unfold rejectedMask containsBit; decide)).1

theorem selectOutput_highest_first_witness :
    (∃ pre o post, sampleEnv.outputs = pre ++ o :: post
        ∧ sampleSurface.selectOutput sampleEnv = some o
        ∧ (∀ x ∈ pre, specScore sampleEnv sampleSurface x < specScore sampleEnv sampleSurface o)
        ∧ (∀ x ∈ post, specScore sampleEnv sampleSurface x ≤ specScore sampleEnv sampleSurface o))
      ∧ ({ sampleSurface with m_workspace := some 0 } : ShellSurface).selectOutput
          { sampleEnv with outputs := [2, 1] } = some 1 :=
  ⟨(selectOutput_highest_first sampleEnv sampleSurface).1 (by decide),
    (selectOutput_highest_first { sampleEnv with outputs := [2, 1] }
      ({ sampleSurface with m_workspace := some 0 } : ShellSurface)).2 1 2
      (by decide) (by decide) (Or.inr rfl)⟩

theorem configure_content_lost_witness :
    ∃ s1, ({ sampleSurface.setPopup 7 1 10 20 with m_surface := sampleNoContent } :
        ShellSurface).configure sampleEnv 1 = Outcome.done s1
      ∧ s1.m_type = SurfaceType.None
      ∧ s1.trace = [Event.ungrabPopup 1, Event.contentLost, Event.unmapped] := by
  obtain ⟨s1, h1, _, h3, _, h5, _⟩ := configure_content_lost sampleEnv 0
    ({ sampleSurface.setPopup 7 1 10 20 with m_surface := sampleNoContent } : ShellSurface)
    (by decide)
  exact ⟨s1, h1, h3, h5 1 rfl⟩


/-! ## Layer: the linked lists -/

theorem linked_frame {h h1 : Links} {a b : Entry}
    (hn : h1.next a = h.next a) (hp : h1.prev b = h.prev b) (hl : Linked h a b) :
    Linked h1 a b := by
  unfold Linked at *
  rw [hn, hp]
  exact hl

/-- A chain of adjacent entries stays a chain when the `next` pointers of all entries
but the last and the `prev` pointers of all entries but the first are unchanged. -/
theorem chain_frame (h h1 : Links) :
    ∀ l : List Entry,
      (∀ a ∈ l.dropLast, h1.next a = h.next a) → (∀ b ∈ l.tail, h1.prev b = h.prev b) →
      List.Chain' (Linked h) l → List.Chain' (Linked h1) l
  | [], _, _, _ => List.chain'_nil
  | [_], _, _, _ => List.chain'_singleton _
  | a :: b :: rest, hn, hp, hc => by
    rw [List.chain'_cons] at hc ⊢
    refine ⟨linked_frame (hn a (by simp)) (hp b (by simp)) hc.1, ?_⟩
    apply chain_frame h h1 (b :: rest)
    · intro x hx
      apply hn
      simp only [List.dropLast_cons₂]
      exact List.mem_cons_of_mem _ hx
    · intro x hx
      apply hp
      simp only [List.tail_cons] at hx ⊢
      exact List.mem_cons_of_mem _ hx
    · exact hc.2

/-- Unlinking `v` from between `p` and `n`: the chain through `p, v, n` becomes the
chain through `p, n`. -/
theorem chain_unlink (h h1 : Links) (A B : List Entry) (p v n : Entry)
    (hc : List.Chain' (Linked h) (A ++ p :: v :: n :: B))
    (hpA : p ∉ A) (hvA : v ∉ A) (hvp : v ≠ p) (hvn : v ≠ n) (hvB : v ∉ B)
    (hnA : n ∉ (A ++ [p]).tail) (hpB : p ∉ (n :: B).dropLast) (hnB : n ∉ B)
    (hnext : h1.next = Function.update (Function.update h.next p (some n)) v (some v))
    (hprev : h1.prev = Function.update (Function.update h.prev n (some p)) v (some v)) :
    List.Chain' (Linked h1) (A ++ p :: n :: B) := by
  rw [List.chain'_split] at hc
  obtain ⟨hA, hrest⟩ := hc
  rw [List.chain'_cons, List.chain'_cons] at hrest
  obtain ⟨_, _, hB⟩ := hrest
  rw [List.chain'_split, List.chain'_cons]
  refine ⟨?_, ?_, ?_⟩
  · apply chain_frame h h1 _ _ _ hA
    · intro a ha
      rw [List.dropLast_concat] at ha
      rw [hnext, Function.update_noteq, Function.update_noteq]
      · intro hap; exact hpA (hap ▸ ha)
      · intro hav; exact hvA (hav ▸ ha)
    · intro b hb
      have hbv : b ≠ v := by
        intro hbv
        rw [hbv] at hb
        have := List.mem_of_mem_tail hb
        rcases List.mem_append.mp this with h | h
        · exact hvA h
        · exact hvp (List.mem_singleton.mp h)
      rw [hprev, Function.update_noteq hbv, Function.update_noteq]
      intro hbn; exact hnA (hbn ▸ hb)
  · constructor
    · rw [hnext, Function.update_noteq (Ne.symm hvp), Function.update_same]
    · rw [hprev, Function.update_noteq (Ne.symm hvn), Function.update_same]
  · apply chain_frame h h1 _ _ _ hB
    · intro a ha
      have hav : a ≠ v := by
        intro hav
        rw [hav] at ha
        have := List.mem_of_mem_dropLast ha
        rcases List.mem_cons.mp this with h | h
        · exact hvn h
        · exact hvB h
      rw [hnext, Function.update_noteq hav, Function.update_noteq]
      intro hap; exact hpB (hap ▸ ha)
    · intro b hb
      simp only [List.tail_cons] at hb
      rw [hprev, Function.update_noteq, Function.update_noteq]
      · intro hbn; exact hnB (hbn ▸ hb)
      · intro hbv; exact hvB (hbv ▸ hb)

/-- Linking `v` between `a` and `b`: the chain through `a, b` becomes the chain through
`a, v, b`. -/
theorem chain_link (h h1 : Links) (A B : List Entry) (a v b : Entry)
    (hc : List.Chain' (Linked h) (A ++ a :: b :: B))
    (haA : a ∉ A) (hvA : v ∉ A) (hva : v ≠ a) (hvb : v ≠ b) (hvB : v ∉ B)
    (hbA : b ∉ (A ++ [a]).tail) (haB : a ∉ (b :: B).dropLast) (hbB : b ∉ B)
    (hnext : h1.next = Function.update (Function.update h.next v (some b)) a (some v))
    (hprev : h1.prev = Function.update (Function.update h.prev v (some a)) b (some v)) :
    List.Chain' (Linked h1) (A ++ a :: v :: b :: B) := by
  rw [List.chain'_split] at hc
  obtain ⟨hA, hrest⟩ := hc
  rw [List.chain'_cons] at hrest
  obtain ⟨_, hB⟩ := hrest
  rw [List.chain'_split, List.chain'_cons, List.chain'_cons]
  refine ⟨?_, ?_, ?_, ?_⟩
  · apply chain_frame h h1 _ _ _ hA
    · intro x hx
      rw [List.dropLast_concat] at hx
      rw [hnext, Function.update_noteq, Function.update_noteq]
      · intro hxv; exact hvA (hxv ▸ hx)
      · intro hxa; exact haA (hxa ▸ hx)
    · intro x hx
      have hxv : x ≠ v := by
        intro hxv
        rw [hxv] at hx
        have := List.mem_of_mem_tail hx
        rcases List.mem_append.mp this with h | h
        · exact hvA h
        · exact hva (List.mem_singleton.mp h)
      rw [hprev, Function.update_noteq, Function.update_noteq hxv]
      intro hxb; exact hbA (hxb ▸ hx)
  · constructor
    · rw [hnext, Function.update_same]
    · rw [hprev, Function.update_noteq hvb, Function.update_same]
  · constructor
    · rw [hnext, Function.update_noteq hva, Function.update_same]
    · rw [hprev, Function.update_same]
  · apply chain_frame h h1 _ _ _ hB
    · intro x hx
      have hxv : x ≠ v := by
        intro hxv
        rw [hxv] at hx
        have := List.mem_of_mem_dropLast hx
        rcases List.mem_cons.mp this with h | h
        · exact hvb h
        · exact hvB h
      rw [hnext, Function.update_noteq, Function.update_noteq hxv]
      intro hxa; exact haB (hxa ▸ hx)
    · intro x hx
      simp only [List.tail_cons] at hx
      rw [hprev, Function.update_noteq, Function.update_noteq]
      · intro hxv; exact hvB (hxv ▸ hx)
      · intro hxb; exact hbB (hxb ▸ hx)


/-- `weston_layer_entry_remove` on an entry linked between `p` and `n`, in closed
form. -/
theorem weston_layer_entry_remove_eq (h : Links) (v p n : Entry)
    (hp : h.prev v = some p) (hn : h.next v = some n) (hpv : p ≠ v) :
    weston_layer_entry_remove h v = some
      { next := Function.update (Function.update h.next p (some n)) v (some v)
        prev := Function.update (Function.update h.prev n (some p)) v (some v)
        layer := Function.update h.layer v none } := by
  unfold weston_layer_entry_remove wl_list_remove wl_list_init
  simp only [hp, hn, Function.update_noteq (Ne.symm hpv), Function.update_idem]

/-- `weston_layer_entry_remove` on an entry whose link points to itself changes no
pointer. -/
theorem weston_layer_entry_remove_self (h : Links) (v : Entry)
    (hp : h.prev v = some v) (hn : h.next v = some v) :
    weston_layer_entry_remove h v = some
      { next := h.next, prev := h.prev, layer := Function.update h.layer v none } := by
  unfold weston_layer_entry_remove wl_list_remove wl_list_init
  simp only [hp, hn, Function.update_same, Function.update_idem]
  have h1 : Function.update h.next v (some v) = h.next := by
    rw [← hn]; exact Function.update_eq_self v h.next
  have h2 : Function.update h.prev v (some v) = h.prev := by
    rw [← hp]; exact Function.update_eq_self v h.prev
  simp only [h1, h2]

/-- `weston_layer_entry_insert` of `v` after `a`, whose successor is `b`, in closed
form. -/
theorem weston_layer_entry_insert_eq (h : Links) (a v b : Entry)
    (hab : h.next a = some b) (hva : v ≠ a) :
    weston_layer_entry_insert h a v = some
      { next := Function.update (Function.update h.next v (some b)) a (some v)
        prev := Function.update (Function.update h.prev v (some a)) b (some v)
        layer := Function.update h.layer v (h.layer a) } := by
  unfold weston_layer_entry_insert wl_list_insert
  simp only [hab, Function.update_noteq hva, Function.update_same]


theorem link_injective : Function.Injective Entry.link := by
  intro a b hab
  exact Entry.link.inj hab

theorem list_not_mem_links (l : Nat) (vs : List Nat) : Entry.list l ∉ vs.map Entry.link := by
  intro hmem
  obtain ⟨w, _, hw⟩ := List.mem_map.mp hmem
  exact absurd hw (by simp)

theorem link_mem_links (v : Nat) (vs : List Nat) : Entry.link v ∈ vs.map Entry.link ↔ v ∈ vs :=
  List.mem_map_of_injective link_injective

/-- The entries of a layer's list, head first, are pairwise distinct when its views
are. -/
theorem ring_entries_nodup (l : Nat) (vs : List Nat) (hnd : vs.Nodup) :
    (Entry.list l :: vs.map Entry.link).Nodup :=
  List.nodup_cons.mpr ⟨list_not_mem_links l vs, hnd.map link_injective⟩

/-- The links of a layer's views followed by its head are pairwise distinct. -/
theorem ring_tail_nodup (l : Nat) (vs : List Nat) (hnd : vs.Nodup) :
    (vs.map Entry.link ++ [Entry.list l]).Nodup := by
  rw [List.nodup_append]
  refine ⟨hnd.map link_injective, List.nodup_singleton _, ?_⟩
  intro e he1 he2
  rw [List.mem_singleton] at he2
  rw [he2] at he1
  exact list_not_mem_links l vs he1

/-- A ring is unchanged by a store that agrees with the old one on all its entries. -/
theorem ring_frame (h h1 : Links) (l : Nat) (vs : List Nat)
    (hn : ∀ e, e ∈ Entry.list l :: vs.map Entry.link → h1.next e = h.next e)
    (hp : ∀ e, e ∈ Entry.list l :: vs.map Entry.link → h1.prev e = h.prev e)
    (hr : Ring h l vs) : Ring h1 l vs := by
  unfold Ring at *
  apply chain_frame h h1 _ _ _ hr
  · intro a ha
    apply hn
    have := List.mem_of_mem_dropLast ha
    simp only [List.cons_append, List.mem_cons, List.mem_append, List.mem_singleton] at this
    simp only [List.mem_cons]
    tauto
  · intro b hb
    apply hp
    simp only [List.cons_append, List.tail_cons, List.mem_append, List.mem_singleton] at hb
    simp only [List.mem_cons]
    tauto

/-- The neighbours of a view inside its ring: the entry before it is the last of the
head and the views in front of it, the entry after it is the first of the views behind
it and the head. -/
theorem ring_neighbours (h : Links) (l : Nat) (pre post : List Nat) (v : Nat)
    (hr : Ring h l (pre ++ v :: post)) (A B : List Entry) (p n : Entry)
    (hA : Entry.list l :: pre.map Entry.link = A ++ [p])
    (hB : post.map Entry.link ++ [Entry.list l] = n :: B) :
    List.Chain' (Linked h) (A ++ p :: Entry.link v :: n :: B)
      ∧ h.prev (Entry.link v) = some p ∧ h.next (Entry.link v) = some n := by
  unfold Ring at hr
  have hseq : Entry.list l :: (pre ++ v :: post).map Entry.link ++ [Entry.list l]
      = A ++ p :: Entry.link v :: n :: B := by
    have : Entry.list l :: (pre ++ v :: post).map Entry.link ++ [Entry.list l]
        = (Entry.list l :: pre.map Entry.link) ++ Entry.link v :: (post.map Entry.link ++ [Entry.list l]) := by
      simp
    rw [this, hA, hB]
    simp
  rw [hseq] at hr
  refine ⟨hr, ?_, ?_⟩
  · rw [List.chain'_split, List.chain'_cons] at hr
    exact hr.2.1.2
  · rw [List.chain'_split, List.chain'_cons, List.chain'_cons] at hr
    exact hr.2.2.1.1


/-- The entries of the lists of two different layers are different. -/
theorem ring_entries_disjoint {h : Links} {order : Nat → List Nat} (hs : Stacking h order)
    (l k : Nat) (hlk : k ≠ l) (e : Entry)
    (he : e ∈ Entry.list k :: (order k).map Entry.link) :
    e ∉ Entry.list l :: (order l).map Entry.link := by
  intro he2
  rcases List.mem_cons.mp he with h1 | h1
  · rcases List.mem_cons.mp he2 with h2 | h2
    · rw [h1] at h2
      exact hlk (Entry.list.inj h2)
    · rw [h1] at h2
      exact list_not_mem_links k _ h2
  · obtain ⟨w, hw, hwe⟩ := List.mem_map.mp h1
    rcases List.mem_cons.mp he2 with h2 | h2
    · rw [← hwe] at h2
      exact absurd h2 (by simp)
    · rw [← hwe, link_mem_links] at h2
      exact hs.disjoint k l hlk w hw h2

/-- Unlinking a view that is in layer `l`: `weston_layer_entry_remove` succeeds, the
view leaves the order of `l`, every other view keeps its place, and the link of the view
points to itself. -/
theorem stacking_unlink {h : Links} {order : Nat → List Nat} (hs : Stacking h order)
    (l : Nat) (pre post : List Nat) (v : Nat) (hl : order l = pre ++ v :: post) :
    ∃ h1, weston_layer_entry_remove h (Entry.link v) = some h1
      ∧ Stacking h1 (Function.update order l (pre ++ post))
      ∧ h1.next (Entry.link v) = some (Entry.link v)
      ∧ h1.prev (Entry.link v) = some (Entry.link v)
      ∧ (∀ e, h.prev e ≠ none → h1.prev e ≠ none) := by
  have hnd : (pre ++ v :: post).Nodup := hl ▸ hs.nodup l
  have hvpre : v ∉ pre := by
    intro hv
    exact (List.nodup_append.mp hnd).2.2 hv (List.mem_cons_self _ _)
  have hvpost : v ∉ post := (List.nodup_cons.mp (List.nodup_append.mp hnd).2.1).1
  have hndpp : (pre ++ post).Nodup := by
    apply hnd.sublist
    exact List.Sublist.append_left (List.sublist_cons_self v post) pre
  obtain ⟨A, p, hA⟩ : ∃ A p, Entry.list l :: pre.map Entry.link = A ++ [p] := by
    rcases List.eq_nil_or_concat (Entry.list l :: pre.map Entry.link) with h0 | ⟨A, p, h0⟩
    · exact absurd h0 (by simp)
    · exact ⟨A, p, by rw [h0, List.concat_eq_append]⟩
  obtain ⟨n, B, hB⟩ : ∃ n B, post.map Entry.link ++ [Entry.list l] = n :: B := by
    cases post with
    | nil => exact ⟨_, _, rfl⟩
    | cons w rest => exact ⟨_, _, rfl⟩
  obtain ⟨hchain, hprev, hnext⟩ := ring_neighbours h l pre post v (hl ▸ hs.ring l) A B p n hA hB
  -- membership of the changed entries
  have hpX : p ∈ Entry.list l :: pre.map Entry.link := by rw [hA]; simp
  have hnY : n ∈ post.map Entry.link ++ [Entry.list l] := by rw [hB]; simp
  have hvX : Entry.link v ∉ Entry.list l :: pre.map Entry.link := by
    intro hmem
    rcases List.mem_cons.mp hmem with h1 | h1
    · exact absurd h1 (by simp)
    · exact hvpre ((link_mem_links v pre).mp h1)
  have hvY : Entry.link v ∉ post.map Entry.link ++ [Entry.list l] := by
    intro hmem
    rcases List.mem_append.mp hmem with h1 | h1
    · exact hvpost ((link_mem_links v post).mp h1)
    · exact absurd (List.mem_singleton.mp h1) (by simp)
  have hXnd : (A ++ [p]).Nodup := by
    rw [← hA]
    exact ring_entries_nodup l pre (List.nodup_append.mp hndpp).1
  have hYnd : (n :: B).Nodup := by
    rw [← hB]
    exact ring_tail_nodup l post (List.nodup_append.mp hndpp).2.1
  have hpv : p ≠ Entry.link v := fun hpv => hvX (hpv ▸ hpX)
  have hnv : n ≠ Entry.link v := fun hnv => hvY (hnv ▸ hnY)
  have hXY : ∀ e, e ∈ pre.map Entry.link → e ∉ post.map Entry.link ++ [Entry.list l] := by
    intro e he1 he2
    obtain ⟨w, hw, hwe⟩ := List.mem_map.mp he1
    rcases List.mem_append.mp he2 with h1 | h1
    · rw [← hwe, link_mem_links] at h1
      exact (List.nodup_append.mp hndpp).2.2 hw h1
    · rw [← hwe] at h1
      exact absurd (List.mem_singleton.mp h1) (by simp)
  have hin : ∀ e, (e = p ∨ e = n ∨ e = Entry.link v) →
      e ∈ Entry.list l :: (order l).map Entry.link := by
    intro e he
    rw [hl]
    simp only [List.map_append, List.map_cons, List.mem_cons, List.mem_append]
    rcases he with h1 | h1 | h1
    · rw [h1]
      rcases List.mem_cons.mp hpX with h2 | h2
      · exact Or.inl h2
      · exact Or.inr (Or.inl h2)
    · rw [h1]
      rcases List.mem_append.mp hnY with h2 | h2
      · exact Or.inr (Or.inr (Or.inr h2))
      · exact Or.inl (List.mem_singleton.mp h2)
    · exact Or.inr (Or.inr (Or.inl h1))
  refine ⟨_, weston_layer_entry_remove_eq h (Entry.link v) p n hprev hnext hpv, ?_, ?_, ?_, ?_⟩
  · have hout : ∀ e, e ∉ Entry.list l :: (order l).map Entry.link →
        Function.update (Function.update h.next p (some n)) (Entry.link v) (some (Entry.link v)) e
            = h.next e
          ∧ Function.update (Function.update h.prev n (some p)) (Entry.link v) (some (Entry.link v)) e
            = h.prev e := by
      intro e he
      have h1 : e ≠ p := fun heq => he (hin e (Or.inl heq))
      have h2 : e ≠ n := fun heq => he (hin e (Or.inr (Or.inl heq)))
      have h3 : e ≠ Entry.link v := fun heq => he (hin e (Or.inr (Or.inr heq)))
      exact ⟨by rw [Function.update_noteq h3, Function.update_noteq h1],
        by rw [Function.update_noteq h3, Function.update_noteq h2]⟩
    constructor
    · intro k
      by_cases hk : k = l
      · subst hk
        rw [Function.update_same]
        unfold Ring
        have hseq : Entry.list k :: (pre ++ post).map Entry.link ++ [Entry.list k]
            = A ++ p :: n :: B := by
          have : Entry.list k :: (pre ++ post).map Entry.link ++ [Entry.list k]
              = (Entry.list k :: pre.map Entry.link) ++ (post.map Entry.link ++ [Entry.list k]) := by
            simp
          rw [this, hA, hB]
          simp
        rw [hseq]
        apply chain_unlink h _ A B p (Entry.link v) n hchain
        · intro hpA
          exact (List.nodup_append.mp hXnd).2.2 hpA (List.mem_singleton_self p)
        · intro hvA
          exact hvX (by rw [hA]; exact List.mem_append_left _ hvA)
        · exact Ne.symm hpv
        · exact Ne.symm hnv
        · intro hvB
          exact hvY (by rw [hB]; exact List.mem_cons_of_mem _ hvB)
        · rw [← hA, List.tail_cons]
          intro hn1
          exact hXY n hn1 hnY
        · rw [← hB, List.dropLast_concat]
          intro hp1
          rcases List.mem_cons.mp hpX with h2 | h2
          · rw [h2] at hp1
            exact list_not_mem_links k post hp1
          · exact hXY p h2 (List.mem_append_left _ hp1)
        · exact (List.nodup_cons.mp hYnd).1
        · rfl
        · rfl
      · rw [Function.update_noteq hk]
        apply ring_frame h _ k (order k) _ _ (hs.ring k)
        · intro e he
          exact (hout e (ring_entries_disjoint hs l k hk e he)).1
        · intro e he
          exact (hout e (ring_entries_disjoint hs l k hk e he)).2
    · intro k
      by_cases hk : k = l
      · subst hk
        rw [Function.update_same]
        exact hndpp
      · rw [Function.update_noteq hk]
        exact hs.nodup k
    · intro k k2 hkk w hw1 hw2
      have hsub : ∀ j w, w ∈ Function.update order l (pre ++ post) j → w ∈ order j := by
        intro j w hw
        by_cases hj : j = l
        · subst hj
          rw [Function.update_same] at hw
          rw [hl]
          rcases List.mem_append.mp hw with h1 | h1
          · exact List.mem_append_left _ h1
          · exact List.mem_append_right _ (List.mem_cons_of_mem _ h1)
        · rw [Function.update_noteq hj] at hw
          exact hw
      exact hs.disjoint k k2 hkk w (hsub k w hw1) (hsub k2 w hw2)
    · intro k
      show Function.update h.layer (Entry.link v) none (Entry.list k) = some k
      rw [Function.update_noteq (by simp)]
      exact hs.headLayer k
    · intro k w hw
      show Function.update h.layer (Entry.link v) none (Entry.link w) = some k
      have hwv : w ≠ v := by
        intro hwv
        rw [hwv] at hw
        by_cases hk : k = l
        · subst hk
          rw [Function.update_same] at hw
          rcases List.mem_append.mp hw with h1 | h1
          · exact hvpre h1
          · exact hvpost h1
        · rw [Function.update_noteq hk] at hw
          exact hs.disjoint k l hk v hw (by rw [hl]; simp)
      rw [Function.update_noteq (by simpa using hwv)]
      apply hs.linkLayer k w
      by_cases hk : k = l
      · subst hk
        rw [Function.update_same] at hw
        rw [hl]
        rcases List.mem_append.mp hw with h1 | h1
        · exact List.mem_append_left _ h1
        · exact List.mem_append_right _ (List.mem_cons_of_mem _ h1)
      · rw [Function.update_noteq hk] at hw
        exact hw
    · intro w hw
      by_cases hwv : w = v
      · subst hwv
        refine ⟨Or.inl ⟨?_, ?_⟩, ?_⟩
        · show Function.update (Function.update h.next p (some n)) (Entry.link w) _ (Entry.link w) = _
          rw [Function.update_same]
        · show Function.update (Function.update h.prev n (some p)) (Entry.link w) _ (Entry.link w) = _
          rw [Function.update_same]
        · show Function.update h.layer (Entry.link w) none (Entry.link w) = none
          rw [Function.update_same]
      · have hfree : ∀ k, w ∉ order k := by
          intro k hwk
          by_cases hk : k = l
          · subst hk
            apply hw k
            rw [Function.update_same]
            rw [hl] at hwk
            rcases List.mem_append.mp hwk with h1 | h1
            · exact List.mem_append_left _ h1
            · rcases List.mem_cons.mp h1 with h2 | h2
              · exact absurd h2 hwv
              · exact List.mem_append_right _ h2
          · apply hw k
            rw [Function.update_noteq hk]
            exact hwk
        obtain ⟨hun, hlay⟩ := hs.free w hfree
        have hwl : Entry.link w ∉ Entry.list l :: (order l).map Entry.link := by
          intro hmem
          rcases List.mem_cons.mp hmem with h1 | h1
          · exact absurd h1 (by simp)
          · exact hfree l ((link_mem_links w _).mp h1)
        obtain ⟨ho1, ho2⟩ := hout (Entry.link w) hwl
        refine ⟨?_, ?_⟩
        · unfold Unlinked at *
          show (Function.update (Function.update h.next p (some n)) (Entry.link v) _ (Entry.link w) = _
              ∧ Function.update (Function.update h.prev n (some p)) (Entry.link v) _ (Entry.link w) = _)
            ∨ (Function.update (Function.update h.next p (some n)) (Entry.link v) _ (Entry.link w) = _
              ∧ Function.update (Function.update h.prev n (some p)) (Entry.link v) _ (Entry.link w) = _)
          rw [ho1, ho2]
          exact hun
        · show Function.update h.layer (Entry.link v) none (Entry.link w) = none
          rw [Function.update_noteq (by simpa using hwv)]
          exact hlay
  · show Function.update (Function.update h.next p (some n)) (Entry.link v) _ (Entry.link v) = _
    rw [Function.update_same]
  · show Function.update (Function.update h.prev n (some p)) (Entry.link v) _ (Entry.link v) = _
    rw [Function.update_same]
  · intro e he
    show Function.update (Function.update h.prev n (some p)) (Entry.link v) _ e ≠ none
    by_cases h1 : e = Entry.link v
    · rw [h1, Function.update_same]; simp
    · rw [Function.update_noteq h1]
      by_cases h2 : e = n
      · rw [h2, Function.update_same]; simp
      · rw [Function.update_noteq h2]; exact he


/-- Unlinking a view that is in no layer and whose link is initialised:
`weston_layer_entry_remove` succeeds and changes nothing. -/
theorem stacking_unlink_free {h : Links} {order : Nat → List Nat} (hs : Stacking h order)
    (v : Nat) (hv : ∀ l, v ∉ order l) (hinit : h.prev (Entry.link v) ≠ none) :
    weston_layer_entry_remove h (Entry.link v) = some h := by
  obtain ⟨hun, hlay⟩ := hs.free v hv
  rcases hun with ⟨hn, hp⟩ | ⟨_, hp⟩
  · rw [weston_layer_entry_remove_self h (Entry.link v) hp hn]
    have : Function.update h.layer (Entry.link v) none = h.layer := by
      rw [← hlay]; exact Function.update_eq_self _ h.layer
    rw [this]
  · exact absurd hp hinit

/-- Linking a view that is in no layer after the entry `a` of layer `l` (the head, or
the link of the last view of `pre`): `weston_layer_entry_insert` succeeds, the view
enters the order of `l` right behind `pre`, and every other view keeps its place. -/
theorem stacking_insert {h : Links} {order : Nat → List Nat} (hs : Stacking h order)
    (v : Nat) (hv : ∀ k, v ∉ order k) (l : Nat) (pre post : List Nat)
    (hl : order l = pre ++ post) (A : List Entry) (a : Entry)
    (hA : Entry.list l :: pre.map Entry.link = A ++ [a]) :
    ∃ h1, weston_layer_entry_insert h a (Entry.link v) = some h1
      ∧ Stacking h1 (Function.update order l (pre ++ v :: post))
      ∧ (∀ e, h.prev e ≠ none → h1.prev e ≠ none) := by
  have hnd : (pre ++ post).Nodup := hl ▸ hs.nodup l
  have hvl : v ∉ pre ++ post := hl ▸ hv l
  have hvpre : v ∉ pre := fun hmem => hvl (List.mem_append_left _ hmem)
  have hvpost : v ∉ post := fun hmem => hvl (List.mem_append_right _ hmem)
  obtain ⟨b, B, hB⟩ : ∃ b B, post.map Entry.link ++ [Entry.list l] = b :: B := by
    cases post with
    | nil => exact ⟨_, _, rfl⟩
    | cons w rest => exact ⟨_, _, rfl⟩
  have hseq : Entry.list l :: (pre ++ post).map Entry.link ++ [Entry.list l]
      = A ++ a :: b :: B := by
    have : Entry.list l :: (pre ++ post).map Entry.link ++ [Entry.list l]
        = (Entry.list l :: pre.map Entry.link) ++ (post.map Entry.link ++ [Entry.list l]) := by
      simp
    rw [this, hA, hB]
    simp
  have hchain : List.Chain' (Linked h) (A ++ a :: b :: B) := by
    have := hs.ring l
    unfold Ring at this
    rw [hl, hseq] at this
    exact this
  have hab : h.next a = some b := by
    have := hchain
    rw [List.chain'_split, List.chain'_cons] at this
    exact this.2.1.1
  have haX : a ∈ Entry.list l :: pre.map Entry.link := by rw [hA]; simp
  have hbY : b ∈ post.map Entry.link ++ [Entry.list l] := by rw [hB]; simp
  have hvX : Entry.link v ∉ Entry.list l :: pre.map Entry.link := by
    intro hmem
    rcases List.mem_cons.mp hmem with h1 | h1
    · exact absurd h1 (by simp)
    · exact hvpre ((link_mem_links v pre).mp h1)
  have hvY : Entry.link v ∉ post.map Entry.link ++ [Entry.list l] := by
    intro hmem
    rcases List.mem_append.mp hmem with h1 | h1
    · exact hvpost ((link_mem_links v post).mp h1)
    · exact absurd (List.mem_singleton.mp h1) (by simp)
  have hXnd : (A ++ [a]).Nodup := by
    rw [← hA]
    exact ring_entries_nodup l pre (List.nodup_append.mp hnd).1
  have hYnd : (b :: B).Nodup := by
    rw [← hB]
    exact ring_tail_nodup l post (List.nodup_append.mp hnd).2.1
  have hva : Entry.link v ≠ a := fun heq => hvX (heq ▸ haX)
  have hvb : Entry.link v ≠ b := fun heq => hvY (heq ▸ hbY)
  have hXY : ∀ e, e ∈ pre.map Entry.link → e ∉ post.map Entry.link ++ [Entry.list l] := by
    intro e he1 he2
    obtain ⟨w, hw, hwe⟩ := List.mem_map.mp he1
    rcases List.mem_append.mp he2 with h1 | h1
    · rw [← hwe, link_mem_links] at h1
      exact (List.nodup_append.mp hnd).2.2 hw h1
    · rw [← hwe] at h1
      exact absurd (List.mem_singleton.mp h1) (by simp)
  have hin : ∀ e, (e = a ∨ e = b) → e ∈ Entry.list l :: (order l).map Entry.link := by
    intro e he
    rw [hl]
    simp only [List.map_append, List.mem_cons, List.mem_append]
    rcases he with h1 | h1
    · rw [h1]
      rcases List.mem_cons.mp haX with h2 | h2
      · exact Or.inl h2
      · exact Or.inr (Or.inl h2)
    · rw [h1]
      rcases List.mem_append.mp hbY with h2 | h2
      · exact Or.inr (Or.inr h2)
      · exact Or.inl (List.mem_singleton.mp h2)
  have hlayer : h.layer a = some l := by
    rcases List.mem_cons.mp haX with h1 | h1
    · rw [h1]; exact hs.headLayer l
    · obtain ⟨w, hw, hwe⟩ := List.mem_map.mp h1
      rw [← hwe]
      exact hs.linkLayer l w (by rw [hl]; exact List.mem_append_left _ hw)
  have hsub : ∀ j w, w ∈ Function.update order l (pre ++ v :: post) j → w ≠ v → w ∈ order j := by
    intro j w hw hwv
    by_cases hj : j = l
    · subst hj
      rw [Function.update_same] at hw
      rw [hl]
      rcases List.mem_append.mp hw with h1 | h1
      · exact List.mem_append_left _ h1
      · rcases List.mem_cons.mp h1 with h2 | h2
        · exact absurd h2 hwv
        · exact List.mem_append_right _ h2
    · rw [Function.update_noteq hj] at hw
      exact hw
  have hvin : ∀ j, v ∈ Function.update order l (pre ++ v :: post) j → j = l := by
    intro j hj
    by_contra hne
    rw [Function.update_noteq hne] at hj
    exact hv j hj
  refine ⟨_, weston_layer_entry_insert_eq h a (Entry.link v) b hab hva, ?_, ?_⟩
  swap
  · intro e he
    show Function.update (Function.update h.prev (Entry.link v) (some a)) b _ e ≠ none
    by_cases h1 : e = b
    · rw [h1, Function.update_same]; simp
    · rw [Function.update_noteq h1]
      by_cases h2 : e = Entry.link v
      · rw [h2, Function.update_same]; simp
      · rw [Function.update_noteq h2]; exact he
  have hout : ∀ e, e ∉ Entry.list l :: (order l).map Entry.link → e ≠ Entry.link v →
      Function.update (Function.update h.next (Entry.link v) (some b)) a (some (Entry.link v)) e
          = h.next e
        ∧ Function.update (Function.update h.prev (Entry.link v) (some a)) b (some (Entry.link v)) e
          = h.prev e := by
    intro e he h3
    have h1 : e ≠ a := fun heq => he (hin e (Or.inl heq))
    have h2 : e ≠ b := fun heq => he (hin e (Or.inr heq))
    exact ⟨by rw [Function.update_noteq h1, Function.update_noteq h3],
      by rw [Function.update_noteq h2, Function.update_noteq h3]⟩
  constructor
  · intro k
    by_cases hk : k = l
    · subst hk
      rw [Function.update_same]
      unfold Ring
      have hseq2 : Entry.list k :: (pre ++ v :: post).map Entry.link ++ [Entry.list k]
          = A ++ a :: Entry.link v :: b :: B := by
        have : Entry.list k :: (pre ++ v :: post).map Entry.link ++ [Entry.list k]
            = (Entry.list k :: pre.map Entry.link)
              ++ Entry.link v :: (post.map Entry.link ++ [Entry.list k]) := by
          simp
        rw [this, hA, hB]
        simp
      rw [hseq2]
      apply chain_link h _ A B a (Entry.link v) b hchain
      · intro haA
        exact (List.nodup_append.mp hXnd).2.2 haA (List.mem_singleton_self a)
      · intro hvA
        exact hvX (by rw [hA]; exact List.mem_append_left _ hvA)
      · exact hva
      · exact hvb
      · intro hvB
        exact hvY (by rw [hB]; exact List.mem_cons_of_mem _ hvB)
      · rw [← hA, List.tail_cons]
        intro hb1
        exact hXY b hb1 hbY
      · rw [← hB, List.dropLast_concat]
        intro ha1
        rcases List.mem_cons.mp haX with h2 | h2
        · rw [h2] at ha1
          exact list_not_mem_links k post ha1
        · exact hXY a h2 (List.mem_append_left _ ha1)
      · exact (List.nodup_cons.mp hYnd).1
      · rfl
      · rfl
    · rw [Function.update_noteq hk]
      apply ring_frame h _ k (order k) _ _ (hs.ring k)
      · intro e he
        have hev : e ≠ Entry.link v := by
          intro heq
          rw [heq] at he
          rcases List.mem_cons.mp he with h1 | h1
          · exact absurd h1 (by simp)
          · exact hv k ((link_mem_links v _).mp h1)
        exact (hout e (ring_entries_disjoint hs l k hk e he) hev).1
      · intro e he
        have hev : e ≠ Entry.link v := by
          intro heq
          rw [heq] at he
          rcases List.mem_cons.mp he with h1 | h1
          · exact absurd h1 (by simp)
          · exact hv k ((link_mem_links v _).mp h1)
        exact (hout e (ring_entries_disjoint hs l k hk e he) hev).2
  · intro k
    by_cases hk : k = l
    · subst hk
      rw [Function.update_same, List.nodup_middle]
      exact List.nodup_cons.mpr ⟨hvl, hnd⟩
    · rw [Function.update_noteq hk]
      exact hs.nodup k
  · intro k k2 hkk w hw1 hw2
    by_cases hwv : w = v
    · subst hwv
      exact hkk ((hvin k hw1).trans (hvin k2 hw2).symm)
    · exact hs.disjoint k k2 hkk w (hsub k w hw1 hwv) (hsub k2 w hw2 hwv)
  · intro k
    show Function.update h.layer (Entry.link v) (h.layer a) (Entry.list k) = some k
    rw [Function.update_noteq (by simp)]
    exact hs.headLayer k
  · intro k w hw
    show Function.update h.layer (Entry.link v) (h.layer a) (Entry.link w) = some k
    by_cases hwv : w = v
    · subst hwv
      rw [Function.update_same, hlayer, hvin k hw]
    · rw [Function.update_noteq (by simpa using hwv)]
      exact hs.linkLayer k w (hsub k w hw hwv)
  · intro w hw
    have hwv : w ≠ v := by
      intro heq
      apply hw l
      rw [Function.update_same, heq]
      simp
    have hfree : ∀ k, w ∉ order k := by
      intro k hwk
      apply hw k
      by_cases hk : k = l
      · subst hk
        rw [Function.update_same]
        rw [hl] at hwk
        rcases List.mem_append.mp hwk with h1 | h1
        · exact List.mem_append_left _ h1
        · exact List.mem_append_right _ (List.mem_cons_of_mem _ h1)
      · rw [Function.update_noteq hk]
        exact hwk
    obtain ⟨hun, hlay⟩ := hs.free w hfree
    have hwl : Entry.link w ∉ Entry.list l :: (order l).map Entry.link := by
      intro hmem
      rcases List.mem_cons.mp hmem with h1 | h1
      · exact absurd h1 (by simp)
      · exact hfree l ((link_mem_links w _).mp h1)
    obtain ⟨ho1, ho2⟩ := hout (Entry.link w) hwl (by simpa using hwv)
    refine ⟨?_, ?_⟩
    · unfold Unlinked at *
      show (Function.update (Function.update h.next (Entry.link v) (some b)) a _ (Entry.link w) = _
          ∧ Function.update (Function.update h.prev (Entry.link v) (some a)) b _ (Entry.link w) = _)
        ∨ (Function.update (Function.update h.next (Entry.link v) (some b)) a _ (Entry.link w) = _
          ∧ Function.update (Function.update h.prev (Entry.link v) (some a)) b _ (Entry.link w) = _)
      rw [ho1, ho2]
      exact hun
    · show Function.update h.layer (Entry.link v) (h.layer a) (Entry.link w) = none
      rw [Function.update_noteq (by simpa using hwv)]
      exact hlay


theorem withoutView_not_mem (order : Nat → List Nat) (v k : Nat) : v ∉ withoutView order v k := by
  unfold withoutView
  intro hmem
  have := (List.mem_filter.mp hmem).2
  simp at this

theorem filter_ne_of_not_mem (vs : List Nat) (v : Nat) (hv : v ∉ vs) :
    vs.filter (fun w => decide (w ≠ v)) = vs := by
  apply List.filter_eq_self.mpr
  intro w hw
  simp only [ne_eq, decide_not, Bool.not_eq_true', decide_eq_false_iff_not]
  intro hwv
  exact hv (hwv ▸ hw)

/-- In a layer without repetition, filtering a view out removes exactly its one
occurrence. -/
theorem filter_ne_middle (pre post : List Nat) (v : Nat) (hnd : (pre ++ v :: post).Nodup) :
    (pre ++ v :: post).filter (fun w => decide (w ≠ v)) = pre ++ post := by
  have hvpre : v ∉ pre := by
    intro hv
    exact (List.nodup_append.mp hnd).2.2 hv (List.mem_cons_self _ _)
  have hvpost : v ∉ post := (List.nodup_cons.mp (List.nodup_append.mp hnd).2.1).1
  rw [List.filter_append, List.filter_cons]
  simp only [ne_eq, not_true_eq_false, decide_False, Bool.false_eq_true, if_false]
  have h1 := filter_ne_of_not_mem pre v hvpre
  have h2 := filter_ne_of_not_mem post v hvpost
  simp only [ne_eq] at h1 h2
  rw [h1, h2]

theorem withoutView_of_free (order : Nat → List Nat) (v : Nat) (hv : ∀ k, v ∉ order k) :
    withoutView order v = order := by
  funext k
  exact filter_ne_of_not_mem (order k) v (hv k)

theorem withoutView_of_mem {h : Links} {order : Nat → List Nat} (hs : Stacking h order)
    (l : Nat) (pre post : List Nat) (v : Nat) (hl : order l = pre ++ v :: post) :
    withoutView order v = Function.update order l (pre ++ post) := by
  funext k
  by_cases hk : k = l
  · subst hk
    rw [Function.update_same]
    unfold withoutView
    rw [hl]
    exact filter_ne_middle pre post v (hl ▸ hs.nodup k)
  · rw [Function.update_noteq hk]
    apply filter_ne_of_not_mem
    intro hmem
    exact hs.disjoint k l hk v hmem (by rw [hl]; simp)

/-- `weston_layer_entry_remove` on a view whose link is initialised: it succeeds, the
view is in no layer afterwards, and every other view keeps its layer and its place. -/
theorem stacking_remove {h : Links} {order : Nat → List Nat} (hs : Stacking h order)
    (v : Nat) (hinit : h.prev (Entry.link v) ≠ none) :
    ∃ h1, weston_layer_entry_remove h (Entry.link v) = some h1
      ∧ Stacking h1 (withoutView order v)
      ∧ h1.next (Entry.link v) = some (Entry.link v)
      ∧ (∀ e, h.prev e ≠ none → h1.prev e ≠ none) := by
  by_cases hmem : ∃ l, v ∈ order l
  · obtain ⟨l, hl⟩ := hmem
    obtain ⟨pre, post, hsplit⟩ := List.append_of_mem hl
    obtain ⟨h1, hrem, hst, hnext, _, hkeep⟩ := stacking_unlink hs l pre post v hsplit
    rw [← withoutView_of_mem hs l pre post v hsplit] at hst
    exact ⟨h1, hrem, hst, hnext, hkeep⟩
  · have hfree : ∀ l, v ∉ order l := fun l hl => hmem ⟨l, hl⟩
    refine ⟨h, stacking_unlink_free hs v hfree hinit, ?_, ?_, fun _ he => he⟩
    · rw [withoutView_of_free order v hfree]
      exact hs
    · rcases (hs.free v hfree).1 with ⟨hn, _⟩ | ⟨_, hp⟩
      · exact hn
      · exact absurd hp hinit

/-- `weston_layer_entry_insert` of a view that is in no layer at the head of layer
`l`: it succeeds and the view becomes the first of `l`. -/
theorem stacking_push {h : Links} {order : Nat → List Nat} (hs : Stacking h order)
    (v : Nat) (hv : ∀ k, v ∉ order k) (l : Nat) :
    ∃ h1, weston_layer_entry_insert h (Entry.list l) (Entry.link v) = some h1
      ∧ Stacking h1 (Function.update order l (v :: order l))
      ∧ (∀ e, h.prev e ≠ none → h1.prev e ≠ none) :=
  stacking_insert hs v hv l [] (order l) rfl [] (Entry.list l) rfl

/-- `Layer::raiseOnTop` on a view whose link is initialised, in any layer or none. -/
theorem raiseOnTop_stacking {h : Links} {order : Nat → List Nat} (hs : Stacking h order)
    (l v : Nat) (hinit : h.prev (Entry.link v) ≠ none) :
    ∃ h2, Layer.raiseOnTop h l v = some h2 ∧ Stacking h2 (raisedOrder order l v)
      ∧ (∀ e, h.prev e ≠ none → h2.prev e ≠ none) := by
  obtain ⟨h1, hrem, hst1, _, hkeep1⟩ := stacking_remove hs v hinit
  obtain ⟨h2, hins, hst2, hkeep2⟩ := stacking_push hst1 v (withoutView_not_mem order v) l
  refine ⟨h2, ?_, hst2, fun e he => hkeep2 e (hkeep1 e he)⟩
  unfold Layer.raiseOnTop
  rw [hrem]
  exact hins

/-- `Layer::addView` on any view: unlinked (initialised or not), already in the layer,
or in another layer. -/
theorem addView_stacking {h : Links} {order : Nat → List Nat} (hs : Stacking h order)
    (l v : Nat) :
    ∃ h2, Layer.addView h l v = some h2 ∧ Stacking h2 (raisedOrder order l v)
      ∧ (∀ e, h.prev e ≠ none → h2.prev e ≠ none) := by
  by_cases hinit : h.prev (Entry.link v) = none
  · have hfree : ∀ k, v ∉ order k := by
      intro k hk
      obtain ⟨pre, post, hsplit⟩ := List.append_of_mem hk
      obtain ⟨A, p, hA⟩ : ∃ A p, Entry.list k :: pre.map Entry.link = A ++ [p] := by
        rcases List.eq_nil_or_concat (Entry.list k :: pre.map Entry.link) with h0 | ⟨A, p, h0⟩
        · exact absurd h0 (by simp)
        · exact ⟨A, p, by rw [h0, List.concat_eq_append]⟩
      obtain ⟨n, B, hB⟩ : ∃ n B, post.map Entry.link ++ [Entry.list k] = n :: B := by
        cases post with
        | nil => exact ⟨_, _, rfl⟩
        | cons w rest => exact ⟨_, _, rfl⟩
      have := (ring_neighbours h k pre post v (hsplit ▸ hs.ring k) A B p n hA hB).2.1
      rw [hinit] at this
      exact absurd this (by simp)
    obtain ⟨h2, hins, hst2, hkeep2⟩ := stacking_push hs v hfree l
    refine ⟨h2, ?_, ?_, hkeep2⟩
    · unfold Layer.addView
      simp only [hinit, Option.isSome_none, Bool.false_eq_true, if_false]
      exact hins
    · unfold raisedOrder
      rw [withoutView_of_free order v hfree]
      exact hst2
  · obtain ⟨h2, hraise, hst2, hkeep2⟩ := raiseOnTop_stacking hs l v hinit
    refine ⟨h2, ?_, hst2, hkeep2⟩
    unfold Layer.addView
    have : (h.prev (Entry.link v)).isSome = true := Option.isSome_iff_ne_none.mpr hinit
    simp only [this, if_true]
    unfold Layer.raiseOnTop at hraise
    exact hraise

/-- `Layer::topView` returns the first view of the layer's order, `none` when the layer
is empty. -/
theorem topView_stacking {h : Links} {order : Nat → List Nat} (hs : Stacking h order) (l : Nat) :
    Layer.topView h l = (order l).head? := by
  have hr := hs.ring l
  unfold Ring at hr
  unfold Layer.topView wl_list_empty
  cases hol : order l with
  | nil =>
    rw [hol] at hr
    simp only [List.map_nil, List.cons_append, List.nil_append, List.chain'_cons,
      List.chain'_singleton, and_true] at hr
    simp [hr.1]
  | cons w rest =>
    rw [hol] at hr
    simp only [List.map_cons, List.cons_append, List.chain'_cons] at hr
    simp [hr.1.1]

/-- Walking the `next` pointers of a chain of view links that ends at a list head
collects exactly the views of the chain. -/
theorem walk_chain (h : Links) (l : Nat) :
    ∀ (vs : List Nat) (e : Entry) (fuel : Nat), vs.length ≤ fuel →
      List.Chain' (Linked h) (e :: vs.map Entry.link ++ [Entry.list l]) →
      Layer.walk h fuel e = vs
  | [], e, fuel, _, hc => by
    simp only [List.map_nil, List.cons_append, List.nil_append, List.chain'_cons,
      List.chain'_singleton, and_true] at hc
    cases fuel with
    | zero => rfl
    | succ f => simp [Layer.walk, hc.1]
  | w :: rest, e, fuel, hfuel, hc => by
    simp only [List.map_cons, List.cons_append, List.chain'_cons] at hc
    cases fuel with
    | zero => simp at hfuel
    | succ f =>
      simp only [Layer.walk, hc.1.1]
      congr 1
      apply walk_chain h l rest (Entry.link w) f (by simpa using hfuel)
      simpa using hc.2

/-- Traversing the list of a layer visits the views of its order, front to back. -/
theorem views_stacking {h : Links} {order : Nat → List Nat} (hs : Stacking h order) (l : Nat)
    (fuel : Nat) (hfuel : (order l).length ≤ fuel) :
    Layer.views h l fuel = order l :=
  walk_chain h l (order l) (Entry.list l) fuel hfuel (hs.ring l)


/-- The `next` pointer of a view inside a ring: the link of the view behind it, or the
list head when it is the last. -/
theorem ring_next (h : Links) (l : Nat) (pre post : List Nat) (v : Nat)
    (hr : Ring h l (pre ++ v :: post)) :
    h.next (Entry.link v) = some (match post with
      | [] => Entry.list l
      | w :: _ => Entry.link w) := by
  obtain ⟨A, p, hA⟩ : ∃ A p, Entry.list l :: pre.map Entry.link = A ++ [p] := by
    rcases List.eq_nil_or_concat (Entry.list l :: pre.map Entry.link) with h0 | ⟨A, p, h0⟩
    · exact absurd h0 (by simp)
    · exact ⟨A, p, by rw [h0, List.concat_eq_append]⟩
  cases post with
  | nil => exact (ring_neighbours h l pre [] v hr A [] p (Entry.list l) hA rfl).2.2
  | cons w rest =>
    exact (ring_neighbours h l pre (w :: rest) v hr A (rest.map Entry.link ++ [Entry.list l]) p
      (Entry.link w) hA rfl).2.2

/-- `Layer::lower` on a view with a view behind it: the two swap places. -/
theorem lower_swap {h : Links} {order : Nat → List Nat} (hs : Stacking h order)
    (self l : Nat) (pre post : List Nat) (v n : Nat) (hl : order l = pre ++ v :: n :: post) :
    ∃ h2, Layer.lower h self v = some h2
      ∧ Stacking h2 (Function.update order l (pre ++ n :: v :: post))
      ∧ (∀ e, h.prev e ≠ none → h2.prev e ≠ none) := by
  have hnd : (pre ++ v :: n :: post).Nodup := hl ▸ hs.nodup l
  have hnext : h.next (Entry.link v) = some (Entry.link n) :=
    ring_next h l pre (n :: post) v (hl ▸ hs.ring l)
  have hvn : v ≠ n := by
    have := (List.nodup_cons.mp (List.nodup_append.mp hnd).2.1).1
    intro heq
    exact this (heq ▸ List.mem_cons_self _ _)
  obtain ⟨h1, hrem, hst1, _, _, hkeep1⟩ := stacking_unlink hs l pre (n :: post) v hl
  have hfree : ∀ k, v ∉ Function.update order l (pre ++ n :: post) k := by
    rw [← withoutView_of_mem hs l pre (n :: post) v hl]
    exact withoutView_not_mem order v
  obtain ⟨h2, hins, hst2, hkeep2⟩ := stacking_insert hst1 v hfree l (pre ++ [n]) post
    (by rw [Function.update_same]; simp) (Entry.list l :: pre.map Entry.link) (Entry.link n)
    (by simp)
  refine ⟨h2, ?_, ?_, fun e he => hkeep2 e (hkeep1 e he)⟩
  · unfold Layer.lower wl_list_empty
    have hne : ¬ (some (Entry.link n) = some (Entry.link v)) := by
      intro heq
      exact hvn (Entry.link.inj (Option.some.inj heq)).symm
    rw [hnext, hrem]
    simp only [hne, decide_False, Bool.false_eq_true, if_false]
    exact hins
  · have : Function.update (Function.update order l (pre ++ n :: post)) l (pre ++ [n] ++ v :: post)
        = Function.update order l (pre ++ n :: v :: post) := by
      rw [Function.update_idem]
      simp
    rw [← this]
    exact hst2

/-- `Layer::lower` on the last view of a layer: its successor is the list head, so the
view is linked back in right after the head and becomes the first of its layer. -/
theorem lower_last {h : Links} {order : Nat → List Nat} (hs : Stacking h order)
    (self l : Nat) (pre : List Nat) (v : Nat) (hl : order l = pre ++ [v]) :
    ∃ h2, Layer.lower h self v = some h2
      ∧ Stacking h2 (Function.update order l (v :: pre))
      ∧ (∀ e, h.prev e ≠ none → h2.prev e ≠ none) := by
  have hnext : h.next (Entry.link v) = some (Entry.list l) :=
    ring_next h l pre [] v (hl ▸ hs.ring l)
  obtain ⟨h1, hrem, hst1, _, _, hkeep1⟩ := stacking_unlink hs l pre [] v hl
  have hfree : ∀ k, v ∉ Function.update order l (pre ++ []) k := by
    rw [← withoutView_of_mem hs l pre [] v hl]
    exact withoutView_not_mem order v
  obtain ⟨h2, hins, hst2, hkeep2⟩ := stacking_push hst1 v hfree l
  refine ⟨h2, ?_, ?_, fun e he => hkeep2 e (hkeep1 e he)⟩
  · unfold Layer.lower wl_list_empty
    have hne : ¬ (some (Entry.list l) = some (Entry.link v)) := by simp
    rw [hnext, hrem]
    simp only [hne, decide_False, Bool.false_eq_true, if_false]
    exact hins
  · have : Function.update (Function.update order l (pre ++ [])) l
        (v :: Function.update order l (pre ++ []) l)
        = Function.update order l (v :: pre) := by
      rw [Function.update_idem, Function.update_same]
      simp
    rw [← this]
    exact hst2

/-- `Layer::lower` on a view that is in no layer and whose link is initialised: the
view is put at the head of the layer `lower` is called on. -/
theorem lower_unlinked {h : Links} {order : Nat → List Nat} (hs : Stacking h order)
    (self : Nat) (v : Nat) (hfree : ∀ k, v ∉ order k) (hinit : h.prev (Entry.link v) ≠ none) :
    ∃ h2, Layer.lower h self v = some h2
      ∧ Stacking h2 (Function.update order self (v :: order self))
      ∧ (∀ e, h.prev e ≠ none → h2.prev e ≠ none) := by
  have hself : h.next (Entry.link v) = some (Entry.link v) := by
    rcases (hs.free v hfree).1 with ⟨hn, _⟩ | ⟨_, hp⟩
    · exact hn
    · exact absurd hp hinit
  obtain ⟨h2, hins, hst2, hkeep2⟩ := stacking_push hs v hfree self
  refine ⟨h2, ?_, hst2, hkeep2⟩
  unfold Layer.lower wl_list_empty
  rw [hself, stacking_unlink_free hs v hfree hinit]
  simp only [decide_True, if_true]
  exact hins

/-- `Layer::lower` on any view whose link is initialised succeeds and leaves a
well-formed stacking. -/
theorem lower_stacking {h : Links} {order : Nat → List Nat} (hs : Stacking h order)
    (self v : Nat) (hinit : h.prev (Entry.link v) ≠ none) :
    ∃ h2 order2, Layer.lower h self v = some h2 ∧ Stacking h2 order2
      ∧ (∀ e, h.prev e ≠ none → h2.prev e ≠ none) := by
  by_cases hmem : ∃ l, v ∈ order l
  · obtain ⟨l, hl⟩ := hmem
    obtain ⟨pre, post, hsplit⟩ := List.append_of_mem hl
    cases post with
    | nil =>
      obtain ⟨h2, h1, h3, h4⟩ := lower_last hs self l pre v hsplit
      exact ⟨h2, _, h1, h3, h4⟩
    | cons n rest =>
      obtain ⟨h2, h1, h3, h4⟩ := lower_swap hs self l pre rest v n hsplit
      exact ⟨h2, _, h1, h3, h4⟩
  · have hfree : ∀ l, v ∉ order l := fun l hl => hmem ⟨l, hl⟩
    obtain ⟨h2, h1, h3, h4⟩ := lower_unlinked hs self v hfree hinit
    exact ⟨h2, _, h1, h3, h4⟩

/-- The store after initialisation represents the stacking with all layers empty. -/
theorem stacking_init : Stacking Links.init (fun _ => []) where
  ring := by
    intro l
    unfold Ring Linked
    simp [Links.init]
  nodup := fun _ => List.nodup_nil
  disjoint := fun _ _ _ _ hv => absurd hv (List.not_mem_nil _)
  headLayer := fun _ => rfl
  linkLayer := fun _ _ hv => absurd hv (List.not_mem_nil _)
  free := fun _ _ => ⟨Or.inl ⟨rfl, rfl⟩, rfl⟩

theorem initialised_init : Initialised Links.init := by
  intro v
  simp [Links.init]


/-- The store determines the stacking it represents. -/
theorem stacking_unique {h : Links} {order order2 : Nat → List Nat}
    (hs : Stacking h order) (hs2 : Stacking h order2) : order = order2 := by
  funext l
  have h1 := views_stacking hs l (max (order l).length (order2 l).length) (le_max_left _ _)
  have h2 := views_stacking hs2 l (max (order l).length (order2 l).length) (le_max_right _ _)
  exact h1.symm.trans h2

/-- Raising a view of layer `l` changes the order of `l` only. -/
theorem raisedOrder_of_mem {h : Links} {order : Nat → List Nat} (hs : Stacking h order)
    (l : Nat) (pre post : List Nat) (v : Nat) (hl : order l = pre ++ v :: post) :
    raisedOrder order l v = Function.update order l (v :: (pre ++ post)) := by
  unfold raisedOrder
  rw [withoutView_of_mem hs l pre post v hl, Function.update_same, Function.update_idem]

theorem raisedOrder_idem (order : Nat → List Nat) (l v : Nat) :
    raisedOrder (raisedOrder order l v) l v = raisedOrder order l v := by
  have hw : withoutView (raisedOrder order l v) v = withoutView order v := by
    funext k
    unfold raisedOrder
    by_cases hk : k = l
    · subst hk
      simp only [withoutView, Function.update_same, List.filter_cons, ne_eq, not_true_eq_false,
        decide_False, Bool.false_eq_true, if_false, List.filter_filter, Bool.and_self]
    · simp only [withoutView, Function.update_noteq hk, List.filter_filter, Bool.and_self]
  unfold raisedOrder at hw ⊢
  rw [hw]

theorem stacking_sample : Stacking sampleLinks sampleOrder ∧ Initialised sampleLinks := by
  obtain ⟨h1, e1, s1, k1⟩ := addView_stacking stacking_init 0 1
  obtain ⟨h2, e2, s2, k2⟩ := addView_stacking s1 0 2
  obtain ⟨h3, e3, s3, k3⟩ := addView_stacking s2 0 3
  obtain ⟨h4, e4, s4, k4⟩ := addView_stacking s3 1 4
  have hrun : sampleLinks = h4 := by
    unfold sampleLinks
    simp only [runCalls, LayerCall.run, e1, e2, e3, e4, Option.getD_some]
  have horder : raisedOrder (raisedOrder (raisedOrder (raisedOrder (fun _ => []) 0 1) 0 2) 0 3) 1 4
      = sampleOrder := by
    funext k
    unfold sampleOrder raisedOrder withoutView
    by_cases h0 : k = 0
    · subst h0
      simp [Function.update]
    · by_cases h1 : k = 1
      · subst h1
        simp [Function.update]
      · simp [Function.update, h0, h1]
  rw [hrun, ← horder]
  refine ⟨s4, ?_⟩
  intro v
  exact k4 _ (k3 _ (k2 _ (k1 _ (initialised_init v))))

/-- C7: for every layer order and every view `v` in it, `raiseOnTop(v)` succeeds and
yields the order with `v` at the head followed by all other views in their previous
relative order (other layers are untouched); if `v` was already the head the order is
unchanged; and `raiseOnTop` applied twice yields the same order as applied once. -/
theorem raiseOnTop_moves_to_head {h : Links} {order : Nat → List Nat} (hs : Stacking h order)
    (l : Nat) (pre post : List Nat) (v : Nat) (hl : order l = pre ++ v :: post) :
    ∃ h1, Layer.raiseOnTop h l v = some h1
      ∧ Stacking h1 (Function.update order l (v :: (pre ++ post)))
      ∧ (∀ fuel, (order l).length ≤ fuel → Layer.views h1 l fuel = v :: (pre ++ post))
      ∧ (pre = [] → Function.update order l (v :: (pre ++ post)) = order
          ∧ ∀ fuel, (order l).length ≤ fuel → Layer.views h1 l fuel = Layer.views h l fuel)
      ∧ ∃ h2, Layer.raiseOnTop h1 l v = some h2
          ∧ Stacking h2 (Function.update order l (v :: (pre ++ post)))
          ∧ ∀ fuel, (order l).length ≤ fuel → Layer.views h2 l fuel = Layer.views h1 l fuel := by
  have hinit : h.prev (Entry.link v) ≠ none := by
    obtain ⟨A, p, hA⟩ : ∃ A p, Entry.list l :: pre.map Entry.link = A ++ [p] := by
      rcases List.eq_nil_or_concat (Entry.list l :: pre.map Entry.link) with h0 | ⟨A, p, h0⟩
      · exact absurd h0 (by simp)
      · exact ⟨A, p, by rw [h0, List.concat_eq_append]⟩
    obtain ⟨n, B, hB⟩ : ∃ n B, post.map Entry.link ++ [Entry.list l] = n :: B := by
      cases post with
      | nil => exact ⟨_, _, rfl⟩
      | cons w rest => exact ⟨_, _, rfl⟩
    rw [(ring_neighbours h l pre post v (hl ▸ hs.ring l) A B p n hA hB).2.1]
    simp
  have hlen : (v :: (pre ++ post)).length = (order l).length := by
    rw [hl]
    simp only [List.length_cons, List.length_append]
    omega
  obtain ⟨h1, hr1, hs1, hk1⟩ := raiseOnTop_stacking hs l v hinit
  rw [raisedOrder_of_mem hs l pre post v hl] at hs1
  have hv1 : ∀ fuel, (order l).length ≤ fuel → Layer.views h1 l fuel = v :: (pre ++ post) := by
    intro fuel hfuel
    have := views_stacking hs1 l fuel (by rw [Function.update_same, hlen]; exact hfuel)
    rw [Function.update_same] at this
    exact this
  refine ⟨h1, hr1, hs1, hv1, ?_, ?_⟩
  · intro hpre
    subst hpre
    have heq : Function.update order l (v :: ([] ++ post)) = order := by
      rw [List.nil_append] at hl ⊢
      rw [← hl]
      exact Function.update_eq_self l order
    refine ⟨heq, ?_⟩
    intro fuel hfuel
    rw [hv1 fuel hfuel, views_stacking hs l fuel hfuel, hl]
    rfl
  · have hl1 : Function.update order l (v :: (pre ++ post)) l = [] ++ v :: (pre ++ post) := by
      rw [Function.update_same]
      rfl
    obtain ⟨h2, hr2, hs2, _⟩ := raiseOnTop_stacking hs1 l v (hk1 _ hinit)
    rw [raisedOrder_of_mem hs1 l [] (pre ++ post) v hl1, Function.update_idem] at hs2
    refine ⟨h2, hr2, hs2, ?_⟩
    intro fuel hfuel
    rw [hv1 fuel hfuel]
    have := views_stacking hs2 l fuel (by rw [Function.update_same, List.nil_append, hlen]; exact hfuel)
    rw [Function.update_same] at this
    exact this

theorem raiseOnTop_moves_to_head_witness :
    ∃ h1, Layer.raiseOnTop sampleLinks 0 2 = some h1 ∧ Layer.views h1 0 3 = [2, 3, 1] := by
  obtain ⟨h1, hr, _, hv, _⟩ := raiseOnTop_moves_to_head stacking_sample.1 0 [3] [1] 2 rfl
  exact ⟨h1, hr, hv 3 (by decide)⟩


theorem raisedOrder_head (order : Nat → List Nat) (l v : Nat) :
    raisedOrder order l v l = v :: (order l).filter fun w => decide (w ≠ v) := by
  unfold raisedOrder
  rw [Function.update_same]
  rfl

theorem raisedOrder_other (order : Nat → List Nat) (l v k : Nat) (hk : k ≠ l) :
    raisedOrder order l v k = (order k).filter fun w => decide (w ≠ v) := by
  unfold raisedOrder
  rw [Function.update_noteq hk]
  rfl

/-- C8: for every layer `l` and every view `v` (unlinked, already in `l`, or linked in
another layer), `addView(v)` on `l` succeeds; afterwards `v` is the head of `l`
(`topView` returns `v`), `v` occurs exactly once in `l` and in no other layer, the other
views of every layer keep their relative order, and `addView(v)` applied twice gives the
same order as applied once. `topView` of an empty layer returns none. -/
theorem addView_puts_at_head {h : Links} {order : Nat → List Nat} (hs : Stacking h order)
    (l v : Nat) :
    ∃ h1, Layer.addView h l v = some h1
      ∧ Stacking h1 (raisedOrder order l v)
      ∧ Layer.topView h1 l = some v
      ∧ raisedOrder order l v l = v :: (order l).filter (fun w => decide (w ≠ v))
      ∧ (raisedOrder order l v l).count v = 1
      ∧ (∀ k, k ≠ l → raisedOrder order l v k = (order k).filter fun w => decide (w ≠ v))
      ∧ (∀ fuel, (order l).length + 1 ≤ fuel →
          Layer.views h1 l fuel = v :: (order l).filter (fun w => decide (w ≠ v)))
      ∧ (∃ h2, Layer.addView h1 l v = some h2 ∧ Stacking h2 (raisedOrder order l v)
          ∧ ∀ fuel, (order l).length + 1 ≤ fuel → Layer.views h2 l fuel = Layer.views h1 l fuel)
      ∧ (∀ k, order k = [] → Layer.topView h k = none) := by
  obtain ⟨h1, ha1, hs1, _⟩ := addView_stacking hs l v
  obtain ⟨h2, ha2, hs2, _⟩ := addView_stacking hs1 l v
  rw [raisedOrder_idem] at hs2
  have hlen : (raisedOrder order l v l).length ≤ (order l).length + 1 := by
    rw [raisedOrder_head, List.length_cons]
    exact Nat.succ_le_succ (List.length_filter_le _ _)
  have hv1 : ∀ fuel, (order l).length + 1 ≤ fuel →
      Layer.views h1 l fuel = v :: (order l).filter (fun w => decide (w ≠ v)) := by
    intro fuel hfuel
    rw [views_stacking hs1 l fuel (le_trans hlen hfuel), raisedOrder_head]
  refine ⟨h1, ha1, hs1, ?_, raisedOrder_head order l v, ?_, raisedOrder_other order l v, hv1,
    ⟨h2, ha2, hs2, ?_⟩, ?_⟩
  · rw [topView_stacking hs1 l, raisedOrder_head]
    rfl
  · exact List.count_eq_one_of_mem (hs1.nodup l) (by rw [raisedOrder_head]; exact List.mem_cons_self _ _)
  · intro fuel hfuel
    rw [hv1 fuel hfuel, views_stacking hs2 l fuel (le_trans hlen hfuel), raisedOrder_head]
  · intro k hk
    rw [topView_stacking hs k, hk]
    rfl

theorem addView_puts_at_head_witness :
    (∃ h1, Layer.addView sampleLinks 0 4 = some h1 ∧ Layer.topView h1 0 = some 4
        ∧ Layer.views h1 0 5 = [4, 3, 2, 1])
      ∧ Layer.topView sampleLinks 7 = none := by
  obtain ⟨h1, ha, _, ht, _, _, _, hv, _, hempty⟩ := addView_puts_at_head stacking_sample.1 0 4
  exact ⟨⟨h1, ha, ht, by rw [hv 5 (by decide)]; rfl⟩, hempty 7 rfl⟩

/-- C9: for every view `v` in a layer that has a next neighbour `n`, `lower(v)` (called
on any layer object) succeeds and yields the order in which `v` sits immediately after
`n`: `v` and `n` swap places and every other view, in this and in every other layer,
keeps its position. -/
theorem lower_swaps_with_next {h : Links} {order : Nat → List Nat} (hs : Stacking h order)
    (self l : Nat) (pre post : List Nat) (v n : Nat) (hl : order l = pre ++ v :: n :: post) :
    ∃ h1, Layer.lower h self v = some h1
      ∧ Stacking h1 (Function.update order l (pre ++ n :: v :: post))
      ∧ (∀ fuel, (order l).length ≤ fuel → Layer.views h1 l fuel = pre ++ n :: v :: post)
      ∧ (∀ k fuel, k ≠ l → (order k).length ≤ fuel → Layer.views h1 k fuel = Layer.views h k fuel) := by
  obtain ⟨h1, hlow, hs1, _⟩ := lower_swap hs self l pre post v n hl
  refine ⟨h1, hlow, hs1, ?_, ?_⟩
  · intro fuel hfuel
    have := views_stacking hs1 l fuel (by
      rw [Function.update_same]
      rw [hl] at hfuel
      simpa using hfuel)
    rw [Function.update_same] at this
    exact this
  · intro k fuel hk hfuel
    have := views_stacking hs1 k fuel (by rw [Function.update_noteq hk]; exact hfuel)
    rw [Function.update_noteq hk] at this
    rw [this, views_stacking hs k fuel hfuel]

theorem lower_swaps_with_next_witness :
    ∃ h1, Layer.lower sampleLinks 0 3 = some h1 ∧ Layer.views h1 0 3 = [2, 3, 1] := by
  obtain ⟨h1, hlow, _, hv, _⟩ := lower_swaps_with_next stacking_sample.1 0 0 [] [1] 3 2 rfl
  exact ⟨h1, hlow, hv 3 (by decide)⟩


theorem raiseOnTop_null (h : Links) (l v : Nat) (hnull : h.prev (Entry.link v) = none) :
    Layer.raiseOnTop h l v = none := by
  unfold Layer.raiseOnTop weston_layer_entry_remove wl_list_remove
  simp only [hnull]

theorem lower_null (h : Links) (self v : Nat) (hnull : h.prev (Entry.link v) = none) :
    Layer.lower h self v = none := by
  unfold Layer.lower weston_layer_entry_remove wl_list_remove
  simp only [hnull]
  split
  · rename_i heq
    exact absurd heq (by simp)
  · rfl

/-- One call on a well-formed stacking either dereferences a null link (only
`raiseOnTop` and `lower` on a view whose link was never initialised do) or leaves a
well-formed stacking. -/
theorem call_stacking {h : Links} {order : Nat → List Nat} (hs : Stacking h order)
    (c : LayerCall) :
    (c.run h = none ∧ ¬ Initialised h)
      ∨ ∃ h1 order1, c.run h = some h1 ∧ Stacking h1 order1
          ∧ (∀ e, h.prev e ≠ none → h1.prev e ≠ none) := by
  cases c with
  | addView l v =>
    obtain ⟨h1, ha, hs1, hk⟩ := addView_stacking hs l v
    exact Or.inr ⟨h1, _, ha, hs1, hk⟩
  | raiseOnTop l v =>
    by_cases hinit : h.prev (Entry.link v) = none
    · exact Or.inl ⟨raiseOnTop_null h l v hinit, fun hi => hi v hinit⟩
    · obtain ⟨h1, ha, hs1, hk⟩ := raiseOnTop_stacking hs l v hinit
      exact Or.inr ⟨h1, _, ha, hs1, hk⟩
  | lower l v =>
    by_cases hinit : h.prev (Entry.link v) = none
    · exact Or.inl ⟨lower_null h l v hinit, fun hi => hi v hinit⟩
    · obtain ⟨h1, order1, ha, hs1, hk⟩ := lower_stacking hs l v hinit
      exact Or.inr ⟨h1, order1, ha, hs1, hk⟩

/-- A sequence of calls that runs through leaves a well-formed stacking. -/
theorem calls_stacking_of_some :
    ∀ (calls : List LayerCall) (h : Links) (order : Nat → List Nat), Stacking h order →
      ∀ h1, runCalls h calls = some h1 → ∃ order1, Stacking h1 order1
  | [], h, order, hs, h1, hrun => by
    simp only [runCalls, Option.some.injEq] at hrun
    exact ⟨order, hrun ▸ hs⟩
  | c :: cs, h, order, hs, h1, hrun => by
    rcases call_stacking hs c with ⟨hnone, _⟩ | ⟨h2, order2, hc, hs2, _⟩
    · simp [runCalls, hnone] at hrun
    · simp only [runCalls, hc] at hrun
      exact calls_stacking_of_some cs h2 order2 hs2 h1 hrun

/-- From a store in which every view link is initialised, every sequence of calls runs
through, and leaves such a store and a well-formed stacking. -/
theorem calls_stacking_total :
    ∀ (calls : List LayerCall) (h : Links) (order : Nat → List Nat), Stacking h order →
      Initialised h →
      ∃ h1 order1, runCalls h calls = some h1 ∧ Stacking h1 order1 ∧ Initialised h1
  | [], h, order, hs, hinit => ⟨h, order, rfl, hs, hinit⟩
  | c :: cs, h, order, hs, hinit => by
    rcases call_stacking hs c with ⟨_, hni⟩ | ⟨h2, order2, hc, hs2, hk⟩
    · exact absurd hinit hni
    · obtain ⟨h1, order1, hrun, hs1, hi1⟩ :=
        calls_stacking_total cs h2 order2 hs2 (fun v => hk _ (hinit v))
      exact ⟨h1, order1, by simp only [runCalls, hc]; exact hrun, hs1, hi1⟩

/-- C10: starting from a store that represents a stacking in which no view is in more
than one layer, every sequence of `addView`, `raiseOnTop` and `lower` (on any layers
and views) that runs through leaves a store that represents such a stacking again:
every view is in at most one layer and at most once in that layer's order, and the
order is what a traversal of the layer's list visits. When every view link is
initialised, every sequence runs through. -/
theorem layer_calls_keep_single_membership {h : Links} {order : Nat → List Nat}
    (hs : Stacking h order) (calls : List LayerCall) :
    (∀ h1, runCalls h calls = some h1 →
      ∃ order1, Stacking h1 order1
        ∧ (∀ l, (order1 l).Nodup)
        ∧ (∀ l k v, v ∈ order1 l → v ∈ order1 k → l = k)
        ∧ (∀ l fuel, (order1 l).length ≤ fuel → Layer.views h1 l fuel = order1 l))
    ∧ (Initialised h → ∃ h1, runCalls h calls = some h1 ∧ Initialised h1) := by
  constructor
  · intro h1 hrun
    obtain ⟨order1, hs1⟩ := calls_stacking_of_some calls h order hs h1 hrun
    refine ⟨order1, hs1, hs1.nodup, ?_, fun l fuel hfuel => views_stacking hs1 l fuel hfuel⟩
    intro l k v hl hk
    by_contra hne
    exact hs1.disjoint l k hne v hl hk
  · intro hinit
    obtain ⟨h1, _, hrun, _, hi1⟩ := calls_stacking_total calls h order hs hinit
    exact ⟨h1, hrun, hi1⟩

theorem layer_calls_keep_single_membership_witness :
    ∃ h1, runCalls sampleLinks
        [LayerCall.lower 0 1, LayerCall.raiseOnTop 1 2, LayerCall.addView 1 3, LayerCall.lower 0 4]
        = some h1
      ∧ ∃ order1, Stacking h1 order1 ∧ (∀ l k v, v ∈ order1 l → v ∈ order1 k → l = k) := by
  obtain ⟨hpart, htotal⟩ := layer_calls_keep_single_membership stacking_sample.1
    [LayerCall.lower 0 1, LayerCall.raiseOnTop 1 2, LayerCall.addView 1 3, LayerCall.lower 0 4]
  obtain ⟨h1, hrun, _⟩ := htotal stacking_sample.2
  obtain ⟨order1, hs1, _, hdis, _⟩ := hpart h1 hrun
  exact ⟨h1, hrun, order1, hs1, hdis⟩


/-! ## Popup dismissal grab -/

theorem uint32Sub_of_le (t c : Nat) (hc : c ≤ t) (ht : t < 4294967296) :
    uint32Sub t c = t - c := by
  unfold uint32Sub
  omega

/-- `PopupGrab::focus` with no button held sets the inside flag to whether the picked
view is one of the popup's views and writes no other member of the grab. -/
theorem popup_focus_sets_inside (g : PopupGrab) (p : PointerState) (h0 : p.buttonCount = 0) :
    (g.focus p).1
      = { g with inside := match p.picked with
          | some view => decide (view ∈ g.popupViews)
          | none => false } := by
  have hnot : ¬ (p.buttonCount > 0) := by omega
  unfold PopupGrab.focus
  rw [if_neg hnot]
  simp only
  split
  · split <;> rfl
  · rfl

/-- C11 (as stated, refuted): a press exactly 500 ms after the grab was created, with
the inside flag false, does not close the popup; the grab continues. And the test reads
the inside flag, not the pointer position: with a button held, `focus()` leaves the flag
true while the pointer is over view 8, outside the popup, and a further press 5000 ms
after creation is forwarded without `popup_close`. -/
theorem popup_press_at_500_not_closed :
    uint32Sub 1500 1000 = 500
      ∧ PopupGrab.button { popupViews := [7], inside := false, creationTime := 1000 } 1500 272
          ButtonState.Pressed = [GrabEvent.sendButton 1500 272 ButtonState.Pressed]
      ∧ (8 ∉ [7]
        ∧ (PopupGrab.focus { popupViews := [7], inside := true, creationTime := 1000 }
            { buttonCount := 1, picked := some 8, focus := some 7 }).1
          = { popupViews := [7], inside := true, creationTime := 1000 }
        ∧ uint32Sub 6000 1000 = 5000
        ∧ PopupGrab.button { popupViews := [7], inside := true, creationTime := 1000 } 6000 273
            ButtonState.Pressed = [GrabEvent.sendButton 6000 273 ButtonState.Pressed]) := by
  decide

/-- C11 (amended): the press is judged by the inside flag of the grab. For every button
press that arrives while the flag is false, at time `t` with a grab created at time `c`
(32-bit unsigned stamps, the difference taken modulo 2^32): if `t - c <= 500` the
button is forwarded, the popup is not told to close and the grab continues; if
`t - c > 500` the button is forwarded, `popup_close` is sent and the grab ends. A press
that arrives while the flag is true is forwarded and never closes the popup. The flag
is written by `focus()` only while no button is held: it is then true exactly when the
view under the pointer is one of the popup's views, so a press that follows such a
recomputation with the pointer outside the popup is judged as above; while a button is
held `focus()` leaves the grab as it is. For `c <= t` the difference is the plain
`t - c`. -/
theorem popup_press_outside_grace (g : PopupGrab) (t button : Nat) :
    (g.inside = false →
      (uint32Sub t g.creationTime ≤ 500 →
        g.button t button ButtonState.Pressed = [GrabEvent.sendButton t button ButtonState.Pressed])
      ∧ (uint32Sub t g.creationTime > 500 →
        g.button t button ButtonState.Pressed
          = [GrabEvent.sendButton t button ButtonState.Pressed, GrabEvent.popupClose,
              GrabEvent.grabEnd]))
    ∧ (g.inside = true →
      g.button t button ButtonState.Pressed = [GrabEvent.sendButton t button ButtonState.Pressed])
    ∧ (∀ p : PointerState, p.buttonCount = 0 →
        ((g.focus p).1.inside = true ↔ ∃ v, p.picked = some v ∧ v ∈ g.popupViews)
        ∧ (g.focus p).1.creationTime = g.creationTime
        ∧ ((∀ v, p.picked = some v → v ∉ g.popupViews) →
            (uint32Sub t g.creationTime ≤ 500 →
              (g.focus p).1.button t button ButtonState.Pressed
                = [GrabEvent.sendButton t button ButtonState.Pressed])
            ∧ (uint32Sub t g.creationTime > 500 →
              (g.focus p).1.button t button ButtonState.Pressed
                = [GrabEvent.sendButton t button ButtonState.Pressed, GrabEvent.popupClose,
                    GrabEvent.grabEnd])))
    ∧ (∀ p : PointerState, p.buttonCount > 0 → (g.focus p).1 = g)
    ∧ (g.creationTime ≤ t → t < 4294967296 → uint32Sub t g.creationTime = t - g.creationTime) := by
  have hle : ∀ g1 : PopupGrab, uint32Sub t g1.creationTime ≤ 500 →
      g1.button t button ButtonState.Pressed = [GrabEvent.sendButton t button ButtonState.Pressed] := by
    intro g1 h
    unfold PopupGrab.button
    rw [if_neg]
    intro hc
    omega
  have hgt : ∀ g1 : PopupGrab, g1.inside = false → uint32Sub t g1.creationTime > 500 →
      g1.button t button ButtonState.Pressed
        = [GrabEvent.sendButton t button ButtonState.Pressed, GrabEvent.popupClose,
            GrabEvent.grabEnd] := by
    intro g1 hout h
    unfold PopupGrab.button
    rw [if_pos ⟨hout, rfl, h⟩]
    rfl
  refine ⟨fun hout => ⟨hle g, hgt g hout⟩, ?_, ?_, ?_, fun hc ht => uint32Sub_of_le t g.creationTime hc ht⟩
  · intro hin
    unfold PopupGrab.button
    rw [if_neg]
    intro hc
    rw [hin] at hc
    exact absurd hc.1 (by simp)
  · intro p h0
    rw [popup_focus_sets_inside g p h0]
    refine ⟨?_, rfl, ?_⟩
    · cases hp : p.picked with
      | none => simp
      | some v => simp
    · intro hout
      have hflag : ({ g with inside := match p.picked with
          | some view => decide (view ∈ g.popupViews)
          | none => false } : PopupGrab).inside = false := by
        cases hp : p.picked with
        | none => rfl
        | some v => simp [hout v hp]
      exact ⟨fun h => hle { g with inside := match p.picked with
          | some view => decide (view ∈ g.popupViews)
          | none => false } h,
        fun h => hgt { g with inside := match p.picked with
          | some view => decide (view ∈ g.popupViews)
          | none => false } hflag h⟩
  · intro p hheld
    unfold PopupGrab.focus
    rw [if_pos hheld]

theorem popup_press_outside_grace_witness :
    (PopupGrab.focus { popupViews := [7], inside := true, creationTime := 1000 }
        { buttonCount := 0, picked := some 8, focus := some 7 }).1.button 1501 272
        ButtonState.Pressed
      = [GrabEvent.sendButton 1501 272 ButtonState.Pressed, GrabEvent.popupClose, GrabEvent.grabEnd]
      ∧ PopupGrab.button { popupViews := [7], inside := false, creationTime := 1000 } 1400 272
          ButtonState.Pressed = [GrabEvent.sendButton 1400 272 ButtonState.Pressed]
      ∧ PopupGrab.button { popupViews := [7], inside := true, creationTime := 1000 } 6000 272
          ButtonState.Pressed = [GrabEvent.sendButton 6000 272 ButtonState.Pressed] :=
  ⟨(((popup_press_outside_grace { popupViews := [7], inside := true, creationTime := 1000 } 1501
      272).2.2.1 { buttonCount := 0, picked := some 8, focus := some 7 } rfl).2.2
      (by decide)).2 (by decide),
    ((popup_press_outside_grace { popupViews := [7], inside := false, creationTime := 1000 } 1400
      272).1 rfl).1 (by decide),
    (popup_press_outside_grace { popupViews := [7], inside := true, creationTime := 1000 } 6000
      272).2.1 rfl⟩


/-! ## The mapped notification -/

theorem count_mapped_configureToplevel (views : List (Nat × ShellView)) (f : Nat × ShellView → Bool)
    (mx fs : Bool) (dx dy : Int) :
    (views.map fun ov => Event.configureToplevel ov.1 (f ov) mx fs dx dy).count Event.mapped = 0 := by
  induction views with
  | nil => rfl
  | cons v rest ih =>
    rw [List.map_cons, List.count_cons, ih]
    simp

/-- The `Toplevel` branch adds no `mapped` to the trace. -/
theorem count_mapped_configureToplevelViews (s : ShellSurface) :
    s.configureToplevelViews.trace.count Event.mapped = s.trace.count Event.mapped := by
  unfold ShellSurface.configureToplevelViews
  simp only
  split <;> simp only [List.count_append, count_mapped_configureToplevel, Nat.add_zero]

/-- C12 (the code at the failing input): the first configure of a new toplevel surface
with content, not yet mapped and without a workspace, emits `mapped` twice for the one
transition to mapped: once in the nested configure that `setWorkspace` runs and once
more in the outer configure, whose `wasMapped` was read before the nested call. -/
theorem first_configure_emits_mapped_twice :
    sampleSurface.setToplevel.m_surface.isMapped = false
      ∧ ∃ t, sampleSurface.setToplevel.configure sampleEnv 2 = Outcome.done t
          ∧ t.m_surface.isMapped = true
          ∧ t.trace.count Event.mapped = 2 :=
  ⟨rfl, _, rfl, rfl, by decide⟩

theorem configureViews_toplevel (env : Env) (tc wm : Bool) (s : ShellSurface)
    (htype : s.m_type = SurfaceType.Toplevel) :
    s.configureViews env tc wm = Outcome.done
      ((if tc = true then s.emit Event.deleteExtraViews else s).configureToplevelViews.finishConfigure
        env wm) := by
  unfold ShellSurface.configureViews
  have h1 : (if tc = true then s.emit Event.deleteExtraViews else s).m_type = SurfaceType.Toplevel := by
    split
    · exact htype
    · exact htype
  simp only [h1, if_true]

/-- One level of `configure` on a pending toplevel with content that the `Shell` does not
place and that has a workspace: the views are configured. -/
theorem configure_toplevel_placed (env : Env) (fuel : Nat) (s : ShellSurface)
    (hwidth : s.m_surface.width ≠ 0) (htype : s.m_nextType = SurfaceType.Toplevel)
    (hshell : ∀ t : ShellSurface, env.isMapped t = t.m_workspace.isSome)
    (hws : s.m_workspace.isSome = true) :
    s.configure env (fuel + 1) =
      (s.updateState.emit (Event.setActivable
        (decide (s.updateState.m_type ≠ SurfaceType.Transient) || !s.updateState.m_transient.inactive))).configureViews
        env (decide (s.updateState.m_type ≠ s.m_type)) s.m_surface.isMapped := by
  rw [ShellSurface.configure]
  have hup : s.updateState.m_type = SurfaceType.Toplevel := htype
  have hne : ¬ (s.updateState.m_type = SurfaceType.None) := by rw [hup]; simp
  have hws2 : (s.updateState.emit (Event.setActivable
      (decide (s.updateState.m_type ≠ SurfaceType.Transient) || !s.updateState.m_transient.inactive))).m_workspace.isSome
      = true := hws
  simp only [hwidth, if_false, hne, Shell.configure, hshell, hws2, Bool.not_true, Bool.false_eq_true]
  have hnone : (s.updateState.emit (Event.setActivable
      (decide (s.updateState.m_type ≠ SurfaceType.Transient) || !s.updateState.m_transient.inactive))).m_workspace.isNone
      = false := by
    rw [Option.isNone_eq_false_iff]
    exact hws2
  simp only [hnone, Bool.false_eq_true, if_false]
  rfl

theorem finishConfigure_unmapped (env : Env) (s : ShellSurface)
    (hmaps : ∀ t, env.mappedAfterViews t = true) :
    (s.finishConfigure env false).trace.count Event.mapped = s.trace.count Event.mapped + 1
      ∧ (s.finishConfigure env false).m_workspace = s.m_workspace
      ∧ (s.finishConfigure env false).m_type = s.m_type
      ∧ (s.finishConfigure env false).m_surface.isMapped = true := by
  unfold ShellSurface.finishConfigure
  simp [hmaps, ShellSurface.emit, List.count_append]

/-- One level of `configure` on a surface with content and a pending role that the
`Shell` places into its first workspace: the nested `configure` of `setWorkspace` runs
first, then the views are configured again with the `wasMapped` read before. -/
theorem configure_unplaced (env : Env) (fuel : Nat) (s : ShellSurface) (ws : Nat) (rest : List Nat)
    (hwidth : s.m_surface.width ≠ 0) (htype : s.m_nextType ≠ SurfaceType.None)
    (hshell : ∀ t : ShellSurface, env.isMapped t = t.m_workspace.isSome)
    (hnows : s.m_workspace = none) (hws : env.workspaces = ws :: rest) :
    s.configure env (fuel + 1) =
      match ShellSurface.configure env fuel
        { (({ s.updateState.emit (Event.setActivable
              (decide (s.updateState.m_type ≠ SurfaceType.Transient) || !s.updateState.m_transient.inactive))
            with m_workspace := some ws } : ShellSurface).emit (Event.setWorkspaceMask ws))
          with m_forceMap := true } with
      | Outcome.done s3 =>
        if s3.m_workspace.isNone then Outcome.done s3
        else s3.configureViews env (decide (s.updateState.m_type ≠ s.m_type)) s.m_surface.isMapped
      | other => other := by
  rw [ShellSurface.configure]
  have hne : ¬ (s.updateState.m_type = SurfaceType.None) := htype
  have hnows2 : (s.updateState.emit (Event.setActivable
      (decide (s.updateState.m_type ≠ SurfaceType.Transient) || !s.updateState.m_transient.inactive))).m_workspace.isSome
      = false := by
    show s.m_workspace.isSome = false
    rw [hnows]; rfl
  simp only [hwidth, if_false, hne, Shell.configure, hshell, hnows2, Bool.not_false, if_true, hws,
    ShellSurface.setWorkspace]
  rfl

/-- Configuring the views of a toplevel that was not mapped before, when the views map
the surface: one `mapped` is emitted. -/
theorem configureViews_toplevel_maps (env : Env) (tc : Bool) (s : ShellSurface)
    (htype : s.m_type = SurfaceType.Toplevel) (hmaps : ∀ t, env.mappedAfterViews t = true) :
    ∃ t, s.configureViews env tc false = Outcome.done t
      ∧ t.trace.count Event.mapped = s.trace.count Event.mapped + 1
      ∧ t.m_workspace = s.m_workspace ∧ t.m_type = s.m_type := by
  refine ⟨_, configureViews_toplevel env tc false s htype, ?_, ?_, ?_⟩
  · rw [(finishConfigure_unmapped env _ hmaps).1, count_mapped_configureToplevelViews]
    split
    · simp [ShellSurface.emit, List.count_append]
    · rfl
  · rw [(finishConfigure_unmapped env _ hmaps).2.1]
    rw [(sameRole_configureToplevelViews _).2.2.2.2.1]
    split <;> rfl
  · rw [(finishConfigure_unmapped env _ hmaps).2.2.1]
    rw [(sameRole_configureToplevelViews _).1]
    split <;> rfl

/-- The double emission in general: whenever the `Shell` places the surface (it has no
workspace and the `Shell` has one), a surface with a workspace counts as mapped for the
`Shell`, and the configured views map the surface, one configure of an unmapped toplevel
surface with content returns with two more `mapped` in the trace. -/
theorem nested_configure_emits_mapped_twice (env : Env) (fuel : Nat) (s : ShellSurface)
    (ws : Nat) (rest : List Nat)
    (hwidth : s.m_surface.width ≠ 0) (htype : s.m_nextType = SurfaceType.Toplevel)
    (hunmapped : s.m_surface.isMapped = false)
    (hshell : ∀ t : ShellSurface, env.isMapped t = t.m_workspace.isSome)
    (hnows : s.m_workspace = none) (hws : env.workspaces = ws :: rest)
    (hmaps : ∀ t, env.mappedAfterViews t = true) :
    ∃ t, s.configure env (fuel + 2) = Outcome.done t
      ∧ t.trace.count Event.mapped = s.trace.count Event.mapped + 2 := by
  rw [configure_unplaced env (fuel + 1) s ws rest hwidth (by rw [htype]; simp) hshell hnows hws]
  have hin := configure_toplevel_placed env fuel
    { (({ s.updateState.emit (Event.setActivable
          (decide (s.updateState.m_type ≠ SurfaceType.Transient) || !s.updateState.m_transient.inactive))
        with m_workspace := some ws } : ShellSurface).emit (Event.setWorkspaceMask ws))
      with m_forceMap := true } hwidth htype hshell rfl
  obtain ⟨t1, h1, c1, w1, ty1⟩ := configureViews_toplevel_maps env
    (decide (({ (({ s.updateState.emit (Event.setActivable
          (decide (s.updateState.m_type ≠ SurfaceType.Transient) || !s.updateState.m_transient.inactive))
        with m_workspace := some ws } : ShellSurface).emit (Event.setWorkspaceMask ws))
      with m_forceMap := true } : ShellSurface).updateState.m_type ≠ SurfaceType.Toplevel))
    (({ (({ s.updateState.emit (Event.setActivable
          (decide (s.updateState.m_type ≠ SurfaceType.Transient) || !s.updateState.m_transient.inactive))
        with m_workspace := some ws } : ShellSurface).emit (Event.setWorkspaceMask ws))
      with m_forceMap := true } : ShellSurface).updateState.emit (Event.setActivable
        (decide (SurfaceType.Toplevel ≠ SurfaceType.Transient) || !s.m_transient.inactive)))
    htype hmaps
  have hin2 : ShellSurface.configure env (fuel + 1)
      { (({ s.updateState.emit (Event.setActivable
          (decide (s.updateState.m_type ≠ SurfaceType.Transient) || !s.updateState.m_transient.inactive))
        with m_workspace := some ws } : ShellSurface).emit (Event.setWorkspaceMask ws))
      with m_forceMap := true } = Outcome.done t1 := by
    rw [hin, ← h1]
    have e1 : s.updateState.m_type = SurfaceType.Toplevel := htype
    simp only [ShellSurface.updateState, ShellSurface.emit, htype, hunmapped]
  rw [hin2]
  simp only
  have hw : t1.m_workspace.isNone = false := by rw [w1]; rfl
  simp only [hw, Bool.false_eq_true, if_false, hunmapped]
  obtain ⟨t2, h2, c2, _, _⟩ := configureViews_toplevel_maps env
    (decide (s.updateState.m_type ≠ s.m_type)) t1 (ty1.trans htype) hmaps
  refine ⟨t2, h2, ?_⟩
  rw [c2, c1]
  simp [ShellSurface.emit, ShellSurface.updateState, List.count_append]


/-! ## Workspace activation and output removal -/

/-- `selectOutput` reads the workspace of the surface and nothing else. -/
theorem selectOutput_congr (env : Env) (s t : ShellSurface) (h : t.m_workspace = s.m_workspace) :
    t.selectOutput env = s.selectOutput env := by
  unfold ShellSurface.selectOutput
  rw [h]

/-- `setMaximized` with at least one output: the surface becomes a pending maximized
toplevel on the output `selectOutput` returns and a configure with that output's
available size is sent. -/
theorem setMaximized_done (env : Env) (s : ShellSurface) (hne : env.outputs ≠ []) :
    ∃ sel, s.selectOutput env = some sel
      ∧ s.setMaximized env = Outcome.done
          (({ s with
              m_nextType := SurfaceType.Toplevel
              m_toplevel := { maximized := true, fullscreen := false, output := some sel } } :
            ShellSurface).sendConfigure
            (env.availableGeometry sel).width (env.availableGeometry sel).height) := by
  obtain ⟨pre, sel, post, _, hsel, _, _⟩ := selectOutput_split env s hne
  refine ⟨sel, hsel, ?_⟩
  unfold ShellSurface.setMaximized
  have : ({ s with
      m_nextType := SurfaceType.Toplevel
      m_toplevel := { s.m_toplevel with maximized := true, fullscreen := false } } :
      ShellSurface).selectOutput env = some sel := by
    exact (selectOutput_congr env s _ rfl).trans hsel
  simp only [this]

/-- `setMaximized` with no output dereferences the null pointer `selectOutput`
returns. -/
theorem setMaximized_no_output (env : Env) (s : ShellSurface) (hnone : env.outputs = []) :
    s.setMaximized env = Outcome.crash := by
  unfold ShellSurface.setMaximized ShellSurface.selectOutput
  simp only [hnone, List.map_nil]

/-- C13 (as stated, refuted): `W` has workspace 0 and is maximized on output 1; the pager
activates the different workspace 5 on output 1, which no longer shows workspace 0
(output 2 does). `workspaceActivated(5, 1)` returns at its first test: nothing is
re-selected, no configure is sent, the target stays output 1. -/
theorem workspaceActivated_other_workspace_ignored :
    sampleEnvSwitched.currentWorkspace 1 = some 5
      ∧ sampleMaximized.selectOutput sampleEnvSwitched = some 2
      ∧ sampleMaximized.workspaceActivated sampleEnvSwitched 5 1 = Outcome.done sampleMaximized := by
  decide

/-- C13 (amended): `workspaceActivated(w, o)` changes nothing unless `w` is the
surface's own workspace, whatever the outputs show. When the surface's own workspace is
activated (on any output) and the surface is a pending toplevel that is maximized, it
runs `setMaximized` (which re-runs `selectOutput` and sends a configure with the
selected output's available size) exactly when its target output does not currently show
that workspace. A surface that is not maximized, a fullscreen one included, is never
re-targeted. -/
theorem workspaceActivated_own_workspace_only (env : Env) (s : ShellSurface) (w o : Nat) :
    (some w ≠ s.m_workspace → s.workspaceActivated env w o = Outcome.done s)
    ∧ (s.m_toplevel.maximized = false → s.workspaceActivated env w o = Outcome.done s)
    ∧ (s.m_nextType ≠ SurfaceType.Toplevel → s.workspaceActivated env w o = Outcome.done s)
    ∧ (∀ target, some w = s.m_workspace → s.m_nextType = SurfaceType.Toplevel →
        s.m_toplevel.maximized = true → s.m_toplevel.output = some target →
        (env.currentWorkspace target = some w → s.workspaceActivated env w o = Outcome.done s)
        ∧ (env.currentWorkspace target ≠ some w →
            s.workspaceActivated env w o = s.setMaximized env
            ∧ (env.outputs ≠ [] →
                ∃ sel t, s.selectOutput env = some sel ∧ s.setMaximized env = Outcome.done t
                  ∧ t.m_toplevel.output = some sel ∧ t.m_toplevel.maximized = true))) := by
  refine ⟨?_, ?_, ?_, ?_⟩
  · intro h
    unfold ShellSurface.workspaceActivated
    rw [if_pos h]
  · intro h
    unfold ShellSurface.workspaceActivated
    split
    · rfl
    · rw [if_pos (Or.inr h)]
  · intro h
    unfold ShellSurface.workspaceActivated
    split
    · rfl
    · rw [if_pos (Or.inl h)]
  · intro target hw htype hmax hout
    have h1 : ¬ (some w ≠ s.m_workspace) := fun h => h hw
    have h2 : ¬ (s.m_nextType ≠ SurfaceType.Toplevel ∨ s.m_toplevel.maximized = false) := by
      intro h
      rcases h with h | h
      · exact h htype
      · rw [hmax] at h; exact absurd h (by simp)
    constructor
    · intro hcur
      unfold ShellSurface.workspaceActivated
      rw [if_neg h1, if_neg h2, hout]
      simp only [hcur, ne_eq, not_true_eq_false, if_false]
    · intro hcur
      refine ⟨?_, ?_⟩
      · unfold ShellSurface.workspaceActivated
        rw [if_neg h1, if_neg h2, hout]
        simp only [if_pos hcur]
      · intro hne
        obtain ⟨sel, hsel, hdone⟩ := setMaximized_done env s hne
        refine ⟨sel, _, hsel, hdone, ?_, ?_⟩
        · unfold ShellSurface.sendConfigure
          split <;> rfl
        · unfold ShellSurface.sendConfigure
          split <;> rfl

theorem workspaceActivated_own_workspace_only_witness :
    sampleMaximized.workspaceActivated sampleEnvSwitched 5 1 = Outcome.done sampleMaximized
      ∧ sampleMaximized.workspaceActivated sampleEnvSwitched 0 2
          = sampleMaximized.setMaximized sampleEnvSwitched := by
  refine ⟨(workspaceActivated_own_workspace_only sampleEnvSwitched sampleMaximized 5 1).1
      (by decide), ?_⟩
  exact (((workspaceActivated_own_workspace_only sampleEnvSwitched sampleMaximized 0 2).2.2.2 1
    rfl rfl rfl rfl).2 (by decide)).1


/-! ## The per-output view map -/

theorem hashInsert_of_not_mem (m : List (Nat × ShellView)) (key : Nat) (value : ShellView)
    (h : key ∉ hashKeys m) : hashInsert m key value = m ++ [(key, value)] := by
  unfold hashInsert
  rw [if_neg]
  intro hany
  rw [List.any_eq_true] at hany
  obtain ⟨kv, hkv, heq⟩ := hany
  apply h
  unfold hashKeys
  rw [List.mem_map]
  exact ⟨kv, hkv, by simpa using heq⟩

theorem hashInsert_keys_of_mem (m : List (Nat × ShellView)) (key : Nat) (value : ShellView)
    (h : key ∈ hashKeys m) : hashKeys (hashInsert m key value) = hashKeys m := by
  unfold hashInsert
  have hany : (m.any fun kv => kv.1 == key) = true := by
    rw [List.any_eq_true]
    unfold hashKeys at h
    obtain ⟨kv, hkv, heq⟩ := List.mem_map.mp h
    exact ⟨kv, hkv, by simpa using heq⟩
  rw [if_pos hany]
  unfold hashKeys
  rw [List.map_map]
  apply List.map_congr_left
  intro kv _
  simp only [Function.comp]
  split
  · rename_i heq
    have : kv.1 = key := by simpa using heq
    exact this.symm
  · rfl

/-- The keys after `insert`: unchanged when the key was present, one more otherwise. -/
theorem hashInsert_keys (m : List (Nat × ShellView)) (key : Nat) (value : ShellView) :
    hashKeys (hashInsert m key value)
      = if key ∈ hashKeys m then hashKeys m else hashKeys m ++ [key] := by
  by_cases h : key ∈ hashKeys m
  · rw [if_pos h, hashInsert_keys_of_mem m key value h]
  · rw [if_neg h, hashInsert_of_not_mem m key value h]
    simp [hashKeys]

theorem hashInsert_nodup (m : List (Nat × ShellView)) (key : Nat) (value : ShellView)
    (hnd : (hashKeys m).Nodup) : (hashKeys (hashInsert m key value)).Nodup := by
  rw [hashInsert_keys]
  split
  · exact hnd
  · rename_i h
    rw [List.nodup_append]
    refine ⟨hnd, List.nodup_singleton _, ?_⟩
    intro x hx hx2
    rw [List.mem_singleton] at hx2
    exact h (hx2 ▸ hx)

theorem hashValue_insert_same (m : List (Nat × ShellView)) (key : Nat) (value : ShellView) :
    hashValue (hashInsert m key value) key = some value := by
  unfold hashValue hashInsert
  split
  · rename_i hany
    induction m with
    | nil => simp at hany
    | cons kv rest ih =>
      by_cases hk : kv.1 = key
      · simp [List.find?, hk]
      · have hrest : (rest.any fun kv => kv.1 == key) = true := by
          simpa [List.any_cons, hk] using hany
        have hk2 : (kv.1 == key) = false := by simpa using hk
        simp only [List.map_cons, hk2, Bool.false_eq_true, if_false, List.find?_cons]
        exact ih hrest
  · rename_i hany
    induction m with
    | nil => simp [List.find?]
    | cons kv rest ih =>
      have hk : (kv.1 == key) = false := by
        cases hkv : (kv.1 == key) with
        | false => rfl
        | true => simp [List.any_cons, hkv] at hany
      have hrest : ¬ (rest.any fun kv => kv.1 == key) = true := by
        intro h
        apply hany
        simp [List.any_cons, h]
      simp only [List.cons_append, List.find?_cons, hk]
      exact ih hrest

theorem find_replace_other (m : List (Nat × ShellView)) (key k : Nat) (value : ShellView)
    (hk : k ≠ key) :
    List.find? (fun kv => kv.1 == k) (m.map fun kv => if kv.1 == key then (key, value) else kv)
      = List.find? (fun kv => kv.1 == k) m := by
  induction m with
  | nil => rfl
  | cons kv rest ih =>
    simp only [List.map_cons, List.find?_cons]
    by_cases h1 : kv.1 = key
    · have h2 : (kv.1 == key) = true := by simpa using h1
      have h3 : (kv.1 == k) = false := by
        rw [h1]; simpa using Ne.symm hk
      have h4 : (key == k) = false := by simpa using Ne.symm hk
      simp only [h2, if_true, h3, h4]
      exact ih
    · have h2 : (kv.1 == key) = false := by simpa using h1
      simp only [h2, Bool.false_eq_true, if_false]
      cases hkk : (kv.1 == k) with
      | true => rfl
      | false => exact ih

theorem hashValue_insert_other (m : List (Nat × ShellView)) (key k : Nat) (value : ShellView)
    (hk : k ≠ key) : hashValue (hashInsert m key value) k = hashValue m k := by
  unfold hashValue hashInsert
  split
  · rw [find_replace_other m key k value hk]
  · congr 1
    rw [List.find?_append]
    have h4 : (key == k) = false := by simpa using Ne.symm hk
    have : List.find? (fun kv => kv.1 == k) [(key, value)] = none := by
      simp only [List.find?_cons, h4, List.find?_nil]
    rw [this, Option.or_none]

theorem hashValue_remove_same (m : List (Nat × ShellView)) (key : Nat) :
    hashValue (hashRemove m key) key = none := by
  unfold hashValue hashRemove
  rw [Option.map_eq_none', List.find?_eq_none]
  intro kv hkv
  have := (List.mem_filter.mp hkv).2
  simpa using this

theorem hashValue_remove_other (m : List (Nat × ShellView)) (key k : Nat) (hk : k ≠ key) :
    hashValue (hashRemove m key) k = hashValue m k := by
  unfold hashValue hashRemove
  congr 1
  induction m with
  | nil => rfl
  | cons kv rest ih =>
    by_cases h1 : kv.1 = key
    · have h2 : (kv.1 != key) = false := by simp [h1]
      have h3 : (kv.1 == k) = false := by rw [h1]; simpa using Ne.symm hk
      rw [List.filter_cons, h2]
      simp only [Bool.false_eq_true, if_false, List.find?_cons, h3]
      exact ih
    · have h2 : (kv.1 != key) = true := by simpa using h1
      rw [List.filter_cons, h2]
      simp only [if_true, List.find?_cons]
      cases hkk : (kv.1 == k) with
      | true => rfl
      | false => exact ih

theorem hashRemove_keys (m : List (Nat × ShellView)) (key : Nat) :
    hashKeys (hashRemove m key) = (hashKeys m).filter fun k => k != key := by
  unfold hashKeys hashRemove
  rw [List.filter_map]
  rfl

/-- Removing a key that is present, from a map without repeated keys, leaves exactly one
entry less. -/
theorem hashRemove_length (m : List (Nat × ShellView)) (key : Nat)
    (hnd : (hashKeys m).Nodup) (hmem : key ∈ hashKeys m) :
    (hashRemove m key).length + 1 = m.length := by
  have h1 : (hashRemove m key).length = (hashKeys (hashRemove m key)).length := by
    simp [hashKeys]
  have h2 : m.length = (hashKeys m).length := by simp [hashKeys]
  rw [h1, h2, hashRemove_keys]
  obtain ⟨pre, post, hsplit⟩ := List.append_of_mem hmem
  rw [hsplit] at hnd ⊢
  have := filter_ne_middle pre post key hnd
  have hf : (fun k => k != key) = (fun w => decide (w ≠ key)) := by
    funext k
    by_cases hkk : k = key
    · simp [hkk]
    · simp [hkk]
  rw [hf, this]
  simp only [List.length_append, List.length_cons]
  omega


theorem new_views_fold (outputs : List Nat) :
    ∀ acc : List (Nat × ShellView), (hashKeys acc).Nodup →
      (hashKeys (outputs.foldl (fun m o => hashInsert m o { id := o, hasLayer := false }) acc)).Nodup
        ∧ ∀ o, o ∈ hashKeys (outputs.foldl (fun m o => hashInsert m o { id := o, hasLayer := false }) acc)
            ↔ (o ∈ hashKeys acc ∨ o ∈ outputs) := by
  induction outputs with
  | nil =>
    intro acc hnd
    exact ⟨hnd, fun o => by simp⟩
  | cons x rest ih =>
    intro acc hnd
    simp only [List.foldl_cons]
    obtain ⟨h1, h2⟩ := ih (hashInsert acc x { id := x, hasLayer := false })
      (hashInsert_nodup acc x _ hnd)
    refine ⟨h1, ?_⟩
    intro o
    rw [h2 o, hashInsert_keys]
    by_cases hx : x ∈ hashKeys acc
    · rw [if_pos hx]
      simp only [List.mem_cons]
      constructor
      · rintro (h | h)
        · exact Or.inl h
        · exact Or.inr (Or.inr h)
      · rintro (h | h | h)
        · exact Or.inl h
        · exact Or.inl (h ▸ hx)
        · exact Or.inr h
    · rw [if_neg hx]
      simp only [List.mem_append, List.mem_singleton, List.mem_cons]
      tauto

/-- After construction the view map has one entry per output of the compositor and no
other entry. -/
theorem new_views (env : Env) (surface : Surface) (w0 h0 : Int) :
    (hashKeys (ShellSurface.new env surface w0 h0).m_views).Nodup
      ∧ ∀ o, o ∈ hashKeys (ShellSurface.new env surface w0 h0).m_views ↔ o ∈ env.outputs := by
  obtain ⟨h1, h2⟩ := new_views_fold env.outputs [] List.nodup_nil
  refine ⟨h1, ?_⟩
  intro o
  have := h2 o
  simpa [hashKeys] using this

theorem views_finishConfigure (env : Env) (wasMapped : Bool) (s : ShellSurface) :
    (s.finishConfigure env wasMapped).m_views = s.m_views := by
  unfold ShellSurface.finishConfigure
  simp only
  split <;> rfl

theorem views_configureToplevelViews (s : ShellSurface) :
    s.configureToplevelViews.m_views = s.m_views := by
  unfold ShellSurface.configureToplevelViews
  simp only
  split <;> rfl

theorem views_configurePopupViews (env : Env) (s t : ShellSurface)
    (h : s.configurePopupViews env = Outcome.done t) : t.m_views = s.m_views := by
  unfold ShellSurface.configurePopupViews at h
  split at h
  · simp only [Outcome.done.injEq] at h
    rw [← h]
  · exact absurd h (by simp)

theorem views_configureTransientViews (env : Env) (s t : ShellSurface)
    (h : s.configureTransientViews env = Outcome.done t) : t.m_views = s.m_views := by
  unfold ShellSurface.configureTransientViews at h
  split at h
  · simp only [Outcome.done.injEq] at h
    rw [← h]
  · exact absurd h (by simp)

/-- The view configuration does not add or remove a view of `m_views`. -/
theorem views_configureViews (env : Env) (tc wm : Bool) (s t : ShellSurface)
    (h : s.configureViews env tc wm = Outcome.done t) : t.m_views = s.m_views := by
  unfold ShellSurface.configureViews at h
  simp only at h
  have h1 : (if tc = true then s.emit Event.deleteExtraViews else s).m_views = s.m_views := by
    split <;> rfl
  generalize (if tc = true then s.emit Event.deleteExtraViews else s) = s1 at h h1
  split at h
  · simp only [Outcome.done.injEq] at h
    rw [← h, views_finishConfigure, views_configureToplevelViews, h1]
  · split at h
    · split at h
      · rename_i s2 hs2
        simp only [Outcome.done.injEq] at h
        rw [← h, views_finishConfigure, views_configurePopupViews env s1 s2 hs2, h1]
      · rename_i other hother
        rw [h] at hother
        exact absurd rfl (hother t)
    · split at h
      · split at h
        · rename_i s2 hs2
          simp only [Outcome.done.injEq] at h
          rw [← h, views_finishConfigure, views_configureTransientViews env s1 s2 hs2, h1]
        · rename_i other hother
          rw [h] at hother
          exact absurd rfl (hother t)
      · split at h
        · simp only [Outcome.done.injEq] at h
          rw [← h, views_finishConfigure]
          exact h1
        · simp only [Outcome.done.injEq] at h
          rw [← h, views_finishConfigure, h1]

/-- A `configure` that returns leaves `m_views` as it was. -/
theorem configure_done_views (env : Env) (fuel : Nat) :
    ∀ s t : ShellSurface, s.configure env fuel = Outcome.done t → t.m_views = s.m_views := by
  induction fuel with
  | zero =>
    intro s t h
    simp [ShellSurface.configure] at h
  | succ n ih =>
    intro s t h
    by_cases hzero : s.m_surface.width = 0
    · rw [configure_zero_width env n s hzero] at h
      simp only [Outcome.done.injEq] at h
      rw [← h]
    · simp only [ShellSurface.configure, hzero, if_false] at h
      split at h
      · simp only [Outcome.done.injEq] at h
        rw [← h]
        rfl
      · split at h
        · rename_i hnone s3 hs3
          have hs3' : s3.m_views = s.m_views := by
            rcases shell_configure_done env _ _ _ hs3 with heq | ⟨ws, hcfg⟩
            · rw [heq]
              rfl
            · exact (ih _ _ hcfg).trans rfl
          split at h
          · simp only [Outcome.done.injEq] at h
            rw [← h]
            exact hs3'
          · exact (views_configureViews env _ _ s3 t h).trans hs3'
        · rename_i other hother
          rw [h] at hother
          exact absurd rfl (hother t)


theorem sendConfigure_views (s : ShellSurface) (w h : Int) :
    (s.sendConfigure w h).m_views = s.m_views := by
  unfold ShellSurface.sendConfigure
  split <;> rfl

theorem setMaximized_views (env : Env) (s t : ShellSurface)
    (h : s.setMaximized env = Outcome.done t) : t.m_views = s.m_views := by
  unfold ShellSurface.setMaximized at h
  simp only at h
  split at h
  · exact absurd h (by simp)
  · simp only [Outcome.done.injEq] at h
    rw [← h, sendConfigure_views]

/-- `outputCreated` on a surface that has a view: the new view is seeded from the first
view of the map and inserted, `m_forceMap` is set and `configure` runs. -/
theorem outputCreated_of_views (env : Env) (fuel : Nat) (s : ShellSurface) (o : Nat)
    (first : Nat × ShellView) (rest : List (Nat × ShellView)) (hviews : s.m_views = first :: rest) :
    s.outputCreated env fuel o =
      ShellSurface.configure env fuel
        { s with
          m_views := hashInsert s.m_views o { id := o, hasLayer := false }
          m_forceMap := true
          trace := s.trace ++ [Event.setInitialPos o first.2.id] } := by
  unfold ShellSurface.outputCreated
  split
  · rename_i hnil
    rw [hviews] at hnil
    exact absurd hnil (by simp)
  · rename_i f r hcons
    rw [hviews] at hcons
    obtain ⟨hf, _⟩ := List.cons.inj hcons
    rw [← hf]
    rfl

/-- `outputCreated` on a surface with an empty view map dereferences
`m_views.begin()`. -/
theorem outputCreated_of_no_views (env : Env) (fuel : Nat) (s : ShellSurface) (o : Nat)
    (hviews : s.m_views = []) : s.outputCreated env fuel o = Outcome.crash := by
  unfold ShellSurface.outputCreated
  rw [hviews]

/-- The view map after an `outputCreated` that returns. -/
theorem outputCreated_views (env : Env) (fuel : Nat) (s t : ShellSurface) (o : Nat)
    (h : s.outputCreated env fuel o = Outcome.done t) :
    t.m_views = hashInsert s.m_views o { id := o, hasLayer := false } := by
  cases hviews : s.m_views with
  | nil =>
    rw [outputCreated_of_no_views env fuel s o hviews] at h
    exact absurd h (by simp)
  | cons first rest =>
    rw [outputCreated_of_views env fuel s o first rest hviews] at h
    rw [configure_done_views env fuel _ t h, hviews]

/-- What `removeView` writes: the view map and, when there was a view, the trace. -/
theorem removeView_members (s : ShellSurface) (o : Nat) :
    (s.removeView o).m_views = hashRemove s.m_views o
      ∧ (s.removeView o).m_nextType = s.m_nextType
      ∧ (s.removeView o).m_toplevel = s.m_toplevel
      ∧ (s.removeView o).m_workspace = s.m_workspace
      ∧ (s.removeView o).m_configureSender = s.m_configureSender
      ∧ (s.removeView o).trace
          = s.trace ++ (if (s.viewForOutput o).isSome = true then [Event.deleteView o] else []) := by
  unfold ShellSurface.removeView
  simp only
  cases hv : s.viewForOutput o with
  | none => simp
  | some v => simp [ShellSurface.emit]

/-- The view map after an `outputRemoved` that returns. -/
theorem outputRemoved_views (env : Env) (s t : ShellSurface) (o : Nat)
    (h : s.outputRemoved env o = Outcome.done t) : t.m_views = hashRemove s.m_views o := by
  unfold ShellSurface.outputRemoved at h
  simp only at h
  split at h
  · rw [setMaximized_views env _ t h]
    exact (removeView_members s o).1
  · simp only [Outcome.done.injEq] at h
    rw [← h]
    exact (removeView_members s o).1

/-- `outputRemoved` returns unless it has to re-maximize with no output left. -/
theorem outputRemoved_returns (env : Env) (s : ShellSurface) (o : Nat)
    (h : env.outputs ≠ [] ∨ ¬ (s.m_nextType = SurfaceType.Toplevel ∧ s.m_toplevel.maximized = true
      ∧ s.m_toplevel.output = some o)) :
    ∃ t, s.outputRemoved env o = Outcome.done t := by
  obtain ⟨_, h1, h2, _⟩ := removeView_members s o
  unfold ShellSurface.outputRemoved
  simp only
  split
  · rename_i hmax
    rcases h with h | h
    · obtain ⟨sel, _, hdone⟩ := setMaximized_done env (s.removeView o) h
      exact ⟨_, hdone⟩
    · rw [h1, h2] at hmax
      exact absurd hmax h
  · exact ⟨_, rfl⟩

/-- C14: the per-output view map. After construction its keys are the ids of the
compositor's outputs, each once. An `outputCreated(o)` that returns adds exactly one
entry, keyed by the id of `o` (not in the map before), and leaves every other entry
unchanged. An `outputRemoved(o)` that returns removes exactly the entry of `o`: the
count decreases by exactly one, `viewForOutput(o)` no longer returns a view and every
other entry is unchanged. `outputCreated` returns when the map is not empty and
`configure` returns; `outputRemoved` returns unless it re-maximizes with no output
left. -/
theorem view_map_one_entry_per_output (env : Env) :
    (∀ surface w0 h0,
      (hashKeys (ShellSurface.new env surface w0 h0).m_views).Nodup
        ∧ ∀ o, o ∈ hashKeys (ShellSurface.new env surface w0 h0).m_views ↔ o ∈ env.outputs)
    ∧ (∀ fuel (s t : ShellSurface) o, s.outputCreated env fuel o = Outcome.done t →
        o ∉ hashKeys s.m_views →
        hashKeys t.m_views = hashKeys s.m_views ++ [o]
          ∧ t.m_views.length = s.m_views.length + 1
          ∧ t.viewForOutput o = some { id := o, hasLayer := false }
          ∧ ∀ k, k ≠ o → t.viewForOutput k = s.viewForOutput k)
    ∧ (∀ (s t : ShellSurface) o, s.outputRemoved env o = Outcome.done t →
        t.viewForOutput o = none
          ∧ (∀ k, k ≠ o → t.viewForOutput k = s.viewForOutput k)
          ∧ ((hashKeys s.m_views).Nodup → o ∈ hashKeys s.m_views →
              t.m_views.length + 1 = s.m_views.length
                ∧ hashKeys t.m_views = (hashKeys s.m_views).filter fun k => k != o))
    ∧ (∀ fuel (s : ShellSurface) o, s.m_views ≠ [] →
        (∀ t : ShellSurface, t.m_workspace.isSome = true → env.isMapped t = true) →
        env.workspaces ≠ [] → s.parentSet →
        ∃ t, s.outputCreated env (fuel + 2) o = Outcome.done t)
    ∧ (∀ (s : ShellSurface) o,
        (env.outputs ≠ [] ∨ ¬ (s.m_nextType = SurfaceType.Toplevel ∧ s.m_toplevel.maximized = true
          ∧ s.m_toplevel.output = some o)) →
        ∃ t, s.outputRemoved env o = Outcome.done t) := by
  refine ⟨new_views env, ?_, ?_, ?_, outputRemoved_returns env⟩
  · intro fuel s t o h hfresh
    have hv := outputCreated_views env fuel s t o h
    refine ⟨?_, ?_, ?_, ?_⟩
    · rw [hv, hashInsert_keys, if_neg hfresh]
    · rw [hv, hashInsert_of_not_mem _ _ _ hfresh]
      simp
    · unfold ShellSurface.viewForOutput
      rw [hv, hashValue_insert_same]
    · intro k hk
      unfold ShellSurface.viewForOutput
      rw [hv, hashValue_insert_other _ _ _ _ hk]
  · intro s t o h
    have hv := outputRemoved_views env s t o h
    refine ⟨?_, ?_, ?_⟩
    · unfold ShellSurface.viewForOutput
      rw [hv, hashValue_remove_same]
    · intro k hk
      unfold ShellSurface.viewForOutput
      rw [hv, hashValue_remove_other _ _ _ hk]
    · intro hnd hmem
      rw [hv]
      exact ⟨hashRemove_length _ _ hnd hmem, hashRemove_keys _ _⟩
  · intro fuel s o hne hmapped hws hsafe
    obtain ⟨first, rest, hviews⟩ := List.exists_cons_of_ne_nil hne
    rw [outputCreated_of_views env (fuel + 2) s o first rest hviews]
    exact configure_returns env fuel _ hmapped hws hsafe

theorem view_map_one_entry_per_output_witness :
    (∃ t, sampleSurface.outputCreated sampleEnv 2 3 = Outcome.done t
        ∧ hashKeys t.m_views = [1, 2, 3])
      ∧ (∃ t, sampleSurface.outputRemoved sampleEnv 2 = Outcome.done t
          ∧ t.m_views.length + 1 = sampleSurface.m_views.length
          ∧ t.viewForOutput 2 = none) := by
  obtain ⟨_, hcreate, hremove, hret1, hret2⟩ := view_map_one_entry_per_output sampleEnv
  constructor
  · obtain ⟨t, ht⟩ := hret1 0 sampleSurface 3 (by decide) (fun _ h => h) (by decide)
      (by unfold ShellSurface.parentSet; decide)
    exact ⟨t, ht, (hcreate 2 sampleSurface t 3 ht (by decide)).1⟩
  · obtain ⟨t, ht⟩ := hret2 sampleSurface 2 (Or.inl (by decide))
    obtain ⟨h1, _, h3⟩ := hremove sampleSurface t 2 ht
    exact ⟨t, ht, (h3 (by decide) (by decide)).1, h1⟩

/-- C15 (the code at the failing input): the surface is a pending toplevel maximized on
output 1, output 1 was the last output and is removed; `outputRemoved` runs
`setMaximized`, `selectOutput` returns the null pointer and `setMaximized` dereferences
it. -/
theorem outputRemoved_last_output_crashes :
    ({ sampleMaximized with m_views := [(1, { id := 1, hasLayer := true })] } :
        ShellSurface).selectOutput { sampleEnv with outputs := [] } = none
      ∧ ({ sampleMaximized with m_views := [(1, { id := 1, hasLayer := true })] } :
          ShellSurface).outputRemoved { sampleEnv with outputs := [] } 1 = Outcome.crash := by
  decide

/-- The defect of C15 in general, and what `outputRemoved` does when an output is left:
with no output left, removing the maximize target dereferences a null pointer; with an
output left it re-runs `selectOutput` and sends a configure with the selected output's
available size. -/
theorem outputRemoved_maximize_target (env : Env) (s : ShellSurface) (o : Nat)
    (htype : s.m_nextType = SurfaceType.Toplevel) (hmax : s.m_toplevel.maximized = true)
    (hout : s.m_toplevel.output = some o) :
    (env.outputs = [] → s.outputRemoved env o = Outcome.crash)
    ∧ (env.outputs ≠ [] → s.m_configureSender = true →
        ∃ sel t, s.selectOutput env = some sel ∧ s.outputRemoved env o = Outcome.done t
          ∧ t.m_toplevel.output = some sel
          ∧ t.trace = s.trace
              ++ (if (s.viewForOutput o).isSome = true then [Event.deleteView o] else [])
              ++ [Event.sendConfigure (env.availableGeometry sel).width
                    (env.availableGeometry sel).height]) := by
  obtain ⟨_, h1, h2, h3, h4, h5⟩ := removeView_members s o
  have hbranch : (s.removeView o).m_nextType = SurfaceType.Toplevel
      ∧ (s.removeView o).m_toplevel.maximized = true
      ∧ (s.removeView o).m_toplevel.output = some o := by
    rw [h1, h2]
    exact ⟨htype, hmax, hout⟩
  have hrem : s.outputRemoved env o = (s.removeView o).setMaximized env := by
    unfold ShellSurface.outputRemoved
    simp only [if_pos hbranch]
  constructor
  · intro hnone
    rw [hrem]
    exact setMaximized_no_output env _ hnone
  · intro hne hsender
    obtain ⟨sel, hsel, hdone⟩ := setMaximized_done env (s.removeView o) hne
    have hsel2 : s.selectOutput env = some sel :=
      (selectOutput_congr env s (s.removeView o) h3).symm.trans hsel
    rw [hrem, hdone]
    refine ⟨sel, _, hsel2, rfl, ?_, ?_⟩
    · unfold ShellSurface.sendConfigure
      split <;> rfl
    · unfold ShellSurface.sendConfigure
      simp [hsender, h4, h5, ShellSurface.emit]

/-- C16 (the code at the failing input): a surface constructed while the compositor
has no output has an empty view map; when output 1 is then created, `outputCreated`
reads `*m_views.begin()` of the empty hash. -/
theorem outputCreated_without_views_crashes :
    (ShellSurface.new { sampleEnv with outputs := [] } sampleContent 0 0).m_views = []
      ∧ (ShellSurface.new { sampleEnv with outputs := [] } sampleContent 0 0).outputCreated
          { sampleEnv with outputs := [1] } 2 1 = Outcome.crash := by
  decide


/-! ## Move, resize and client grabs -/

/-- C17: a move grab and a resize grab end on a button event if and only if the event
is a release and the pointer's button count is 0 at that moment; otherwise the event
changes nothing. When a resize grab ends, the resize edges are reset to `None` and the
current-grab slot is cleared; when a move grab ends, the current-grab slot is cleared
(and the resize edges are left alone). -/
theorem grab_ends_on_full_release (g : Grab) (s : ShellSurface) (buttonCount : Nat)
    (state : ButtonState) :
    ((buttonCount = 0 ∧ state = ButtonState.Released) →
      g.button s buttonCount state = g.endGrab s)
    ∧ (¬ (buttonCount = 0 ∧ state = ButtonState.Released) → g.button s buttonCount state = s)
    ∧ (g.button s buttonCount state).trace
        = s.trace ++ (if buttonCount = 0 ∧ state = ButtonState.Released then [Event.grabEnd] else [])
    ∧ (∀ view w h, (Grab.ResizeGrab view w h).endGrab s
        = { s with
            m_resizeEdges := Edges.None
            m_currentGrab := none
            trace := s.trace ++ [Event.grabEnd] })
    ∧ (∀ view dx dy, (Grab.MoveGrab view dx dy).endGrab s
        = { s with m_currentGrab := none, trace := s.trace ++ [Event.grabEnd] }) := by
  refine ⟨?_, ?_, ?_, fun _ _ _ => rfl, fun _ _ _ => rfl⟩
  · intro h
    unfold Grab.button
    rw [if_pos h]
  · intro h
    unfold Grab.button
    rw [if_neg h]
  · unfold Grab.button
    split
    · cases g <;> rfl
    · simp

theorem grab_ends_on_full_release_witness :
    ((Grab.ResizeGrab 1 640 480).button (sampleSurface.resize sampleEnv 1 5) 0
        ButtonState.Released).m_resizeEdges = Edges.None
      ∧ ((Grab.ResizeGrab 1 640 480).button (sampleSurface.resize sampleEnv 1 5) 0
          ButtonState.Released).m_currentGrab = none
      ∧ (Grab.ResizeGrab 1 640 480).button (sampleSurface.resize sampleEnv 1 5) 1
          ButtonState.Released = sampleSurface.resize sampleEnv 1 5 := by
  obtain ⟨h1, h2, _⟩ := grab_ends_on_full_release (Grab.ResizeGrab 1 640 480)
    (sampleSurface.resize sampleEnv 1 5) 0 ButtonState.Released
  obtain ⟨_, h3, _⟩ := grab_ends_on_full_release (Grab.ResizeGrab 1 640 480)
    (sampleSurface.resize sampleEnv 1 5) 1 ButtonState.Released
  refine ⟨?_, ?_, h3 (by decide)⟩
  · rw [h1 ⟨rfl, rfl⟩]
    rfl
  · rw [h1 ⟨rfl, rfl⟩]
    rfl

/-- C18 (as stated, refuted): a client grab whose requester's resource 3 is attached is
terminated by the `terminate` request; the grab ends and no `ended` notification is
sent. -/
theorem terminate_sends_no_ended :
    ClientGrab.terminate { resource := some 3, currentFocus := some 1, client := 9, pressed := false }
      = ({ resource := none, currentFocus := some 1, client := 9, pressed := false },
          [GrabEvent.grabEnd]) := by
  decide

/-- C18 (amended): `terminate` detaches the requester's resource before it ends the
grab, so a client grab terminated by the `terminate` request ends without an `ended`
notification, whether or not the resource was attached. A final `ended` notification is
delivered when the grab is ended otherwise (`end()`) while the resource is still
attached, and none when it is detached. -/
theorem client_grab_ended_notification (g : ClientGrab) :
    g.terminate = ({ g with resource := none }, [GrabEvent.grabEnd])
    ∧ (∀ r, g.resource = some r → g.endGrab = [GrabEvent.grabEnd, GrabEvent.grabSendEnded r])
    ∧ (g.resource = none → g.endGrab = [GrabEvent.grabEnd]) := by
  refine ⟨rfl, ?_, ?_⟩
  · intro r hr
    unfold ClientGrab.endGrab ClientGrab.ended
    rw [hr]
  · intro hr
    unfold ClientGrab.endGrab ClientGrab.ended
    rw [hr]

theorem client_grab_ended_notification_witness :
    ClientGrab.endGrab { resource := some 3, currentFocus := some 1, client := 9, pressed := false }
      = [GrabEvent.grabEnd, GrabEvent.grabSendEnded 3] :=
  (client_grab_ended_notification
    { resource := some 3, currentFocus := some 1, client := 9, pressed := false }).2.1 3 rfl

/-- C19 (as stated, refuted): while a button is held, `focus()` of the popup grab
returns at once: the pointer is over the popup's view 7, yet `inside` stays false and
the pointer focus is not set. -/
theorem popup_focus_skipped_while_button_held :
    PopupGrab.focus { popupViews := [7], inside := false, creationTime := 0 }
        { buttonCount := 1, picked := some 7, focus := none }
      = ({ popupViews := [7], inside := false, creationTime := 0 },
          { buttonCount := 1, picked := some 7, focus := none }) := by
  decide

/-- C19 (amended): on a `focus()` recomputation of the popup dismissal grab while no
button is held, the inside flag is set to whether the picked view is one of the popup's
views, and the pointer focus is that view when inside and cleared when outside; while a
button is held `focus()` changes neither the inside flag nor the pointer focus. -/
theorem popup_focus_recomputed_without_buttons (g : PopupGrab) (p : PointerState) :
    (p.buttonCount = 0 →
      (∀ v, p.picked = some v → v ∈ g.popupViews →
        (g.focus p).1.inside = true ∧ (g.focus p).2.focus = some v)
      ∧ ((∀ v, p.picked = some v → v ∉ g.popupViews) →
        (g.focus p).1.inside = false ∧ (g.focus p).2.focus = none)
      ∧ (g.focus p).1.popupViews = g.popupViews ∧ (g.focus p).1.creationTime = g.creationTime)
    ∧ (p.buttonCount > 0 → g.focus p = (g, p)) := by
  constructor
  · intro h0
    have hnot : ¬ (p.buttonCount > 0) := by omega
    refine ⟨?_, ?_, ?_, ?_⟩
    · intro v hv hmem
      unfold PopupGrab.focus
      rw [if_neg hnot]
      simp only [hv, hmem, decide_True, if_true]
      split
      · exact ⟨rfl, rfl⟩
      · rename_i hfocus
        simp only [ne_eq, not_not] at hfocus
        exact ⟨rfl, hfocus⟩
    · intro hout
      unfold PopupGrab.focus
      rw [if_neg hnot]
      cases hp : p.picked with
      | none => simp
      | some v => simp [hout v hp]
    · unfold PopupGrab.focus
      rw [if_neg hnot]
      simp only
      split
      · split <;> rfl
      · rfl
    · unfold PopupGrab.focus
      rw [if_neg hnot]
      simp only
      split
      · split <;> rfl
      · rfl
  · intro h
    unfold PopupGrab.focus
    rw [if_pos h]

theorem popup_focus_recomputed_without_buttons_witness :
    (PopupGrab.focus { popupViews := [7], inside := false, creationTime := 0 }
        { buttonCount := 0, picked := some 7, focus := none }).1.inside = true
      ∧ (PopupGrab.focus { popupViews := [7], inside := false, creationTime := 0 }
          { buttonCount := 0, picked := some 7, focus := none }).2.focus = some 7
      ∧ PopupGrab.focus { popupViews := [7], inside := true, creationTime := 0 }
          { buttonCount := 2, picked := some 8, focus := some 7 }
        = ({ popupViews := [7], inside := true, creationTime := 0 },
            { buttonCount := 2, picked := some 8, focus := some 7 }) := by
  obtain ⟨h1, _⟩ := popup_focus_recomputed_without_buttons
    { popupViews := [7], inside := false, creationTime := 0 }
    { buttonCount := 0, picked := some 7, focus := none }
  obtain ⟨h2, _⟩ := h1 rfl
  obtain ⟨h3, h4⟩ := h2 7 rfl (by decide)
  exact ⟨h3, h4, (popup_focus_recomputed_without_buttons
    { popupViews := [7], inside := true, creationTime := 0 }
    { buttonCount := 2, picked := some 8, focus := some 7 }).2 (by decide)⟩


/-! ## Destruction of the parent surface -/

/-- With content and a pending type `None`, `configure` applies the pending state and
returns at once: nothing is emitted. -/
theorem configure_next_none (env : Env) (fuel : Nat) (s : ShellSurface)
    (hcontent : s.m_surface.width ≠ 0) (hnone : s.m_nextType = SurfaceType.None) :
    s.configure env (fuel + 1) = Outcome.done s.updateState := by
  have htype : s.updateState.m_type = SurfaceType.None := hnone
  simp only [ShellSurface.configure, hcontent, if_false, htype, if_true]

/-- C20 (as stated, refuted): a popup of parent 7 is configured (its type is `Popup`),
then its parent surface is destroyed and the popup is configured again while it still
has content: its type is `None`, but neither `contentLost` nor `unmapped` is emitted,
the trace of the second configure is the trace before it. -/
theorem parent_destroyed_with_content_emits_nothing :
    ∃ p t, (sampleSurface.setPopup 7 1 10 20).configure sampleEnv 2 = Outcome.done p
      ∧ p.m_type = SurfaceType.Popup
      ∧ p.parentSurfaceDestroyed.configure sampleEnv 2 = Outcome.done t
      ∧ t.m_type = SurfaceType.None
      ∧ t.trace = p.trace
      ∧ Event.contentLost ∉ t.trace ∧ Event.unmapped ∉ t.trace := by
  refine ⟨_, _, rfl, rfl, configure_next_none sampleEnv 1 _ (by decide) rfl, rfl, rfl, ?_, ?_⟩
  · decide
  · decide

/-- C20 (amended): after `parentSurfaceDestroyed`, the parent is null and the pending
type is `None`; the dependent's next configure returns and leaves its type `None`. The
content-lost path runs only if the surface has no content (width 0) at that configure:
then `contentLost` and `unmapped` are emitted (after the popup ungrab, if a seat is
set). If the surface still has content, the configure applies the pending state and
emits nothing. -/
theorem parent_destroyed_then_configure (env : Env) (fuel : Nat) (s : ShellSurface) :
    s.parentSurfaceDestroyed.m_parent = none
    ∧ s.parentSurfaceDestroyed.m_nextType = SurfaceType.None
    ∧ (s.m_surface.width ≠ 0 →
        s.parentSurfaceDestroyed.configure env (fuel + 1)
          = Outcome.done { s with
              m_parent := none
              m_nextType := SurfaceType.None
              m_type := SurfaceType.None
              m_geometry := s.m_nextGeometry })
    ∧ (s.m_surface.width = 0 →
        s.parentSurfaceDestroyed.configure env (fuel + 1)
          = Outcome.done { s with
              m_parent := none
              m_nextType := SurfaceType.None
              m_type := SurfaceType.None
              m_workspace := none
              trace := s.trace
                ++ (match s.m_popup.seat with
                    | some seat => [Event.ungrabPopup seat]
                    | none => [])
                ++ [Event.contentLost, Event.unmapped] }) := by
  refine ⟨rfl, rfl, ?_, ?_⟩
  · intro hcontent
    rw [configure_next_none env fuel s.parentSurfaceDestroyed hcontent rfl]
    rfl
  · intro hzero
    rw [configure_zero_width env fuel s.parentSurfaceDestroyed hzero]
    rfl

theorem parent_destroyed_then_configure_witness :
    ((sampleSurface.setTransient 7 10 20 false).parentSurfaceDestroyed.configure sampleEnv 1
        = Outcome.done { sampleSurface.setTransient 7 10 20 false with
            m_parent := none
            m_nextType := SurfaceType.None
            m_type := SurfaceType.None
            m_geometry := (sampleSurface.setTransient 7 10 20 false).m_nextGeometry })
      ∧ (({ sampleSurface.setPopup 7 1 10 20 with m_surface := sampleNoContent } :
            ShellSurface).parentSurfaceDestroyed.configure sampleEnv 1
          = Outcome.done { sampleSurface.setPopup 7 1 10 20 with
              m_surface := sampleNoContent
              m_parent := none
              m_nextType := SurfaceType.None
              m_type := SurfaceType.None
              m_workspace := none
              trace := [Event.ungrabPopup 1, Event.contentLost, Event.unmapped] }) :=
  ⟨(parent_destroyed_then_configure sampleEnv 0 (sampleSurface.setTransient 7 10 20 false)).2.2.1
      (by decide),
    (parent_destroyed_then_configure sampleEnv 0
      ({ sampleSurface.setPopup 7 1 10 20 with m_surface := sampleNoContent } : ShellSurface)).2.2.2
      rfl⟩


/-! ## Lowering the bottom-most view -/

/-- C30: `lower(v)` on the bottom-most view `v` of a layer succeeds and makes `v` the
head of that layer, the views before it keeping their relative order: with at least two
views the order `pre ++ [v]` becomes `v :: pre` (the order rotates), and the only view
of a layer stays where it is. The other layers keep their order. -/
theorem lower_bottom_view_rotates {h : Links} {order : Nat → List Nat} (hs : Stacking h order)
    (self l : Nat) (pre : List Nat) (v : Nat) (hl : order l = pre ++ [v]) :
    ∃ h1, Layer.lower h self v = some h1
      ∧ Stacking h1 (Function.update order l (v :: pre))
      ∧ (∀ fuel, (order l).length ≤ fuel → Layer.views h1 l fuel = v :: pre)
      ∧ (pre = [] → ∀ fuel, 1 ≤ fuel → Layer.views h1 l fuel = Layer.views h l fuel)
      ∧ (∀ k fuel, k ≠ l → (order k).length ≤ fuel → Layer.views h1 k fuel = Layer.views h k fuel) := by
  obtain ⟨h1, hlow, hs1, _⟩ := lower_last hs self l pre v hl
  have hviews : ∀ fuel, (order l).length ≤ fuel → Layer.views h1 l fuel = v :: pre := by
    intro fuel hfuel
    have := views_stacking hs1 l fuel (by
      rw [Function.update_same]
      rw [hl] at hfuel
      simpa using hfuel)
    rw [Function.update_same] at this
    exact this
  refine ⟨h1, hlow, hs1, hviews, ?_, ?_⟩
  · intro hpre fuel hfuel
    have hlen : (order l).length ≤ fuel := by
      rw [hl, hpre]
      simpa using hfuel
    rw [hviews fuel hlen, views_stacking hs l fuel hlen, hl, hpre]
    rfl
  · intro k fuel hk hfuel
    have := views_stacking hs1 k fuel (by rw [Function.update_noteq hk]; exact hfuel)
    rw [Function.update_noteq hk] at this
    rw [this, views_stacking hs k fuel hfuel]

theorem lower_bottom_view_rotates_witness :
    (∃ h1, Layer.lower sampleLinks 0 1 = some h1 ∧ Layer.views h1 0 3 = [1, 3, 2])
      ∧ (∃ h1, Layer.lower sampleLinks 1 4 = some h1 ∧ Layer.views h1 1 1 = [4]) := by
  constructor
  · obtain ⟨h1, hlow, _, hv, _⟩ :=
      lower_bottom_view_rotates stacking_sample.1 0 0 [3, 2] 1 rfl
    exact ⟨h1, hlow, hv 3 (by decide)⟩
  · obtain ⟨h1, hlow, _, hv, _⟩ :=
      lower_bottom_view_rotates stacking_sample.1 1 1 [] 4 rfl
    exact ⟨h1, hlow, hv 1 (by decide)⟩

/-! ## The edge masks `resize` accepts -/

/-- C27 (the code at the failing input): the mask -16 (the `int` value of the 32-bit
pattern `0xFFFFFFF0`) is not 0, is not greater than 15 and has none of the four low
bits set, so it passes the test of `resize`: the edges are recorded and a resize grab
is started, although -16 is none of the eight valid masks. -/
theorem resize_accepts_negative_mask :
    (-16 : Int) ∉ [1, 2, 4, 5, 6, 8, 9, 10]
      ∧ (sampleSurface.resize sampleEnv 1 (-16)).m_resizeEdges = -16
      ∧ (sampleSurface.resize sampleEnv 1 (-16)).m_currentGrab
          = some (Grab.ResizeGrab 1 640 480)
      ∧ (sampleSurface.resize sampleEnv 1 (-16)).trace = [Event.grabStart 1 (-16)] := by
  decide

/-- No check of `resize` rejects a negative mask; for the non-negative ones the test is
exact: a mask `e >= 0` for which `resize` starts a grab is one of the eight valid
masks. -/
theorem resize_grab_nonneg_mask (env : Env) (s : ShellSurface) (seat : Nat) (e : Int)
    (hnonneg : 0 ≤ e)
    (hgrab : (s.resize env seat e).trace = s.trace ++ [Event.grabStart seat e]) :
    e ∈ [1, 2, 4, 5, 6, 8, 9, 10] := by
  by_cases h : e = 0 ∨ e > 15 ∨ int32And e 3 = 3 ∨ int32And e 12 = 12
  · rw [resize_of_rejected env s seat e h] at hgrab
    have := congrArg List.length hgrab
    simp at this
  · rw [resize_test_iff] at h
    simp only [List.mem_cons, List.mem_singleton, List.not_mem_nil, or_false]
    omega


/-! ## Popup placement -/

theorem wrapInt32_of_range (a : Int) (hlo : -2147483648 ≤ a) (hhi : a < 2147483648) :
    wrapInt32 a = a := by
  unfold wrapInt32
  omega

/-- One axis of `Popup::configureView` without overflow. -/
theorem placeAxis_eq (pos size outputSize : Int) (h : AxisInRange pos size outputSize) :
    Popup.placeAxis pos size outputSize
      = if max pos 0 + size ≤ outputSize then max pos 0 else outputSize - size := by
  obtain ⟨h1, h2, h3, h4, h5⟩ := h
  have hmax : (if pos > 0 then pos else 0) = max pos 0 := by
    rw [max_def]
    split <;> split <;> omega
  unfold Popup.placeAxis
  simp only [hmax]
  have hp : 0 ≤ max pos 0 := le_max_right _ _
  rw [wrapInt32_of_range (max pos 0 + size) (by omega) h5,
    wrapInt32_of_range (outputSize - size) (by omega) (by omega)]
  by_cases hfit : max pos 0 + size ≤ outputSize
  · rw [if_neg (by omega), if_pos hfit]
  · rw [if_pos (by omega), if_neg hfit]

/-- The placed position is in range again. -/
theorem placeAxis_in_range (pos size outputSize : Int) (h : AxisInRange pos size outputSize) :
    AxisInRange (Popup.placeAxis pos size outputSize) size outputSize := by
  rw [placeAxis_eq pos size outputSize h]
  obtain ⟨h1, h2, h3, h4, h5⟩ := h
  have hp : 0 ≤ max pos 0 := le_max_right _ _
  unfold AxisInRange
  refine ⟨?_, h2, h3, h4, ?_⟩
  · split <;> omega
  · split
    · rw [max_eq_left hp]
      exact h5
    · rcases le_total (outputSize - size) 0 with hle | hle
      · rw [max_eq_right hle]
        omega
      · rw [max_eq_left hle]
        omega

theorem placeAxis_inside (pos size outputSize : Int) (h : AxisInRange pos size outputSize)
    (hfits : size ≤ outputSize) :
    0 ≤ Popup.placeAxis pos size outputSize
      ∧ Popup.placeAxis pos size outputSize + size ≤ outputSize := by
  rw [placeAxis_eq pos size outputSize h]
  have hp : 0 ≤ max pos 0 := le_max_right _ _
  split
  · exact ⟨hp, by assumption⟩
  · omega

theorem placeAxis_idem (pos size outputSize : Int) (h : AxisInRange pos size outputSize) :
    Popup.placeAxis (Popup.placeAxis pos size outputSize) size outputSize
      = Popup.placeAxis pos size outputSize := by
  rw [placeAxis_eq _ size outputSize (placeAxis_in_range pos size outputSize h),
    placeAxis_eq pos size outputSize h]
  have hp : 0 ≤ max pos 0 := le_max_right _ _
  by_cases hfit : max pos 0 + size ≤ outputSize
  · simp only [if_pos hfit]
    rw [max_eq_left hp, if_pos hfit]
  · simp only [if_neg hfit]
    rcases le_total (outputSize - size) 0 with hle | hle
    · rw [max_eq_right hle]
      have : ¬ (0 + size ≤ outputSize) ∨ outputSize - size = 0 := by omega
      rcases this with hn | hz
      · rw [if_neg hn]
      · rw [if_pos (by omega)]
        omega
    · rw [max_eq_left hle, if_pos (by omega)]

/-- C29: `Popup::configureView` places a popup of size `w x h` requested at `(x, y)` on
an output of size `W x H` at `(x', y')` with `x' = max(x, 0)` if `max(x, 0) + w <= W`
and `W - w` otherwise, and `y'` likewise with `h` and `H`; whenever `w <= W` and
`h <= H` the placed rectangle lies inside the output, and placing again at `(x', y')`
returns `(x', y')`. The values are `int` values with non-negative sizes for which
`max(x, 0) + w` and `max(y, 0) + h` do not overflow. -/
theorem popup_configureView_placement (p : Popup) (W H : Int)
    (hx : AxisInRange p.x p.surfaceWidth W) (hy : AxisInRange p.y p.surfaceHeight H) :
    p.configureView W H
        = (if max p.x 0 + p.surfaceWidth ≤ W then max p.x 0 else W - p.surfaceWidth,
            if max p.y 0 + p.surfaceHeight ≤ H then max p.y 0 else H - p.surfaceHeight)
      ∧ (p.surfaceWidth ≤ W → p.surfaceHeight ≤ H →
          0 ≤ (p.configureView W H).1 ∧ (p.configureView W H).1 + p.surfaceWidth ≤ W
            ∧ 0 ≤ (p.configureView W H).2 ∧ (p.configureView W H).2 + p.surfaceHeight ≤ H)
      ∧ ({ p with x := (p.configureView W H).1, y := (p.configureView W H).2 } : Popup).configureView
          W H = p.configureView W H := by
  refine ⟨?_, ?_, ?_⟩
  · unfold Popup.configureView
    rw [placeAxis_eq _ _ _ hx, placeAxis_eq _ _ _ hy]
  · intro hw hh
    obtain ⟨h1, h2⟩ := placeAxis_inside _ _ _ hx hw
    obtain ⟨h3, h4⟩ := placeAxis_inside _ _ _ hy hh
    exact ⟨h1, h2, h3, h4⟩
  · unfold Popup.configureView
    simp only
    rw [placeAxis_idem _ _ _ hx, placeAxis_idem _ _ _ hy]

theorem popup_configureView_placement_witness :
    Popup.configureView { surfaceWidth := 300, surfaceHeight := 200, x := 1800, y := -5 } 1920 1080
        = (1620, 0)
      ∧ Popup.configureView { surfaceWidth := 300, surfaceHeight := 200, x := 1620, y := 0 } 1920 1080
        = (1620, 0) := by
  obtain ⟨h1, _, h3⟩ := popup_configureView_placement
    { surfaceWidth := 300, surfaceHeight := 200, x := 1800, y := -5 } 1920 1080
    (by unfold AxisInRange; decide) (by unfold AxisInRange; decide)
  have hval : Popup.configureView { surfaceWidth := 300, surfaceHeight := 200, x := 1800, y := -5 }
      1920 1080 = (1620, 0) := by
    rw [h1]
    decide
  refine ⟨hval, ?_⟩
  rw [hval] at h3
  exact h3


/-! ## The position cache -/

theorem double_ofInt_toInt (n : Int) (hlo : -2147483648 ≤ n) (hhi : n < 2147483648) :
    (Double.ofInt n).toInt = some n := by
  unfold Double.toInt Double.ofInt
  simp [hlo, hhi]

theorem cacheId_title_injective (a t1 t2 : String) (h : a ++ "+" ++ t1 = a ++ "+" ++ t2) :
    t1 = t2 := by
  have hd := congrArg String.data h
  simp only [String.data_append, List.append_assoc] at hd
  exact String.ext (List.append_cancel_left (List.append_cancel_left hd))

theorem cacheId_appId_injective (a1 a2 t : String) (h : a1 ++ "+" ++ t = a2 ++ "+" ++ t) :
    a1 = a2 := by
  have hd := congrArg String.data h
  simp only [String.data_append] at hd
  exact String.ext (List.append_cancel_right (List.append_cancel_right hd))

/-- What `moveViews` does to the cache. -/
theorem moveViews_cache (cache : PosCache) (s : ShellSurface) (x y : Double) (px py : Int)
    (hx : x.toInt = some px) (hy : y.toInt = some py) :
    s.moveViews cache x y
      = some ((fun k => if k = s.cacheId then some (px, py) else cache k),
          { s with trace := s.trace ++ s.m_views.map fun ov => Event.viewMove ov.1 x y }) := by
  unfold ShellSurface.moveViews
  rw [hx, hy]

/-- C22 (as stated, refuted): the surfaces `("a+b", "c")` and `("a", "b+c")` have
different (appId, title) pairs and the same cache key `a+b+c`: after `moveViews(100, 200)`
on the first, `moveViews(5, 7)` on the second changes what `cachedPos` returns on the
first to `(5, 7)`. And `moveViews(3/2, 0)` stores `(1, 0)`, not `(3/2, 0)`. -/
theorem position_cache_key_collision :
    ((sampleSurface.setAppId "a+b").setTitle "c").m_appId ≠ ((sampleSurface.setAppId "a").setTitle "b+c").m_appId
      ∧ (∃ c1 s1 c2 s2,
          ((sampleSurface.setAppId "a+b").setTitle "c").moveViews PosCache.empty
              (Double.ofInt 100) (Double.ofInt 200) = some (c1, s1)
            ∧ ((sampleSurface.setAppId "a+b").setTitle "c").cachedPos c1 = some (100, 200)
            ∧ ((sampleSurface.setAppId "a").setTitle "b+c").moveViews c1
                (Double.ofInt 5) (Double.ofInt 7) = some (c2, s2)
            ∧ ((sampleSurface.setAppId "a+b").setTitle "c").cachedPos c2 = some (5, 7))
      ∧ (∃ c1 s1,
          sampleSurface.moveViews PosCache.empty ⟨3, 1⟩ (Double.ofInt 0) = some (c1, s1)
            ∧ sampleSurface.cachedPos c1 = some (1, 0)
            ∧ ¬ Double.same (Double.ofInt 1) ⟨3, 1⟩) := by
  refine ⟨by decide, ⟨_, _, _, _, rfl, by decide, rfl, by decide⟩, ⟨_, _, rfl, by decide, by decide⟩⟩

/-- C22 (amended): the position cache maps the key `appId + "+" + title` to the last
window position. After `moveViews(x, y)` on a surface, `cachedPos` on any surface with
the same key, in particular with the same appId and the same title, returns `(x, y)`
converted to `int` (`(x, y)` itself for whole numbers). It is unaffected by `moveViews`
on a surface whose key differs, in particular one with the same appId and another title
or the same title and another appId. `cachedPos` is unset for a key that was never
stored. -/
theorem position_cache_by_key (cache : PosCache) (s : ShellSurface) (x y : Double) (px py : Int)
    (hx : x.toInt = some px) (hy : y.toInt = some py) :
    (∃ c1 s1, s.moveViews cache x y = some (c1, s1)
      ∧ (∀ t : ShellSurface, t.cacheId = s.cacheId → t.cachedPos c1 = some (px, py))
      ∧ (∀ t : ShellSurface, t.m_appId = s.m_appId → t.m_title = s.m_title →
          t.cachedPos c1 = some (px, py))
      ∧ (∀ t : ShellSurface, t.cacheId ≠ s.cacheId → t.cachedPos c1 = t.cachedPos cache)
      ∧ (∀ t : ShellSurface, t.m_appId = s.m_appId → t.m_title ≠ s.m_title →
          t.cachedPos c1 = t.cachedPos cache)
      ∧ (∀ t : ShellSurface, t.m_title = s.m_title → t.m_appId ≠ s.m_appId →
          t.cachedPos c1 = t.cachedPos cache))
    ∧ (∀ n m : Int, x = Double.ofInt n → y = Double.ofInt m → px = n ∧ py = m)
    ∧ (∀ t : ShellSurface, t.cachedPos PosCache.empty = none) := by
  have hother : ∀ t : ShellSurface, t.cacheId ≠ s.cacheId →
      t.cachedPos (fun k => if k = s.cacheId then some (px, py) else cache k) = t.cachedPos cache := by
    intro t ht
    unfold ShellSurface.cachedPos
    simp only [if_neg ht]
  have hsame : ∀ t : ShellSurface, t.cacheId = s.cacheId →
      t.cachedPos (fun k => if k = s.cacheId then some (px, py) else cache k) = some (px, py) := by
    intro t ht
    unfold ShellSurface.cachedPos
    simp only [if_pos ht]
  refine ⟨⟨_, _, moveViews_cache cache s x y px py hx hy, hsame, ?_, hother, ?_, ?_⟩, ?_, fun _ => rfl⟩
  · intro t ha ht
    apply hsame
    unfold ShellSurface.cacheId
    rw [ha, ht]
  · intro t ha ht
    apply hother
    intro hid
    unfold ShellSurface.cacheId at hid
    rw [ha] at hid
    exact ht (cacheId_title_injective _ _ _ hid)
  · intro t ht ha
    apply hother
    intro hid
    unfold ShellSurface.cacheId at hid
    rw [ht] at hid
    exact ha (cacheId_appId_injective _ _ _ hid)
  · intro n m hn hm
    subst hn hm
    unfold Double.toInt Double.ofInt at hx hy
    simp only [pow_zero, Int.tdiv_one] at hx hy
    split at hx
    · split at hy
      · exact ⟨(Option.some.inj hx).symm, (Option.some.inj hy).symm⟩
      · exact absurd hy (by simp)
    · exact absurd hx (by simp)

theorem position_cache_by_key_witness :
    ∃ c1 s1, ((sampleSurface.setAppId "term").setTitle "shell").moveViews PosCache.empty
        (Double.ofInt 100) (Double.ofInt 200) = some (c1, s1)
      ∧ ((sampleSurface.setAppId "term").setTitle "shell").cachedPos c1 = some (100, 200)
      ∧ ((sampleSurface.setAppId "term").setTitle "editor").cachedPos c1 = none := by
  obtain ⟨⟨c1, s1, hmove, hsame, _, _, htitle, _⟩, _, hempty⟩ :=
    position_cache_by_key PosCache.empty ((sampleSurface.setAppId "term").setTitle "shell")
      (Double.ofInt 100) (Double.ofInt 200) 100 200 (by decide) (by decide)
  refine ⟨c1, s1, hmove, hsame _ rfl, ?_⟩
  rw [htitle ((sampleSurface.setAppId "term").setTitle "editor") (by decide) (by decide)]
  exact hempty _


/-! ## Resize grab motion -/

theorem bitLengthFuel_zero (fuel : Nat) : bitLengthFuel fuel 0 = 0 := by
  cases fuel <;> simp [bitLengthFuel]

/-- A number with `b` binary digits is at least `2 ^ (b - 1)`. -/
theorem bitLengthFuel_le : ∀ fuel a : Nat, a ≠ 0 → a ≤ fuel → 2 ^ bitLengthFuel fuel a ≤ 2 * a := by
  intro fuel
  induction fuel with
  | zero =>
    intro a ha hle
    omega
  | succ n ih =>
    intro a ha hle
    simp only [bitLengthFuel, if_neg ha]
    by_cases h2 : a / 2 = 0
    · rw [h2, bitLengthFuel_zero]
      simp only [zero_add, pow_one]
      omega
    · have hrec := ih (a / 2) h2 (by omega)
      rw [pow_succ]
      omega

theorem isWhole_ofInt (n : Int) : (Double.ofInt n).isWhole n := by
  unfold Double.isWhole Double.ofInt
  simp

theorem isWhole_exactSub (a b : Double) (za zb : Int) (ha : a.isWhole za) (hb : b.isWhole zb) :
    (a.exactSub b).isWhole (za - zb) := by
  unfold Double.isWhole at *
  unfold Double.exactSub
  simp only
  rw [ha, hb, mul_assoc, mul_assoc, ← pow_add, ← pow_add,
    Nat.add_sub_cancel' (le_max_left _ _), Nat.add_sub_cancel' (le_max_right _ _)]
  ring

theorem isWhole_exactAdd (a b : Double) (za zb : Int) (ha : a.isWhole za) (hb : b.isWhole zb) :
    (a.exactAdd b).isWhole (za + zb) := by
  unfold Double.isWhole at *
  unfold Double.exactAdd
  simp only
  rw [ha, hb, mul_assoc, mul_assoc, ← pow_add, ← pow_add,
    Nat.add_sub_cancel' (le_max_left _ _), Nat.add_sub_cancel' (le_max_right _ _)]
  ring

theorem roundDrop_multiple (x s : Nat) : roundDrop (x * 2 ^ s) s = x := by
  unfold roundDrop
  by_cases hs : s = 0
  · rw [if_pos hs, hs]
    simp
  · rw [if_neg hs]
    have hpos : 0 < 2 ^ s := Nat.two_pow_pos _
    have hhalf : 0 < 2 ^ (s - 1) := Nat.two_pow_pos _
    simp only [Nat.mul_mod_left, Nat.mul_div_cancel _ hpos]
    rw [if_neg]
    intro h
    rcases h with h | h
    · omega
    · omega

/-- Rounding leaves a whole number of fewer than 54 binary digits as it is. -/
theorem round_isWhole (v : Double) (z : Int) (hv : v.isWhole z) (hz : z.natAbs < 2 ^ 53) :
    ∃ r, v.round = some r ∧ r.isWhole z := by
  unfold Double.isWhole at hv
  have ha : v.num.natAbs = z.natAbs * 2 ^ v.exp := by
    rw [hv, Int.natAbs_mul, Int.natAbs_pow]
    rfl
  have hsign : v.num.sign = z.sign := by
    rw [hv, Int.sign_mul, Int.sign_eq_one_of_pos (pow_pos (by decide) _), mul_one]
  have hb : bitLength v.num.natAbs ≤ v.exp + 53 := by
    by_cases h0 : v.num.natAbs = 0
    · rw [h0]
      simp [bitLength, bitLengthFuel]
    · have h1 := bitLengthFuel_le _ _ h0 (le_refl v.num.natAbs)
      have h2 : v.num.natAbs < 2 ^ 53 * 2 ^ v.exp := by
        rw [ha]
        exact Nat.mul_lt_mul_of_pos_right hz (Nat.two_pow_pos _)
      have h3 : 2 ^ bitLength v.num.natAbs < 2 ^ (v.exp + 54) := by
        have : 2 ^ (v.exp + 54) = 2 * (2 ^ 53 * 2 ^ v.exp) := by
          rw [pow_add]
          ring
        rw [this]
        unfold bitLength
        omega
      by_contra hcon
      have h4 : v.exp + 54 ≤ bitLength v.num.natAbs := by omega
      have := Nat.pow_le_pow_right (show 0 < 2 by decide) h4
      omega
  unfold Double.round
  simp only [if_pos hb]
  refine ⟨_, rfl, ?_⟩
  unfold Double.isWhole
  simp only
  have hm : ∀ p : Nat,
      (if v.exp ≤ p then v.num.natAbs * 2 ^ (p - v.exp) else roundDrop v.num.natAbs (v.exp - p))
        = z.natAbs * 2 ^ p := by
    intro p
    split
    · rename_i hle
      rw [ha, mul_assoc, ← pow_add, Nat.add_sub_cancel' hle]
    · rename_i hlt
      have hsplit : z.natAbs * 2 ^ v.exp = (z.natAbs * 2 ^ p) * 2 ^ (v.exp - p) := by
        rw [mul_assoc, ← pow_add, Nat.add_sub_cancel' (by omega)]
      rw [ha, hsplit, roundDrop_multiple]
  rw [hm, hsign]
  push_cast
  rw [← mul_assoc, Int.sign_mul_abs]

theorem toInt_isWhole (d : Double) (z r : Int) (hd : d.isWhole z) (h : d.toInt = some r) :
    r = z := by
  unfold Double.isWhole at hd
  unfold Double.toInt at h
  simp only at h
  rw [hd, Int.mul_tdiv_cancel _ (pow_ne_zero _ (by decide))] at h
  split at h
  · exact (Option.some.inj h).symm
  · exact absurd h (by simp)

/-- `W0 - (a - c)` in `double` arithmetic on whole numbers of `int` size is exact. -/
theorem sub_sub_whole (W0 a c w : Int)
    (hW : -2147483648 ≤ W0 ∧ W0 < 2147483648) (ha : -2147483648 ≤ a ∧ a < 2147483648)
    (hc : -2147483648 ≤ c ∧ c < 2147483648)
    (h : (((Double.ofInt a).sub (Double.ofInt c)).bind fun d => (Double.ofInt W0).sub d).bind
      Double.toInt = some w) :
    w = W0 - (a - c) := by
  obtain ⟨d, hd, hdw⟩ := round_isWhole _ (a - c)
    (isWhole_exactSub _ _ a c (isWhole_ofInt a) (isWhole_ofInt c)) (by omega)
  obtain ⟨r, hr, hrw⟩ := round_isWhole _ (W0 - (a - c))
    (isWhole_exactSub _ _ W0 (a - c) (isWhole_ofInt W0) hdw) (by omega)
  unfold Double.sub at h
  rw [hd] at h
  simp only [Option.some_bind] at h
  rw [hr] at h
  exact toInt_isWhole r _ w hrw h

/-- `W0 + (a - c)` in `double` arithmetic on whole numbers of `int` size is exact. -/
theorem add_sub_whole (W0 a c w : Int)
    (hW : -2147483648 ≤ W0 ∧ W0 < 2147483648) (ha : -2147483648 ≤ a ∧ a < 2147483648)
    (hc : -2147483648 ≤ c ∧ c < 2147483648)
    (h : (((Double.ofInt a).sub (Double.ofInt c)).bind fun d => (Double.ofInt W0).add d).bind
      Double.toInt = some w) :
    w = W0 + (a - c) := by
  obtain ⟨d, hd, hdw⟩ := round_isWhole _ (a - c)
    (isWhole_exactSub _ _ a c (isWhole_ofInt a) (isWhole_ofInt c)) (by omega)
  obtain ⟨r, hr, hrw⟩ := round_isWhole _ (W0 + (a - c))
    (isWhole_exactAdd _ _ W0 (a - c) (isWhole_ofInt W0) hdw) (by omega)
  unfold Double.sub at h
  rw [hd] at h
  simp only [Option.some_bind] at h
  unfold Double.add at h
  rw [hr] at h
  exact toInt_isWhole r _ w hrw h

/-- C24 (as stated, refuted): a resize grab with the Left edge (and one with the Right
edge), started on a surface of size 640 x 480; a motion from the local position
`(10, 10)` to `(10 + 1/2, 10)`, a delta of `(1/2, 0)`, sends a configure of width 639
for Left (not `640 - 1/2`) and of width 640 for Right (not `640 + 1/2`). -/
theorem resize_motion_truncates :
    ((sampleSurface.setConfigureSender true).resize sampleEnv 1 4).m_currentGrab
        = some (Grab.ResizeGrab 1 640 480)
      ∧ (ResizeGrab.motion 640 480 ((sampleSurface.setConfigureSender true).resize sampleEnv 1 4)
            ⟨21, 1⟩ (Double.ofInt 10) ⟨Double.ofInt 10, Double.ofInt 10⟩ ⟨⟨21, 1⟩, Double.ofInt 10⟩).map
          (fun t => t.trace)
        = some [Event.grabStart 1 4, Event.pointerMove ⟨21, 1⟩ (Double.ofInt 10),
            Event.sendConfigure 639 480]
      ∧ ¬ Double.same (Double.ofInt 639) ((Double.ofInt 640).exactSub ⟨1, 1⟩)
      ∧ (ResizeGrab.motion 640 480 ((sampleSurface.setConfigureSender true).resize sampleEnv 1 8)
            ⟨21, 1⟩ (Double.ofInt 10) ⟨Double.ofInt 10, Double.ofInt 10⟩ ⟨⟨21, 1⟩, Double.ofInt 10⟩).map
          (fun t => t.trace)
        = some [Event.grabStart 1 8, Event.pointerMove ⟨21, 1⟩ (Double.ofInt 10),
            Event.sendConfigure 640 480]
      ∧ ¬ Double.same (Double.ofInt 640) ((Double.ofInt 640).exactAdd ⟨1, 1⟩) := by
  decide

/-- C24 (amended): during a resize grab, every motion from the local grab position
`from` to the local position `to` calls `sendConfigure` (which sends a configure when a
configure sender is set) with width = `W0 - dx` if the Left edge is active, otherwise
`W0 + dx` if the Right edge is active and `W0` otherwise, and height = `H0 - dy` if Top
is active, otherwise `H0 + dy` if Bottom is active and `H0` otherwise, where
`(dx, dy) = to - from` and every difference and sum is computed in `double` arithmetic
and the result converted to `int` by discarding the fractional part; for positions that
are whole numbers of `int` size these are `W0 - dx`, `W0 + dx`, `H0 - dy`, `H0 + dy` themselves.
`W0 x H0` is the size captured at grab start. Motions change neither the grab nor any
member of the surface. -/
theorem resize_motion_configure (W0 H0 : Int) (s : ShellSurface) (x y : Double)
    (fromLocal toLocal : QPointF) (w h : Int)
    (hW0 : -2147483648 ≤ W0 ∧ W0 < 2147483648) (hH0 : -2147483648 ≤ H0 ∧ H0 < 2147483648)
    (_hfrom : fromLocal.x.isBinary64 = true ∧ fromLocal.y.isBinary64 = true)
    (_hto : toLocal.x.isBinary64 = true ∧ toLocal.y.isBinary64 = true)
    (hw : (if int32And s.m_resizeEdges Edges.Left ≠ 0 then
            ((toLocal.x.sub fromLocal.x).bind fun d => (Double.ofInt W0).sub d).bind Double.toInt
          else if int32And s.m_resizeEdges Edges.Right ≠ 0 then
            ((toLocal.x.sub fromLocal.x).bind fun d => (Double.ofInt W0).add d).bind Double.toInt
          else some W0) = some w)
    (hh : (if int32And s.m_resizeEdges Edges.Top ≠ 0 then
            ((toLocal.y.sub fromLocal.y).bind fun d => (Double.ofInt H0).sub d).bind Double.toInt
          else if int32And s.m_resizeEdges Edges.Bottom ≠ 0 then
            ((toLocal.y.sub fromLocal.y).bind fun d => (Double.ofInt H0).add d).bind Double.toInt
          else some H0) = some h) :
    ResizeGrab.motion W0 H0 s x y fromLocal toLocal
        = some { s with trace := s.trace ++ Event.pointerMove x y
            :: (if s.m_configureSender = true then [Event.sendConfigure w h] else []) }
      ∧ (∀ a b c d : Int,
          (-2147483648 ≤ a ∧ a < 2147483648) → (-2147483648 ≤ b ∧ b < 2147483648) →
          (-2147483648 ≤ c ∧ c < 2147483648) → (-2147483648 ≤ d ∧ d < 2147483648) →
          toLocal = ⟨Double.ofInt a, Double.ofInt b⟩ →
          fromLocal = ⟨Double.ofInt c, Double.ofInt d⟩ →
          w = (if int32And s.m_resizeEdges Edges.Left ≠ 0 then W0 - (a - c)
                else if int32And s.m_resizeEdges Edges.Right ≠ 0 then W0 + (a - c) else W0)
            ∧ h = (if int32And s.m_resizeEdges Edges.Top ≠ 0 then H0 - (b - d)
                else if int32And s.m_resizeEdges Edges.Bottom ≠ 0 then H0 + (b - d) else H0)) := by
  constructor
  · unfold ResizeGrab.motion
    have he : (s.emit (Event.pointerMove x y)).m_resizeEdges = s.m_resizeEdges := rfl
    simp only [he, hw, hh]
    unfold ShellSurface.sendConfigure ShellSurface.emit
    by_cases hs : s.m_configureSender = true
    · simp [hs]
    · simp [hs]
  · intro a b c d ha hb hc hd hto hfrom
    subst hto hfrom
    constructor
    · split at hw
      · rw [if_pos (by assumption)]
        exact sub_sub_whole W0 a c w hW0 ha hc hw
      · split at hw
        · rw [if_neg (by assumption), if_pos (by assumption)]
          exact add_sub_whole W0 a c w hW0 ha hc hw
        · rw [if_neg (by assumption), if_neg (by assumption)]
          exact (Option.some.inj hw).symm
    · split at hh
      · rw [if_pos (by assumption)]
        exact sub_sub_whole H0 b d h hH0 hb hd hh
      · split at hh
        · rw [if_neg (by assumption), if_pos (by assumption)]
          exact add_sub_whole H0 b d h hH0 hb hd hh
        · rw [if_neg (by assumption), if_neg (by assumption)]
          exact (Option.some.inj hh).symm

set_option maxRecDepth 8000 in
theorem resize_motion_configure_witness :
    ResizeGrab.motion 640 480 ((sampleSurface.setConfigureSender true).resize sampleEnv 1 5)
        (Double.ofInt 90) (Double.ofInt 70) ⟨Double.ofInt 100, Double.ofInt 100⟩
        ⟨Double.ofInt 90, Double.ofInt 70⟩
      = some { (sampleSurface.setConfigureSender true).resize sampleEnv 1 5 with
          trace := [Event.grabStart 1 5, Event.pointerMove (Double.ofInt 90) (Double.ofInt 70),
            Event.sendConfigure 650 510] }
      ∧ ResizeGrab.motion 640 480 ((sampleSurface.setConfigureSender true).resize sampleEnv 1 4)
          ⟨1, 53⟩ (Double.ofInt 0) ⟨Double.ofInt 0, Double.ofInt 0⟩ ⟨⟨1, 53⟩, Double.ofInt 0⟩
        = some { (sampleSurface.setConfigureSender true).resize sampleEnv 1 4 with
            trace := [Event.grabStart 1 4, Event.pointerMove ⟨1, 53⟩ (Double.ofInt 0),
              Event.sendConfigure 640 480] } :=
  ⟨(resize_motion_configure 640 480 ((sampleSurface.setConfigureSender true).resize sampleEnv 1 5)
      (Double.ofInt 90) (Double.ofInt 70) ⟨Double.ofInt 100, Double.ofInt 100⟩
      ⟨Double.ofInt 90, Double.ofInt 70⟩ 650 510 (by decide) (by decide) (by decide) (by decide)
      (by decide) (by decide)).1,
    (resize_motion_configure 640 480 ((sampleSurface.setConfigureSender true).resize sampleEnv 1 4)
      ⟨1, 53⟩ (Double.ofInt 0) ⟨Double.ofInt 0, Double.ofInt 0⟩ ⟨⟨1, 53⟩, Double.ofInt 0⟩ 640 480
      (by decide) (by decide) (by decide) (by decide) (by decide) (by decide)).1⟩


/-! ## Offsets of an edge-anchored resize -/

/-- C25: in the `Toplevel` branch of `configure`, with resize edges active every view is
configured with the offset `dx = oldWidth - newWidth` if the Left edge is active (else
0) and `dy = oldHeight - newHeight` if the Top edge is active (else 0), where the old
size is the recorded `m_width x m_height` and the new size is that of `geometry()`; the
opposite edge stays fixed (`x + dx + newWidth = x + oldWidth`,
`y + dy + newHeight = y + oldHeight`), and the recorded width and height become the new
size. With no resize edges active `dx = dy = 0` and the recorded width and height are
left unchanged. -/
theorem toplevel_configure_offsets (s : ShellSurface) :
    (s.m_resizeEdges ≠ 0 →
      (∃ map : Nat × ShellView → Bool,
        s.configureToplevelViews.trace = s.trace ++ s.m_views.map fun ov =>
          Event.configureToplevel ov.1 (map ov) s.m_toplevel.maximized s.m_toplevel.fullscreen
            (if int32And s.m_resizeEdges Edges.Left ≠ 0 then s.m_width - s.geometry.width else 0)
            (if int32And s.m_resizeEdges Edges.Top ≠ 0 then s.m_height - s.geometry.height else 0))
      ∧ s.configureToplevelViews.m_width = s.geometry.width
      ∧ s.configureToplevelViews.m_height = s.geometry.height
      ∧ (∀ x : Int, int32And s.m_resizeEdges Edges.Left ≠ 0 →
          x + (if int32And s.m_resizeEdges Edges.Left ≠ 0 then s.m_width - s.geometry.width else 0)
            + s.geometry.width = x + s.m_width)
      ∧ (∀ y : Int, int32And s.m_resizeEdges Edges.Top ≠ 0 →
          y + (if int32And s.m_resizeEdges Edges.Top ≠ 0 then s.m_height - s.geometry.height else 0)
            + s.geometry.height = y + s.m_height))
    ∧ (s.m_resizeEdges = 0 →
      (∃ map : Nat × ShellView → Bool,
        s.configureToplevelViews.trace = s.trace ++ s.m_views.map fun ov =>
          Event.configureToplevel ov.1 (map ov) s.m_toplevel.maximized s.m_toplevel.fullscreen 0 0)
      ∧ s.configureToplevelViews.m_width = s.m_width
      ∧ s.configureToplevelViews.m_height = s.m_height) := by
  constructor
  · intro hedges
    refine ⟨?_, ?_, ?_, ?_, ?_⟩
    · refine ⟨fun ov => ((s.m_state.maximized != s.m_toplevel.maximized)
        || (s.m_state.fullscreen != s.m_toplevel.fullscreen)
        || (s.m_state.size != s.geometry.size) || s.m_forceMap) || !ov.2.hasLayer, ?_⟩
      unfold ShellSurface.configureToplevelViews
      simp [hedges]
    · unfold ShellSurface.configureToplevelViews
      simp [hedges]
    · unfold ShellSurface.configureToplevelViews
      simp [hedges]
    · intro x hleft
      rw [if_pos hleft]
      omega
    · intro y htop
      rw [if_pos htop]
      omega
  · intro hedges
    refine ⟨?_, ?_, ?_⟩
    · refine ⟨fun ov => ((s.m_state.maximized != s.m_toplevel.maximized)
        || (s.m_state.fullscreen != s.m_toplevel.fullscreen)
        || (s.m_state.size != s.geometry.size) || s.m_forceMap) || !ov.2.hasLayer, ?_⟩
      unfold ShellSurface.configureToplevelViews
      simp [hedges]
    · unfold ShellSurface.configureToplevelViews
      simp [hedges]
    · unfold ShellSurface.configureToplevelViews
      simp [hedges]

theorem toplevel_configure_offsets_witness :
    (∃ map : Nat × ShellView → Bool,
      ({ sampleSurface.resize sampleEnv 1 5 with
          m_surface := { sampleContent with boundingBox := { x := 0, y := 0, width := 600, height := 400 } } } :
          ShellSurface).configureToplevelViews.trace
        = [Event.grabStart 1 5,
            Event.configureToplevel 1 (map (1, { id := 1, hasLayer := false })) false false 40 80,
            Event.configureToplevel 2 (map (2, { id := 2, hasLayer := false })) false false 40 80])
      ∧ ({ sampleSurface.resize sampleEnv 1 5 with
          m_surface := { sampleContent with boundingBox := { x := 0, y := 0, width := 600, height := 400 } } } :
          ShellSurface).configureToplevelViews.m_width = 600
      ∧ sampleSurface.configureToplevelViews.m_width = 0 := by
  obtain ⟨⟨map, htrace⟩, hwidth, _⟩ := (toplevel_configure_offsets ({ sampleSurface.resize sampleEnv 1 5 with
      m_surface := { sampleContent with boundingBox := { x := 0, y := 0, width := 600, height := 400 } } } :
      ShellSurface)).1 (by decide)
  refine ⟨⟨map, ?_⟩, hwidth, ((toplevel_configure_offsets sampleSurface).2 rfl).2.1⟩
  rw [htrace]
  rfl


/-! ## The toplevel flags -/

theorem setMaximized_flags (env : Env) (s t : ShellSurface)
    (h : s.setMaximized env = Outcome.done t) :
    t.m_toplevel.maximized = true ∧ t.m_toplevel.fullscreen = false := by
  unfold ShellSurface.setMaximized at h
  simp only at h
  split at h
  · exact absurd h (by simp)
  · simp only [Outcome.done.injEq] at h
    rw [← h]
    unfold ShellSurface.sendConfigure
    split <;> exact ⟨rfl, rfl⟩

theorem setFullscreen_flags (env : Env) (s t : ShellSurface)
    (h : s.setFullscreen env = Outcome.done t) :
    t.m_toplevel.fullscreen = true ∧ t.m_toplevel.maximized = false := by
  unfold ShellSurface.setFullscreen at h
  simp only at h
  split at h
  · exact absurd h (by simp)
  · simp only [Outcome.done.injEq] at h
    rw [← h]
    unfold ShellSurface.sendConfigure
    split <;> exact ⟨rfl, rfl⟩

theorem setFullscreen_done (env : Env) (s : ShellSurface) (hne : env.outputs ≠ []) :
    ∃ t, s.setFullscreen env = Outcome.done t := by
  obtain ⟨pre, sel, post, _, hsel, _, _⟩ := selectOutput_split env
    ({ s with
      m_nextType := SurfaceType.Toplevel
      m_toplevel := { s.m_toplevel with fullscreen := true, maximized := false } } : ShellSurface) hne
  unfold ShellSurface.setFullscreen
  simp only [hsel]
  exact ⟨_, rfl⟩

/-- Each call that returns keeps the two flags from being both set. -/
theorem call_keeps_flags_exclusive (env : Env) (fuel : Nat) (s t : ShellSurface) (c : SurfaceCall)
    (hinv : ¬ (s.m_toplevel.maximized = true ∧ s.m_toplevel.fullscreen = true))
    (h : c.run env fuel s = Outcome.done t) :
    ¬ (t.m_toplevel.maximized = true ∧ t.m_toplevel.fullscreen = true) := by
  cases c with
  | setToplevel =>
    simp only [SurfaceCall.run, Outcome.done.injEq] at h
    rw [← h]
    simp [ShellSurface.setToplevel]
  | setTransient parent x y inactive =>
    simp only [SurfaceCall.run, Outcome.done.injEq] at h
    rw [← h]
    exact hinv
  | setPopup parent seat x y =>
    simp only [SurfaceCall.run, Outcome.done.injEq] at h
    rw [← h]
    exact hinv
  | setXWayland x y inactive =>
    simp only [SurfaceCall.run, Outcome.done.injEq] at h
    rw [← h]
    exact hinv
  | setMaximized =>
    obtain ⟨_, h2⟩ := setMaximized_flags env s t h
    rw [h2]
    simp
  | setFullscreen =>
    obtain ⟨_, h2⟩ := setFullscreen_flags env s t h
    rw [h2]
    simp
  | configure =>
    have := (configure_done_type env fuel s t h).2.2.2.2.2.2
    rw [this]
    exact hinv

theorem calls_keep_flags_exclusive (env : Env) (fuel : Nat) (calls : List SurfaceCall) :
    ∀ s t : ShellSurface,
      ¬ (s.m_toplevel.maximized = true ∧ s.m_toplevel.fullscreen = true) →
      runSurfaceCalls env fuel s calls = Outcome.done t →
      ¬ (t.m_toplevel.maximized = true ∧ t.m_toplevel.fullscreen = true) := by
  induction calls with
  | nil =>
    intro s t hinv h
    simp only [runSurfaceCalls, Outcome.done.injEq] at h
    rw [← h]
    exact hinv
  | cons c cs ih =>
    intro s t hinv h
    rw [runSurfaceCalls] at h
    cases hc : c.run env fuel s with
    | done u =>
      rw [hc] at h
      exact ih u t (call_keeps_flags_exclusive env fuel s u c hinv hc) h
    | crash =>
      rw [hc] at h
      exact absurd h (by simp)
    | outOfFuel =>
      rw [hc] at h
      exact absurd h (by simp)

/-- C28: in every state reached from construction through a sequence of `setToplevel`,
`setTransient`, `setPopup`, `setXWayland`, `setMaximized`, `setFullscreen` and
`configure` calls, the toplevel flags `maximized` and `fullscreen` are never both true
(and the same holds from any state in which they are not both true). After
`setToplevel` both are false; after a `setMaximized` that returns exactly `maximized` is
true, after a `setFullscreen` that returns exactly `fullscreen` is true, and both return
whenever the compositor has an output. -/
theorem toplevel_flags_exclusive (env : Env) (fuel : Nat) :
    (∀ surface w0 h0 calls t,
      runSurfaceCalls env fuel (ShellSurface.new env surface w0 h0) calls = Outcome.done t →
      ¬ (t.m_toplevel.maximized = true ∧ t.m_toplevel.fullscreen = true))
    ∧ (∀ (s t : ShellSurface) calls,
      ¬ (s.m_toplevel.maximized = true ∧ s.m_toplevel.fullscreen = true) →
      runSurfaceCalls env fuel s calls = Outcome.done t →
      ¬ (t.m_toplevel.maximized = true ∧ t.m_toplevel.fullscreen = true))
    ∧ (∀ s : ShellSurface,
      s.setToplevel.m_toplevel.maximized = false ∧ s.setToplevel.m_toplevel.fullscreen = false)
    ∧ (∀ s t : ShellSurface, s.setMaximized env = Outcome.done t →
      t.m_toplevel.maximized = true ∧ t.m_toplevel.fullscreen = false)
    ∧ (∀ s t : ShellSurface, s.setFullscreen env = Outcome.done t →
      t.m_toplevel.fullscreen = true ∧ t.m_toplevel.maximized = false)
    ∧ (env.outputs ≠ [] → ∀ s : ShellSurface,
      (∃ t, s.setMaximized env = Outcome.done t) ∧ ∃ t, s.setFullscreen env = Outcome.done t) := by
  refine ⟨?_, ?_, fun _ => ⟨rfl, rfl⟩, setMaximized_flags env, setFullscreen_flags env, ?_⟩
  · intro surface w0 h0 calls t h
    exact calls_keep_flags_exclusive env fuel calls _ t (by simp [ShellSurface.new]) h
  · intro s t calls hinv h
    exact calls_keep_flags_exclusive env fuel calls s t hinv h
  · intro hne s
    obtain ⟨sel, _, hdone⟩ := setMaximized_done env s hne
    exact ⟨⟨_, hdone⟩, setFullscreen_done env s hne⟩

theorem toplevel_flags_exclusive_witness :
    ∃ t, runSurfaceCalls sampleEnv 2 sampleSurface
        [SurfaceCall.setToplevel, SurfaceCall.setMaximized, SurfaceCall.configure,
          SurfaceCall.setFullscreen, SurfaceCall.configure] = Outcome.done t
      ∧ t.m_toplevel.fullscreen = true
      ∧ ¬ (t.m_toplevel.maximized = true ∧ t.m_toplevel.fullscreen = true) := by
  have hrun : ∃ t, runSurfaceCalls sampleEnv 2 sampleSurface
      [SurfaceCall.setToplevel, SurfaceCall.setMaximized, SurfaceCall.configure,
        SurfaceCall.setFullscreen, SurfaceCall.configure] = Outcome.done t
      ∧ t.m_toplevel.fullscreen = true := ⟨_, rfl, rfl⟩
  obtain ⟨t, ht, hfs⟩ := hrun
  exact ⟨t, ht, hfs, (toplevel_flags_exclusive sampleEnv 2).1 sampleContent 0 0 _ t ht⟩


/-! ## The loaded transition -/

/-- `setGrabCursor` writes neither the load state nor the earlier trace. -/
theorem setGrabCursor_load_state (d : DesktopShell) (p c : Nat) :
    (d.setGrabCursor p c).m_loaded = d.m_loaded
      ∧ (d.setGrabCursor p c).m_loadedOnce = d.m_loadedOnce
      ∧ (d.setGrabCursor p c).m_loadSerial = d.m_loadSerial
      ∧ ∀ e, e ∈ d.trace → e ∈ (d.setGrabCursor p c).trace := by
  unfold DesktopShell.setGrabCursor
  simp only
  split
  · exact ⟨rfl, rfl, rfl, fun e he => List.mem_append_left _ he⟩
  · exact ⟨rfl, rfl, rfl, fun e he => he⟩

theorem setGrabCursor_fold_load_state (cursors : List (Nat × Nat)) :
    ∀ d : DesktopShell,
      (cursors.foldl (fun acc pc => acc.setGrabCursor pc.1 pc.2) d).m_loaded = d.m_loaded
        ∧ (cursors.foldl (fun acc pc => acc.setGrabCursor pc.1 pc.2) d).m_loadedOnce = d.m_loadedOnce
        ∧ (cursors.foldl (fun acc pc => acc.setGrabCursor pc.1 pc.2) d).m_loadSerial = d.m_loadSerial
        ∧ ∀ e, e ∈ d.trace → e ∈ (cursors.foldl (fun acc pc => acc.setGrabCursor pc.1 pc.2) d).trace := by
  induction cursors with
  | nil => exact fun d => ⟨rfl, rfl, rfl, fun e he => he⟩
  | cons pc rest ih =>
    intro d
    obtain ⟨h1, h2, h3, h4⟩ := ih (d.setGrabCursor pc.1 pc.2)
    obtain ⟨g1, g2, g3, g4⟩ := setGrabCursor_load_state d pc.1 pc.2
    rw [List.foldl_cons]
    exact ⟨h1.trans g1, h2.trans g2, h3.trans g3, fun e he => h4 e (g4 e he)⟩

theorem emit_fold_load_state (workspaces : List Nat) :
    ∀ d : DesktopShell,
      (workspaces.foldl (fun acc ws =>
          acc.emit [ShellEvent.sendActivatedState ws, ShellEvent.sendPosition ws]) d).m_loadSerial
          = d.m_loadSerial
        ∧ (workspaces.foldl (fun acc ws =>
          acc.emit [ShellEvent.sendActivatedState ws, ShellEvent.sendPosition ws]) d).m_loaded
          = d.m_loaded
        ∧ (workspaces.foldl (fun acc ws =>
          acc.emit [ShellEvent.sendActivatedState ws, ShellEvent.sendPosition ws]) d).m_loadedOnce
          = d.m_loadedOnce := by
  induction workspaces with
  | nil => exact fun d => ⟨rfl, rfl, rfl⟩
  | cons w rest ih =>
    intro d
    rw [List.foldl_cons]
    exact ih _

/-- `outputBound` replaces the load serial by the one it issues and leaves the loaded
flags alone. -/
theorem outputBound_load_state (workspaces : List Nat) (d : DesktopShell) (output serial : Nat) :
    (d.outputBound workspaces output serial).m_loadSerial = serial
      ∧ (d.outputBound workspaces output serial).m_loaded = d.m_loaded
      ∧ (d.outputBound workspaces output serial).m_loadedOnce = d.m_loadedOnce := by
  unfold DesktopShell.outputBound
  exact emit_fold_load_state workspaces _

/-- An `outputLoaded` that passes the test. -/
theorem outputLoaded_fires (d : DesktopShell) (serial : Nat)
    (h : serial > 0 ∧ serial = d.m_loadSerial ∧ d.m_loaded = false) :
    (d.outputLoaded serial).m_loaded = true
      ∧ (d.outputLoaded serial).m_loadedOnce = true
      ∧ (d.outputLoaded serial).m_loadSerial = 0
      ∧ ShellEvent.splashHide ∈ (d.outputLoaded serial).trace := by
  unfold DesktopShell.outputLoaded
  rw [if_pos h]
  simp only
  obtain ⟨h1, h2, h3, h4⟩ := setGrabCursor_fold_load_state (d.emit [ShellEvent.splashHide]).m_grabCursor
    ({ d.emit [ShellEvent.splashHide] with m_loaded := true, m_loadedOnce := true, m_loadSerial := 0 })
  refine ⟨h1, h2, h3, h4 _ ?_⟩
  unfold DesktopShell.emit
  simp

/-- An `outputLoaded` that fails the test changes nothing. -/
theorem outputLoaded_ignored (d : DesktopShell) (serial : Nat)
    (h : ¬ (serial > 0 ∧ serial = d.m_loadSerial ∧ d.m_loaded = false)) :
    d.outputLoaded serial = d := by
  unfold DesktopShell.outputLoaded
  rw [if_neg h]

/-- C23 (as stated, refuted): outputs 1 and 2 are bound and get the load serials 7 and
8. The single acknowledgement `outputLoaded(8)` fires the loaded transition although
serial 7 of output 1 was never acknowledged; and when the client acknowledges in the
order of binding, `outputLoaded(7)` is ignored. -/
theorem loaded_fires_on_last_serial_only :
    ((((DesktopShell.new.outputBound [0] 1 7).outputBound [0] 2 8).outputLoaded 8).m_loaded = true
        ∧ (((DesktopShell.new.outputBound [0] 1 7).outputBound [0] 2 8).outputLoaded 8).trace
          = [ShellEvent.feedbackSendLoad 1 7, ShellEvent.sendActivatedState 0, ShellEvent.sendPosition 0,
              ShellEvent.feedbackSendLoad 2 8, ShellEvent.sendActivatedState 0, ShellEvent.sendPosition 0,
              ShellEvent.splashHide])
      ∧ ((DesktopShell.new.outputBound [0] 1 7).outputBound [0] 2 8).outputLoaded 7
          = (DesktopShell.new.outputBound [0] 1 7).outputBound [0] 2 8 := by
  decide

/-- C23 (amended): the loaded transition (splash hidden, `loaded` and `loadedOnce` set,
load serial reset to 0) fires on an `outputLoaded(serial)` exactly when the serial is
not 0, equals the load serial issued by the most recent `outputBound` (each
`outputBound` replaces the serial of the earlier ones) and the shell is not loaded; in
every other case (serial 0, a serial that was not issued or was replaced by a later
`outputBound`, or the shell already loaded) `outputLoaded` changes nothing, so a
repeated acknowledgement has no effect. -/
theorem loaded_transition (workspaces : List Nat) (d : DesktopShell) (serial : Nat) :
    ((serial > 0 ∧ serial = d.m_loadSerial ∧ d.m_loaded = false) →
      (d.outputLoaded serial).m_loaded = true
        ∧ (d.outputLoaded serial).m_loadedOnce = true
        ∧ (d.outputLoaded serial).m_loadSerial = 0
        ∧ ShellEvent.splashHide ∈ (d.outputLoaded serial).trace
        ∧ ∀ again, (d.outputLoaded serial).outputLoaded again = d.outputLoaded serial)
    ∧ (¬ (serial > 0 ∧ serial = d.m_loadSerial ∧ d.m_loaded = false) →
      d.outputLoaded serial = d)
    ∧ (∀ output issued, (d.outputBound workspaces output issued).m_loadSerial = issued
        ∧ (d.outputBound workspaces output issued).m_loaded = d.m_loaded
        ∧ (serial ≠ issued →
            (d.outputBound workspaces output issued).outputLoaded serial
              = d.outputBound workspaces output issued)) := by
  refine ⟨?_, outputLoaded_ignored d serial, ?_⟩
  · intro h
    obtain ⟨h1, h2, h3, h4⟩ := outputLoaded_fires d serial h
    refine ⟨h1, h2, h3, h4, ?_⟩
    intro again
    apply outputLoaded_ignored
    rw [h1]
    simp
  · intro output issued
    obtain ⟨h1, h2, _⟩ := outputBound_load_state workspaces d output issued
    refine ⟨h1, h2, ?_⟩
    intro hne
    apply outputLoaded_ignored
    rw [h1]
    intro h
    exact hne h.2.1

theorem loaded_transition_witness :
    ((DesktopShell.new.outputBound [0] 1 7).outputLoaded 7).m_loaded = true
      ∧ ((DesktopShell.new.outputBound [0] 1 7).outputLoaded 7).outputLoaded 7
          = (DesktopShell.new.outputBound [0] 1 7).outputLoaded 7
      ∧ (DesktopShell.new.outputBound [0] 1 7).outputLoaded 0
          = DesktopShell.new.outputBound [0] 1 7 := by
  obtain ⟨hfire, _, _⟩ := loaded_transition [0] (DesktopShell.new.outputBound [0] 1 7) 7
  obtain ⟨h1, _, _, _, hagain⟩ := hfire (by decide)
  exact ⟨h1, hagain 7,
    (loaded_transition [0] (DesktopShell.new.outputBound [0] 1 7) 0).2.1 (by decide)⟩


/-! ## Placement into a workspace -/

/-- A `configure` that returns, on a surface with content that the `Shell` leaves alone,
keeps the workspace of the surface. -/
theorem configure_keeps_workspace (env : Env) (fuel : Nat) (s t : ShellSurface) (w : Nat)
    (hshell : ∀ u : ShellSurface, env.isMapped u = specIsMapped u)
    (hws : s.m_workspace = some w) (hwidth : s.m_surface.width ≠ 0)
    (h : s.configure env (fuel + 1) = Outcome.done t) : t.m_workspace = some w := by
  rw [ShellSurface.configure] at h
  simp only [hwidth, if_false] at h
  split at h
  · simp only [Outcome.done.injEq] at h
    rw [← h]
    exact hws
  · have hmapped : env.isMapped (s.updateState.emit (Event.setActivable
        (decide (s.updateState.m_type ≠ SurfaceType.Transient) || !s.updateState.m_transient.inactive)))
        = true := by
      rw [hshell]
      unfold specIsMapped
      have : (s.updateState.emit (Event.setActivable
        (decide (s.updateState.m_type ≠ SurfaceType.Transient) || !s.updateState.m_transient.inactive))).m_workspace
        = some w := hws
      rw [this]
      rfl
    simp only [Shell.configure, hmapped, Bool.not_true, Bool.false_eq_true, if_false] at h
    split at h
    · simp only [Outcome.done.injEq] at h
      rw [← h]
      exact hws
    · have := (sameRole_configureViews env _ _ _ t h).2.2.2.2.1
      rw [this]
      exact hws

/-- C21: with `isMapped()` read as "has a workspace", `Shell::configure` places a shell
surface into a workspace if and only if the surface has none: a surface that has a
workspace is returned unchanged; a surface without one is passed to `setWorkspace` with
the first workspace of the `Shell`, and, when it has content, it has that workspace
when the call returns (and the call does return when the pointers of its pending role
are set). In `ShellSurface::configure`, for every reading of `isMapped()`: if the
surface has no workspace after `Shell::configure`, `configure` returns that state at
once, before any view is configured. -/
theorem shell_configure_places_unplaced (env : Env) (fuel : Nat) (s : ShellSurface) :
    ((∀ u : ShellSurface, env.isMapped u = specIsMapped u) →
      (∀ w, s.m_workspace = some w →
        Shell.configure env (ShellSurface.configure env fuel) s = Outcome.done s)
      ∧ (s.m_workspace = none → ∀ ws rest, env.workspaces = ws :: rest →
          Shell.configure env (ShellSurface.configure env (fuel + 1)) s
              = ShellSurface.configure env (fuel + 1)
                  { s with
                    m_workspace := some ws
                    m_forceMap := true
                    trace := s.trace ++ [Event.setWorkspaceMask ws] }
            ∧ (s.m_surface.width ≠ 0 →
                (∀ t, Shell.configure env (ShellSurface.configure env (fuel + 1)) s = Outcome.done t →
                  t.m_workspace = some ws)
                ∧ (s.parentSet →
                  ∃ t, Shell.configure env (ShellSurface.configure env (fuel + 1)) s = Outcome.done t))))
    ∧ (s.m_surface.width ≠ 0 → s.m_nextType ≠ SurfaceType.None →
        ∀ s3, Shell.configure env (ShellSurface.configure env fuel)
            (s.updateState.emit (Event.setActivable
              (decide (s.updateState.m_type ≠ SurfaceType.Transient) || !s.updateState.m_transient.inactive)))
            = Outcome.done s3 →
          s3.m_workspace = none → s.configure env (fuel + 1) = Outcome.done s3) := by
  constructor
  · intro hshell
    constructor
    · intro w hw
      unfold Shell.configure
      have : env.isMapped s = true := by
        rw [hshell]
        unfold specIsMapped
        rw [hw]
        rfl
      simp only [this, Bool.not_true, Bool.false_eq_true, if_false]
    · intro hnone ws rest hlist
      have hplace : Shell.configure env (ShellSurface.configure env (fuel + 1)) s
          = ShellSurface.configure env (fuel + 1)
              { s with
                m_workspace := some ws
                m_forceMap := true
                trace := s.trace ++ [Event.setWorkspaceMask ws] } := by
        unfold Shell.configure
        have : env.isMapped s = false := by
          rw [hshell]
          unfold specIsMapped
          rw [hnone]
          rfl
        simp only [this, Bool.not_false, if_true, hlist]
        rfl
      refine ⟨hplace, ?_⟩
      intro hwidth
      constructor
      · intro t ht
        rw [hplace] at ht
        exact configure_keeps_workspace env fuel
          { s with
            m_workspace := some ws
            m_forceMap := true
            trace := s.trace ++ [Event.setWorkspaceMask ws] } t ws hshell rfl hwidth ht
      · intro hsafe
        rw [hplace]
        refine configure_returns_mapped env fuel
          { s with
            m_workspace := some ws
            m_forceMap := true
            trace := s.trace ++ [Event.setWorkspaceMask ws] } ?_ hsafe
        rw [hshell]
        rfl
  · intro hwidth htype s3 hs3 hnone
    rw [ShellSurface.configure]
    have hne : ¬ (s.updateState.m_type = SurfaceType.None) := htype
    simp only [hwidth, if_false, hne, hs3, hnone, Option.isNone_none, if_true]

theorem shell_configure_places_unplaced_witness :
    Shell.configure sampleEnv (ShellSurface.configure sampleEnv 1) sampleMaximized
        = Outcome.done sampleMaximized
      ∧ (∃ t, Shell.configure sampleEnv (ShellSurface.configure sampleEnv 1) sampleSurface.setToplevel
            = Outcome.done t ∧ t.m_workspace = some 0)
      ∧ sampleSurface.setToplevel.configure { sampleEnv with isMapped := fun _ => true } 1
          = Outcome.done (sampleSurface.setToplevel.updateState.emit (Event.setActivable true)) := by
  obtain ⟨hspec, _⟩ := shell_configure_places_unplaced sampleEnv 1 sampleMaximized
  obtain ⟨hkeep, _⟩ := hspec (fun _ => rfl)
  obtain ⟨hspec2, _⟩ := shell_configure_places_unplaced sampleEnv 0 sampleSurface.setToplevel
  obtain ⟨_, hplace⟩ := hspec2 (fun _ => rfl)
  obtain ⟨_, hwidth⟩ := hplace rfl 0 [] rfl
  obtain ⟨hassigned, hreturns⟩ := hwidth (by decide)
  obtain ⟨t, ht⟩ := hreturns (by unfold ShellSurface.parentSet; decide)
  refine ⟨hkeep 0 rfl, ⟨t, ht, hassigned t ht⟩, ?_⟩
  exact (shell_configure_places_unplaced { sampleEnv with isMapped := fun _ => true } 0
    sampleSurface.setToplevel).2 (by decide) (by decide) _ rfl rfl


/-! ## Termination of `configure` -/

theorem configurePopupViews_bounded (env : Env) (s : ShellSurface) :
    s.configurePopupViews env ≠ Outcome.outOfFuel := by
  unfold ShellSurface.configurePopupViews
  split <;> simp

theorem configureTransientViews_bounded (env : Env) (s : ShellSurface) :
    s.configureTransientViews env ≠ Outcome.outOfFuel := by
  unfold ShellSurface.configureTransientViews
  split <;> simp

/-- The view configuration has no recursion: it returns or dereferences a null
pointer. -/
theorem configureViews_bounded (env : Env) (tc wm : Bool) (s : ShellSurface) :
    s.configureViews env tc wm ≠ Outcome.outOfFuel := by
  unfold ShellSurface.configureViews
  simp only
  generalize (if tc = true then s.emit Event.deleteExtraViews else s) = s1
  split
  · simp
  · split
    · cases hp : s1.configurePopupViews env with
      | done s2 => simp
      | crash => simp
      | outOfFuel => exact absurd hp (configurePopupViews_bounded env s1)
    · split
      · cases hp : s1.configureTransientViews env with
        | done s2 => simp
        | crash => simp
        | outOfFuel => exact absurd hp (configureTransientViews_bounded env s1)
      · split <;> simp

/-- One level of `configure` on a surface the `Shell` leaves alone. -/
theorem configure_bounded_mapped (env : Env) (fuel : Nat) (s : ShellSurface)
    (hmapped : env.isMapped
      (s.updateState.emit (Event.setActivable
        (decide (s.updateState.m_type ≠ SurfaceType.Transient) || !s.updateState.m_transient.inactive)))
      = true) :
    s.configure env (fuel + 1) ≠ Outcome.outOfFuel := by
  by_cases hzero : s.m_surface.width = 0
  · rw [configure_zero_width env fuel s hzero]
    simp
  · simp only [ShellSurface.configure, hzero, if_false]
    split
    · simp
    · simp only [Shell.configure, hmapped, Bool.not_true, Bool.false_eq_true, if_false]
      split
      · simp
      · exact configureViews_bounded env _ _ _

/-- With no workspace in the `Shell`, the `configure` of a surface with content and a
pending role that the `Shell` has to place reads `m_workspaces.first()` of the empty
list. -/
theorem configure_without_workspaces (env : Env) (fuel : Nat) (s : ShellSurface)
    (hwidth : s.m_surface.width ≠ 0) (htype : s.m_nextType ≠ SurfaceType.None)
    (hunmapped : env.isMapped
      (s.updateState.emit (Event.setActivable
        (decide (s.updateState.m_type ≠ SurfaceType.Transient) || !s.updateState.m_transient.inactive)))
      = false)
    (hnone : env.workspaces = []) :
    s.configure env (fuel + 1) = Outcome.crash := by
  rw [ShellSurface.configure]
  have hne : ¬ (s.updateState.m_type = SurfaceType.None) := htype
  simp only [hwidth, if_false, hne, Shell.configure, hunmapped, Bool.not_false, if_true, hnone]

/-- With `isMapped()` read as "has a workspace", the chain
`configure -> Shell::configure -> setWorkspace -> configure` has depth at most two, for
every state and every workspace list: a budget of two levels is never used up. -/
theorem configure_bounded (env : Env) (fuel : Nat) (s : ShellSurface)
    (hshell : ∀ u : ShellSurface, env.isMapped u = specIsMapped u) :
    s.configure env (fuel + 2) ≠ Outcome.outOfFuel := by
  by_cases hzero : s.m_surface.width = 0
  · rw [configure_zero_width env (fuel + 1) s hzero]
    simp
  · by_cases htype : s.m_nextType = SurfaceType.None
    · rw [configure_next_none env (fuel + 1) s hzero htype]
      simp
    · cases hws : s.m_workspace with
      | some w =>
        apply configure_bounded_mapped
        rw [hshell]
        unfold specIsMapped
        have : (s.updateState.emit (Event.setActivable
          (decide (s.updateState.m_type ≠ SurfaceType.Transient) || !s.updateState.m_transient.inactive))).m_workspace
          = some w := hws
        rw [this]
        rfl
      | none =>
        cases hlist : env.workspaces with
        | nil =>
          rw [configure_without_workspaces env (fuel + 1) s hzero htype
            (by rw [hshell]; unfold specIsMapped; exact (congrArg Option.isSome hws).trans rfl) hlist]
          simp
        | cons ws rest =>
          rw [configure_unplaced env (fuel + 1) s ws rest hzero htype (fun u => hshell u) hws hlist]
          have hnested := configure_bounded_mapped env fuel
            { (({ s.updateState.emit (Event.setActivable
                  (decide (s.updateState.m_type ≠ SurfaceType.Transient) || !s.updateState.m_transient.inactive))
                with m_workspace := some ws } : ShellSurface).emit (Event.setWorkspaceMask ws))
              with m_forceMap := true }
            (by rw [hshell]; rfl)
          revert hnested
          generalize ShellSurface.configure env (fuel + 1)
            { (({ s.updateState.emit (Event.setActivable
                  (decide (s.updateState.m_type ≠ SurfaceType.Transient) || !s.updateState.m_transient.inactive))
                with m_workspace := some ws } : ShellSurface).emit (Event.setWorkspaceMask ws))
              with m_forceMap := true } = r
          intro hnested
          cases r with
          | done s3 =>
            simp only
            split
            · simp
            · exact configureViews_bounded env _ _ _
          | crash => simp
          | outOfFuel => exact absurd rfl hnested

/-- C26 (the code at the failing input): a new toplevel surface with content 640 x 480,
not mapped and without a workspace, is configured while the `Shell` has no workspace:
`Shell::configure` takes `m_workspaces.first()` of the empty list and `configure` does
not run to completion. With one workspace in the list the same call returns. -/
theorem configure_crashes_without_workspaces :
    sampleSurface.setToplevel.configure { sampleEnv with workspaces := [] } 2 = Outcome.crash
      ∧ ∃ t, sampleSurface.setToplevel.configure sampleEnv 2 = Outcome.done t := by
  constructor
  · decide
  · exact ⟨_, rfl⟩

end Orbital
